import Mathlib

/-!
# Kaiju rendering: draw batcher, material cache and render-pass construction

A shallow embedding of `Drawings` (the per-frame draw batcher of
`rendering/drawing.go`) with its operations `AddDrawing`, `AddDrawings`,
`PreparePending`, `Render`, `Destroy` and `HasDrawings`, of `MaterialCache`
(`rendering/material_cache.go`) and of `RenderPassData.ConstructRenderPass`
(`rendering/render_pass.go`), followed by the properties proved about them.

Conventions of the embedding:

* a Go pointer is an `Option Nat`: `none` is `nil`, `some a` is the address `a`;
  pointer comparison `==` is equality of these values;
* objects that the batcher only reads through a pointer (materials, shader-data
  records) live in a `Heap` that is passed to the operation;
* a Go panic (nil dereference, index out of range) is the result `none`;
* slices are lists, `append` is `++`, `s[i] = v` is `List.set`;
* the calls an operation makes on the `Renderer` interface, on the GPU or on the
  material compiler are returned as a list, in call order, and the outcome of
  such a call is given by a function passed to the operation;
* the mutex is not modelled: the operations are taken one at a time.
-/

namespace Kaiju

/-- A Go pointer: `none` is `nil`. -/
abbrev Ptr := Option Nat

/-- Modelled from the spec: the per-draw shader-data record `DrawInstance` is
declared elsewhere in package rendering. The spec calls it "one instance of per-draw shader
data"; the batcher tracks it by identity only, so it is the address of the
record. -/
abbrev DrawInstance := Nat

/-- Modelled from the spec: the `Material` struct is declared elsewhere in
package rendering; these are the fields `drawing.go` reads (`renderPass`, `Textures`, and
`Root.Value()`, the material a variant instance derives from, or `nil`) and the
field `material_cache.go` reads (`key`). -/
structure Material where
  renderPass : Ptr
  Textures : List Ptr
  Root : Ptr
  key : String

/-- The objects reached through pointers: the material stored at an address and
the value `Size()` returns for the shader-data record at an address. -/
structure Heap where
  material : Nat → Material
  dataSize : Nat → Nat

/-- `type Drawing struct` (drawing.go:46). -/
structure Drawing where
  Renderer : Ptr
  Material : Ptr
  Mesh : Ptr
  ShaderData : DrawInstance
  Transform : Ptr
  UseBlending : Bool
deriving DecidableEq, Repr

/-- `Drawing.IsValid` (drawing.go:55). -/
def Drawing.IsValid (d : Drawing) : Bool :=
  d.Material != none

/-- Modelled from the spec: `DrawInstanceGroup` is declared elsewhere in package
rendering.
"A (mesh, material-instance, blend-mode) bucket holding one instanced draw's
per-instance data"; `destroyed` is the tombstone flag and `instanceSize` the
data size handed to the constructor. -/
structure DrawInstanceGroup where
  Mesh : Ptr
  MaterialInstance : Ptr
  Instances : List DrawInstance
  instanceSize : Nat
  useBlending : Bool
  destroyed : Bool
deriving DecidableEq, Repr

/-- Modelled from the spec: the constructor `NewDrawInstanceGroup(mesh, dataSize)`
is defined elsewhere in package rendering; it allocates an empty, live group for the mesh. -/
def NewDrawInstanceGroup (mesh : Ptr) (dataSize : Nat) : DrawInstanceGroup :=
  { Mesh := mesh, MaterialInstance := none, Instances := [],
    instanceSize := dataSize, useBlending := false, destroyed := false }

/-- Modelled from the spec: `DrawInstanceGroup.AddInstance` is defined elsewhere in
package rendering; it appends the record to the group's ordered sequence of instances. -/
def DrawInstanceGroup.AddInstance (g : DrawInstanceGroup) (inst : DrawInstance) :
    DrawInstanceGroup :=
  { g with Instances := g.Instances ++ [inst] }

/-- Modelled from the spec: `ShaderDraw` is declared elsewhere in package rendering; it is
keyed by a material and owns the instance groups drawn with it. -/
structure ShaderDraw where
  material : Ptr
  instanceGroups : List DrawInstanceGroup
deriving DecidableEq, Repr

/-- Modelled from the spec: `NewShaderDraw(material)` is defined elsewhere in package
rendering; a
ShaderDraw for the material with no instance group yet. -/
def NewShaderDraw (material : Ptr) : ShaderDraw :=
  { material := material, instanceGroups := [] }

/-- Modelled from the spec: `ShaderDraw.AddInstanceGroup` is defined elsewhere in
package rendering; it appends a new slot. -/
def ShaderDraw.AddInstanceGroup (s : ShaderDraw) (group : DrawInstanceGroup) : ShaderDraw :=
  { s with instanceGroups := s.instanceGroups ++ [group] }

/-- `type RenderPassGroup struct` (drawing.go:59). -/
structure RenderPassGroup where
  renderPass : Ptr
  draws : List ShaderDraw
deriving DecidableEq, Repr

/-- `type Drawings struct` (drawing.go:64), without the mutex. -/
structure Drawings where
  renderPassGroups : List RenderPassGroup
  backDraws : List Drawing
deriving DecidableEq, Repr

/-- `NewDrawings` (drawing.go:70). -/
def NewDrawings : Drawings :=
  { renderPassGroups := [], backDraws := [] }

/-- `Drawings.HasDrawings` (drawing.go:78). -/
def Drawings.HasDrawings (d : Drawings) : Bool :=
  decide (d.renderPassGroups.length > 0)

/-- The linear searches of drawing.go (`for i := range xs { if key(xs[i]) == k
{ return &xs[i], true } }`): the index of the first element satisfying `p`, or
`none` for `(nil, false)`. -/
def firstIndex {α : Type} (p : α → Bool) : List α → Option Nat
  | [] => none
  | x :: xs => if p x then some 0 else (firstIndex p xs).map (· + 1)

/-- `RenderPassGroup.findShaderDraw` (drawing.go:105). -/
def RenderPassGroup.findShaderDraw (d : RenderPassGroup) (material : Ptr) : Option Nat :=
  firstIndex (fun s => decide (s.material = material)) d.draws

/-- `Drawings.findRenderPassGroup` (drawing.go:114), on the group list. -/
def findRenderPassGroup (groups : List RenderPassGroup) (renderPass : Ptr) : Option Nat :=
  firstIndex (fun g => decide (g.renderPass = renderPass)) groups

/-- The condition of `matchGroup` (drawing.go:96-98) for one group, with Go's
short-circuit evaluation: `g.MaterialInstance.Root` is read only when the meshes
agree and the instance itself is not the drawing's material, and reading it
through a nil `MaterialInstance` panics. -/
def groupMatches (h : Heap) (g : DrawInstanceGroup) (dg : Drawing) : Option Bool :=
  if g.Mesh = dg.Mesh then
    if g.MaterialInstance = dg.Material then
      some (decide (dg.UseBlending = g.useBlending))
    else
      match g.MaterialInstance with
      | none => none
      | some m =>
        if (h.material m).Root = dg.Material then
          some (decide (dg.UseBlending = g.useBlending))
        else some false
  else some false

/-- The loop of `matchGroup` from slot `i` on: it leaves at the first slot whose
condition holds (`idx < 0` fails from then on) and yields `-1` at the end. -/
def matchGroupFrom (h : Heap) (dg : Drawing) : List DrawInstanceGroup → Nat → Option Int
  | [], _ => some (-1)
  | g :: gs, i =>
    match groupMatches h g dg with
    | none => none
    | some true => some (i : Int)
    | some false => matchGroupFrom h dg gs (i + 1)

/-- `Drawings.matchGroup` (drawing.go:92). -/
def matchGroup (h : Heap) (sd : ShaderDraw) (dg : Drawing) : Option Int :=
  matchGroupFrom h dg sd.instanceGroups 0

/-- Lines 146-150 of `PreparePending`: the group allocated for a drawing. The
assignment `group.MaterialInstance.Textures = drawing.Material.Textures` writes a
material's texture list onto itself (`group.MaterialInstance` is
`drawing.Material`) and changes nothing. -/
def seedGroup (h : Heap) (drawing : Drawing) : DrawInstanceGroup :=
  let group := NewDrawInstanceGroup drawing.Mesh (h.dataSize drawing.ShaderData)
  let group := { group with MaterialInstance := drawing.Material }
  let group := group.AddInstance drawing.ShaderData
  { group with useBlending := drawing.UseBlending }

/-- Lines 141-156 of `PreparePending`, on the ShaderDraw located for the drawing.
`setTransform` writes into the shader-data record, which the batcher holds by
identity only, so it leaves the tree as it is. -/
def placeInstance (h : Heap) (draw : ShaderDraw) (drawing : Drawing) : Option ShaderDraw :=
  match matchGroup h draw drawing with
  | none => none
  | some idx =>
    if 0 ≤ idx then
      match draw.instanceGroups[idx.toNat]? with
      | none => none
      | some g =>
        if !g.destroyed then
          some { draw with
            instanceGroups := draw.instanceGroups.set idx.toNat (g.AddInstance drawing.ShaderData) }
        else
          some { draw with
            instanceGroups := draw.instanceGroups.set idx.toNat (seedGroup h drawing) }
    else some (draw.AddInstanceGroup (seedGroup h drawing))

/-- Lines 135-156 of `PreparePending`, on the RenderPassGroup located for the
drawing: find or append the ShaderDraw of the material, then place the
instance in it. -/
def placeInGroup (h : Heap) (rpGroup : RenderPassGroup) (drawing : Drawing) :
    Option RenderPassGroup :=
  let found : List ShaderDraw × Nat :=
    match rpGroup.findShaderDraw drawing.Material with
    | some j => (rpGroup.draws, j)
    | none => (rpGroup.draws ++ [NewShaderDraw drawing.Material], rpGroup.draws.length)
  match found.1[found.2]? with
  | none => none
  | some draw =>
    match placeInstance h draw drawing with
    | none => none
    | some draw2 => some { rpGroup with draws := found.1.set found.2 draw2 }

/-- The body of the loop of `PreparePending` (drawing.go:127-156) for one
buffered drawing. Reading `drawing.Material.renderPass` through a nil material
panics. -/
def prepareOne (h : Heap) (groups : List RenderPassGroup) (drawing : Drawing) :
    Option (List RenderPassGroup) :=
  match drawing.Material with
  | none => none
  | some m =>
    let renderPass := (h.material m).renderPass
    let found : List RenderPassGroup × Nat :=
      match findRenderPassGroup groups renderPass with
      | some i => (groups, i)
      | none => (groups ++ [{ renderPass := renderPass, draws := [] }], groups.length)
    match found.1[found.2]? with
    | none => none
    | some rpGroup =>
      match placeInGroup h rpGroup drawing with
      | none => none
      | some rpGroup2 => some (found.1.set found.2 rpGroup2)

/-- The loop of `PreparePending` over the buffered drawings, in order. -/
def prepareAll (h : Heap) : List RenderPassGroup → List Drawing → Option (List RenderPassGroup)
  | groups, [] => some groups
  | groups, drawing :: rest =>
    match prepareOne h groups drawing with
    | none => none
    | some groups2 => prepareAll h groups2 rest

/-- `Drawings.PreparePending` (drawing.go:123): fold every buffered drawing into
the tree, then truncate the back buffer. -/
def Drawings.PreparePending (h : Heap) (d : Drawings) : Option Drawings :=
  match prepareAll h d.renderPassGroups d.backDraws with
  | none => none
  | some groups => some { renderPassGroups := groups, backDraws := [] }

/-- `Drawings.AddDrawing` (drawing.go:161). The argument is a `*Drawing`;
`*drawing` on a nil pointer panics. -/
def Drawings.AddDrawing (d : Drawings) (drawing : Option Drawing) : Option Drawings :=
  match drawing with
  | none => none
  | some v => some { d with backDraws := d.backDraws ++ [v] }

/-- `Drawings.AddDrawings` (drawing.go:167). -/
def Drawings.AddDrawings (d : Drawings) (drawings : List Drawing) : Drawings :=
  { d with backDraws := d.backDraws ++ drawings }

/-- The calls the batcher makes on its collaborators, as they appear in
drawing.go: `renderer.Draw(renderPass, draws)`, `renderer.BlitTargets(passes)`
and `ShaderDraw.Destroy(renderer)` on a ShaderDraw. -/
inductive RendererCall where
  | Draw (renderPass : Ptr) (draws : List ShaderDraw)
  | BlitTargets (passes : List Ptr)
  | DestroyDraw (renderer : Ptr) (draw : ShaderDraw)
deriving DecidableEq, Repr

/-- The loop of `Render` (drawing.go:178-183): `passes` and the calls issued so
far are carried along. -/
def renderLoop : List RenderPassGroup → List Ptr → List RendererCall →
    List Ptr × List RendererCall
  | [], passes, calls => (passes, calls)
  | g :: gs, passes, calls =>
    if g.draws.length > 0 then
      renderLoop gs (passes ++ [g.renderPass]) (calls ++ [RendererCall.Draw g.renderPass g.draws])
    else renderLoop gs passes calls

/-- `Drawings.Render` (drawing.go:173): the renderer calls it issues. The
batcher itself is left as it is. -/
def Drawings.Render (d : Drawings) : List RendererCall :=
  if d.renderPassGroups.length = 0 then []
  else
    let r := renderLoop d.renderPassGroups [] []
    if r.1.length > 0 then r.2 ++ [RendererCall.BlitTargets r.1] else r.2

/-- The inner loop of `Destroy` (drawing.go:191-193): `Destroy(renderer)` is
called on each ShaderDraw of a group in turn; the calls issued so far are
carried along. -/
def destroyDraws (renderer : Ptr) : List ShaderDraw → List RendererCall → List RendererCall
  | [], calls => calls
  | s :: rest, calls =>
    destroyDraws renderer rest (calls ++ [RendererCall.DestroyDraw renderer s])

/-- The outer loop of `Destroy` (drawing.go:190-194) over the RenderPassGroups. -/
def destroyGroups (renderer : Ptr) : List RenderPassGroup → List RendererCall →
    List RendererCall
  | [], calls => calls
  | g :: rest, calls => destroyGroups renderer rest (destroyDraws renderer g.draws calls)

/-- `Drawings.Destroy` (drawing.go:189): release every ShaderDraw, group by
group, then truncate the group list. The result is the batcher afterwards and
the release calls issued. -/
def Drawings.Destroy (d : Drawings) (renderer : Ptr) : Drawings × List RendererCall :=
  ({ d with renderPassGroups := [] }, destroyGroups renderer d.renderPassGroups [])

/-- Apply `f` to the element at index `i`, if there is one. -/
def updateAt {α : Type} (f : α → α) : List α → Nat → List α
  | [], _ => []
  | x :: xs, 0 => f x :: xs
  | x :: xs, i + 1 => x :: updateAt f xs i

/-- A DrawInstanceGroup is marked destroyed from outside the batcher (its owner
releases it): slot `k` of ShaderDraw `j` of RenderPassGroup `i` gets the
tombstone flag. -/
def Drawings.markDestroyed (d : Drawings) (i j k : Nat) : Drawings :=
  let markGroup : DrawInstanceGroup → DrawInstanceGroup := fun x => { x with destroyed := true }
  let markDraw : ShaderDraw → ShaderDraw := fun s =>
    { s with instanceGroups := updateAt markGroup s.instanceGroups k }
  let markPass : RenderPassGroup → RenderPassGroup := fun g =>
    { g with draws := updateAt markDraw g.draws j }
  { d with renderPassGroups := updateAt markPass d.renderPassGroups i }

/-- The batcher states reachable from `NewDrawings` through the operations of
drawing.go, with any heap at each drain and any group marked destroyed in
between. -/
inductive Reachable : Drawings → Prop where
  | init : Reachable NewDrawings
  | addDrawing {d d2 : Drawings} (v : Option Drawing) :
      Reachable d → d.AddDrawing v = some d2 → Reachable d2
  | addDrawings {d : Drawings} (vs : List Drawing) :
      Reachable d → Reachable (d.AddDrawings vs)
  | preparePending {d d2 : Drawings} (h : Heap) :
      Reachable d → d.PreparePending h = some d2 → Reachable d2
  | render {d : Drawings} : Reachable d → Reachable d
  | destroy {d : Drawings} (renderer : Ptr) : Reachable d → Reachable (d.Destroy renderer).1
  | markDestroyed {d : Drawings} (i j k : Nat) :
      Reachable d → Reachable (d.markDestroyed i j k)

/-- One submission call: `AddDrawing` of a drawing or `AddDrawings` of a list. -/
inductive Submit where
  | one (v : Drawing)
  | many (vs : List Drawing)

/-- Run a sequence of submission calls. -/
def submitAll : Drawings → List Submit → Option Drawings
  | d, [] => some d
  | d, Submit.one v :: rest =>
    match d.AddDrawing (some v) with
    | none => none
    | some d2 => submitAll d2 rest
  | d, Submit.many vs :: rest => submitAll (d.AddDrawings vs) rest

/-! ## The material cache of `rendering/material_cache.go` -/

/-- A Go `map[string]*Material`, as the list of its bindings; `m[key]` reads the
binding of `key`, if there is one. -/
def mapGet (key : String) : List (String × Ptr) → Option Ptr
  | [] => none
  | (k, v) :: rest => if k = key then some v else mapGet key rest

/-- The assignment `m[key] = v` on a Go map: the binding of `key` is replaced, or
added when there is none. -/
def mapSet (key : String) (v : Ptr) : List (String × Ptr) → List (String × Ptr)
  | [] => [(key, v)]
  | (k, w) :: rest => if k = key then (key, v) :: rest else (k, w) :: mapSet key v rest

/-- `type MaterialCache struct` (material_cache.go:8), without the mutex. -/
structure MaterialCache where
  renderer : Ptr
  assetDatabase : Ptr
  materials : List (String × Ptr)
  pendingMaterials : List Ptr
deriving DecidableEq, Repr

/-- `NewMaterialCache` (material_cache.go:16). -/
def NewMaterialCache (renderer assetDatabase : Ptr) : MaterialCache :=
  { renderer := renderer, assetDatabase := assetDatabase, materials := [],
    pendingMaterials := [] }

/-- `MaterialCache.AddMaterial` (material_cache.go:26): the cache afterwards and
the material returned. Reading `material.key` through a nil pointer panics. -/
def MaterialCache.AddMaterial (m : MaterialCache) (h : Heap) (material : Ptr) :
    Option (MaterialCache × Ptr) :=
  match material with
  | none => none
  | some a =>
    match mapGet (h.material a).key m.materials with
    | none =>
      some ({ m with
              pendingMaterials := m.pendingMaterials ++ [material],
              materials := mapSet (h.material a).key material m.materials }, material)
    | some found => some (m, found)

/-- `MaterialCache.FindMaterial` (material_cache.go:36). -/
def MaterialCache.FindMaterial (m : MaterialCache) (key : String) : Ptr × Bool :=
  match mapGet key m.materials with
  | some material => (material, true)
  | none => (none, false)

/-- Modelled from the spec: `MaterialData` is declared elsewhere in package
rendering; it is the material blueprint, looked up "by the material's declared
name". `blueprint` stands for the rest of its content. -/
structure MaterialData where
  Name : String
  blueprint : Nat
deriving DecidableEq, Repr

/-- One call of the compilation collaborator,
`materialData.Compile(assetDatabase, renderer)`. -/
structure CompileCall where
  data : MaterialData
  assetDatabase : Ptr
  renderer : Ptr
deriving DecidableEq, Repr

/-- The compilation collaborator: for a call it yields the two results of
`Compile`, the material and the error (`none` is the nil error). -/
abbrev Compiler := CompileCall → Ptr × Option String

/-- What `MaterialCache.Material` hands back: the cache afterwards, the two
results `(*Material, error)` and the calls made to the compiler. -/
structure MaterialResult where
  cache : MaterialCache
  material : Ptr
  err : Option String
  compiled : List CompileCall
deriving DecidableEq, Repr

/-- `MaterialCache.Material` (material_cache.go:44). -/
def MaterialCache.Material (m : MaterialCache) (compile : Compiler)
    (materialData : MaterialData) : MaterialResult :=
  match mapGet materialData.Name m.materials with
  | some material => { cache := m, material := material, err := none, compiled := [] }
  | none =>
    let call : CompileCall :=
      { data := materialData, assetDatabase := m.assetDatabase, renderer := m.renderer }
    let r := compile call
    if r.2 ≠ none then
      { cache := m, material := none, err := none, compiled := [call] }
    else
      { cache := { m with
                    pendingMaterials := m.pendingMaterials ++ [r.1],
                    materials := mapSet materialData.Name r.1 m.materials },
        material := r.1, err := none, compiled := [call] }

/-- The cache states reachable from `NewMaterialCache` through `AddMaterial`,
`Material` and `FindMaterial`, with any heap and any compiler at each call. -/
inductive CacheReachable : MaterialCache → Prop where
  | init (renderer assetDatabase : Ptr) :
      CacheReachable (NewMaterialCache renderer assetDatabase)
  | addMaterial {c c2 : MaterialCache} {found : Ptr} (h : Heap) (material : Ptr) :
      CacheReachable c → c.AddMaterial h material = some (c2, found) → CacheReachable c2
  | material {c : MaterialCache} (compile : Compiler) (md : MaterialData) :
      CacheReachable c → CacheReachable (c.Material compile md).cache
  | findMaterial {c : MaterialCache} (key : String) : CacheReachable c → CacheReachable c

/-- What an operation of the cache does to the mutex, the map and the pending
list, in program order. -/
inductive CacheAccess where
  | Lock
  | Unlock
  | ReadMap (key : String)
  | WriteMap (key : String)
  | AppendPending
  | Compile
deriving DecidableEq, Repr

/-- The accesses of `MaterialCache.AddMaterial` (material_cache.go:26-34): it
reads the map and, when the key is absent, appends to the pending list and
writes the map; the mutex is not touched. -/
def MaterialCache.AddMaterialAccesses (m : MaterialCache) (h : Heap) (material : Ptr) :
    List CacheAccess :=
  match material with
  | none => []
  | some a =>
    match mapGet (h.material a).key m.materials with
    | none =>
      [CacheAccess.ReadMap (h.material a).key, CacheAccess.AppendPending,
        CacheAccess.WriteMap (h.material a).key]
    | some _ => [CacheAccess.ReadMap (h.material a).key]

/-- The accesses of `MaterialCache.FindMaterial` (material_cache.go:36-42): one
read of the map; the mutex is not touched. -/
def MaterialCache.FindMaterialAccesses (_m : MaterialCache) (key : String) : List CacheAccess :=
  [CacheAccess.ReadMap key]

/-- The accesses of `MaterialCache.Material` (material_cache.go:44-58): the mutex
is locked on entry and, by the deferred call, unlocked on every return. -/
def MaterialCache.MaterialAccesses (m : MaterialCache) (compile : Compiler)
    (materialData : MaterialData) : List CacheAccess :=
  let body : List CacheAccess :=
    match mapGet materialData.Name m.materials with
    | some _ => [CacheAccess.ReadMap materialData.Name]
    | none =>
      let r := compile { data := materialData, assetDatabase := m.assetDatabase,
                         renderer := m.renderer }
      if r.2 ≠ none then [CacheAccess.ReadMap materialData.Name, CacheAccess.Compile]
      else
        [CacheAccess.ReadMap materialData.Name, CacheAccess.Compile,
          CacheAccess.AppendPending, CacheAccess.WriteMap materialData.Name]
  [CacheAccess.Lock] ++ body ++ [CacheAccess.Unlock]

/-- Every read or write of the map and every append to the pending list in the
sequence happens while the mutex is held; `held` says whether it is held at the
start. -/
def lockGuarded : Bool → List CacheAccess → Bool
  | _, [] => true
  | _, CacheAccess.Lock :: rest => lockGuarded true rest
  | _, CacheAccess.Unlock :: rest => lockGuarded false rest
  | held, CacheAccess.Compile :: rest => lockGuarded held rest
  | held, CacheAccess.ReadMap _ :: rest => held && lockGuarded held rest
  | held, CacheAccess.WriteMap _ :: rest => held && lockGuarded held rest
  | held, CacheAccess.AppendPending :: rest => held && lockGuarded held rest

/-! ## Render-pass construction of `rendering/render_pass.go` -/

/-- `type RenderPassAttachmentImage struct` (render_pass.go:9). -/
structure RenderPassAttachmentImage where
  MipLevels : Nat
  LayerCount : Nat
  Tiling : String
  Filter : String
  Usage : List String
  MemoryProperty : List String
  Aspect : List String
  Access : List String
deriving DecidableEq, Repr

/-- `type RenderPassAttachmentDescription struct` (render_pass.go:20). -/
structure RenderPassAttachmentDescription where
  Format : String
  Samples : String
  LoadOp : String
  StoreOp : String
  StencilLoadOp : String
  StencilStoreOp : String
  InitialLayout : String
  FinalLayout : String
  Image : RenderPassAttachmentImage
deriving DecidableEq, Repr

/-- `type RenderPassAttachmentReference struct` (render_pass.go:51). -/
structure RenderPassAttachmentReference where
  Attachment : Nat
  Layout : String
deriving DecidableEq, Repr

/-- `type RenderPassSubpassDescription struct` (render_pass.go:32). -/
structure RenderPassSubpassDescription where
  PipelineBindPoint : String
  ColorAttachmentReferences : List RenderPassAttachmentReference
  InputAttachmentReferences : List RenderPassAttachmentReference
  ResolveAttachments : List RenderPassAttachmentReference
  DepthStencilAttachment : List RenderPassAttachmentReference
  PreserveAttachments : List Nat
deriving DecidableEq, Repr

/-- `type RenderPassSubpassDependency struct` (render_pass.go:41). -/
structure RenderPassSubpassDependency where
  SrcSubpass : Nat
  DstSubpass : Nat
  SrcStageMask : List String
  DstStageMask : List String
  SrcAccessMask : List String
  DstAccessMask : List String
  DependencyFlags : List String
deriving DecidableEq, Repr

/-- `type RenderPassData struct` (render_pass.go:224), the blueprint. -/
structure RenderPassData where
  Name : String
  AttachmentDescriptions : List RenderPassAttachmentDescription
  SubpassDescriptions : List RenderPassSubpassDescription
  SubpassDependencies : List RenderPassSubpassDependency
deriving DecidableEq, Repr

/-- The string-to-Vulkan translation tables (`formatToVK`, `sampleCountToVK`,
`imageLayoutToVK` and so on), which are defined elsewhere in package rendering
and taken here as given functions. -/
structure VkTranslate where
  format : String → Nat
  sampleCount : String → Nat
  attachmentLoadOp : String → Nat
  attachmentStoreOp : String → Nat
  imageLayout : String → Nat
  imageTiling : String → Nat
  filter : String → Nat
  pipelineBindPoint : String → Nat
  imageUsageFlags : List String → Nat
  memoryPropertyFlags : List String → Nat
  imageAspectFlags : List String → Nat
  accessFlags : List String → Nat
  pipelineStageFlags : List String → Nat
  dependencyFlags : List String → Nat

/-- The renderer `vr` as `ConstructRenderPass` sees it: the swap-chain extent, the
translation tables, and for every GPU operation whether it succeeds and which
handle it yields. The per-attachment operations are asked once per attachment
index, so their outcome is given by that index. -/
structure Vulkan where
  swapChainWidth : Nat
  swapChainHeight : Nat
  translate : VkTranslate
  createImageOk : Nat → Bool
  createImageViewOk : Nat → Bool
  createTextureSamplerOk : Nat → Bool
  transitionImageLayoutOk : Nat → Bool
  imageOf : Nat → Nat
  viewOf : Nat → Nat
  samplerOf : Nat → Nat
  newRenderPassOk : Bool
  passHandle : Nat
  createFrameBufferOk : Bool
  bufferHandle : Nat

/-- Modelled from the spec: `TextureId` is declared elsewhere in package
rendering; it holds the "backing image (with view and sampler)" of an attachment
and the size it was allocated with. -/
structure TextureId where
  Image : Ptr
  View : Ptr
  Sampler : Ptr
  Width : Nat
  Height : Nat
deriving DecidableEq, Repr

/-- The zero value of `TextureId`, as `make([]TextureId, n)` fills the slice. -/
def TextureId.zero : TextureId :=
  { Image := none, View := none, Sampler := none, Width := 0, Height := 0 }

/-- `vk.AttachmentDescription`, the native attachment descriptor. -/
structure VkAttachmentDescription where
  Flags : Nat
  Format : Nat
  Samples : Nat
  LoadOp : Nat
  StoreOp : Nat
  StencilLoadOp : Nat
  StencilStoreOp : Nat
  InitialLayout : Nat
  FinalLayout : Nat
deriving DecidableEq, Repr

/-- `vk.AttachmentReference`. -/
structure VkAttachmentReference where
  Attachment : Nat
  Layout : Nat
deriving DecidableEq, Repr

/-- `vk.SubpassDescription`. A pointer field such as `PColorAttachments =
&color[i][0]` is the array it points into (`none` is nil). -/
structure VkSubpassDescription where
  Flags : Nat
  PipelineBindPoint : Nat
  ColorAttachmentCount : Nat
  InputAttachmentCount : Nat
  PreserveAttachmentCount : Nat
  PColorAttachments : Option (List VkAttachmentReference)
  PInputAttachments : Option (List VkAttachmentReference)
  PPreserveAttachments : Option (List Nat)
  PDepthStencilAttachment : Option (List VkAttachmentReference)
  PResolveAttachments : Option (List VkAttachmentReference)
deriving DecidableEq, Repr

/-- `vk.SubpassDependency`. -/
structure VkSubpassDependency where
  SrcSubpass : Nat
  DstSubpass : Nat
  SrcStageMask : Nat
  DstStageMask : Nat
  SrcAccessMask : Nat
  DstAccessMask : Nat
  DependencyFlags : Nat
deriving DecidableEq, Repr

/-- The GPU operations `ConstructRenderPass` issues, with their arguments;
`index` names the element of `textures` the operation is given a pointer to. -/
inductive GpuCall where
  | CreateImage (index width height mipLevels samples format tiling usage memory
      layerCount : Nat)
  | CreateImageView (index aspect : Nat)
  | CreateTextureSampler (index mipLevels filter : Nat)
  | TransitionImageLayout (index layout aspect access : Nat)
  | TextureIdFree (index : Nat)
  | NewRenderPass (attachments : List VkAttachmentDescription)
      (subpasses : List VkSubpassDescription) (dependencies : List VkSubpassDependency)
  | CreateFrameBuffer (imageViews : List Ptr) (width height : Nat)
deriving DecidableEq, Repr

/-- Modelled from the spec: the compiled `RenderPass` is declared elsewhere in
package rendering; it owns "a native render-pass handle, and a framebuffer".
`RenderPass{}` is the value with both nil. -/
structure RenderPass where
  Handle : Ptr
  Buffer : Ptr
deriving DecidableEq, Repr

/-- The loop `for j := range count { vr.textureIdFree(&textures[j]) }`
(render_pass.go:249, 258, 267), from index `j` on. -/
def freeLoop : Nat → Nat → List GpuCall → List GpuCall
  | _, 0, calls => calls
  | j, count + 1, calls => freeLoop (j + 1) count (calls ++ [GpuCall.TextureIdFree j])

/-- The attachment loop of `ConstructRenderPass` (render_pass.go:237-273) from
attachment `i` on: whether it ran to the end, the `textures` slice and the GPU
calls issued. A failed `CreateImage` returns at once; a failed view, sampler or
layout transition frees `textures[0..i]` first. -/
def attachmentsLoop (vr : Vulkan) : List RenderPassAttachmentDescription → Nat →
    List TextureId → List GpuCall → Bool × List TextureId × List GpuCall
  | [], _, textures, calls => (true, textures, calls)
  | a :: rest, i, textures, calls =>
    let t := vr.translate
    let img := a.Image
    let calls := calls ++ [GpuCall.CreateImage i vr.swapChainWidth vr.swapChainHeight
      img.MipLevels (t.sampleCount a.Samples) (t.format a.Format) (t.imageTiling img.Tiling)
      (t.imageUsageFlags img.Usage) (t.memoryPropertyFlags img.MemoryProperty) img.LayerCount]
    if !vr.createImageOk i then (false, textures, calls)
    else
      let textures := updateAt (fun x => { x with
        Image := some (vr.imageOf i), Width := vr.swapChainWidth,
        Height := vr.swapChainHeight }) textures i
      let calls := calls ++ [GpuCall.CreateImageView i (t.imageAspectFlags img.Aspect)]
      if !vr.createImageViewOk i then (false, textures, freeLoop 0 (i + 1) calls)
      else
        let textures := updateAt (fun x => { x with View := some (vr.viewOf i) }) textures i
        let calls := calls ++ [GpuCall.CreateTextureSampler i img.MipLevels (t.filter img.Filter)]
        if !vr.createTextureSamplerOk i then (false, textures, freeLoop 0 (i + 1) calls)
        else
          let textures :=
            updateAt (fun x => { x with Sampler := some (vr.samplerOf i) }) textures i
          let calls := calls ++ [GpuCall.TransitionImageLayout i
            (t.imageLayout a.InitialLayout) (t.imageAspectFlags img.Aspect)
            (t.accessFlags img.Access)]
          if !vr.transitionImageLayoutOk i then (false, textures, freeLoop 0 (i + 1) calls)
          else attachmentsLoop vr rest (i + 1) textures calls

/-- The loop filling `attachments` (render_pass.go:276-287), one descriptor per
attachment description, in order. -/
def translateAttachments (t : VkTranslate) :
    List RenderPassAttachmentDescription → List VkAttachmentDescription
  | [] => []
  | a :: rest =>
    { Flags := 0, Format := t.format a.Format, Samples := t.sampleCount a.Samples,
      LoadOp := t.attachmentLoadOp a.LoadOp, StoreOp := t.attachmentStoreOp a.StoreOp,
      StencilLoadOp := t.attachmentLoadOp a.StencilLoadOp,
      StencilStoreOp := t.attachmentStoreOp a.StencilStoreOp,
      InitialLayout := t.imageLayout a.InitialLayout,
      FinalLayout := t.imageLayout a.FinalLayout } :: translateAttachments t rest

/-- A loop `for j := range count { dst[j].Attachment = src[j].Attachment;
dst[j].Layout = src[j].LayoutToVK() }` from index `j` on; indexing `dst` or `src`
out of range panics. -/
def copyRefs (t : VkTranslate) (src : List RenderPassAttachmentReference) :
    Nat → Nat → List VkAttachmentReference → Option (List VkAttachmentReference)
  | _, 0, dst => some dst
  | j, count + 1, dst =>
    if j < dst.length then
      match src[j]? with
      | none => none
      | some s =>
        copyRefs t src (j + 1) count
          (dst.set j { Attachment := s.Attachment, Layout := t.imageLayout s.Layout })
    else none

/-- The reference arrays built for one subpass. -/
structure SubpassRefs where
  color : List VkAttachmentReference
  input : List VkAttachmentReference
  preserve : List Nat
  depthStencil : List VkAttachmentReference
  resolve : List VkAttachmentReference
deriving DecidableEq, Repr

/-- The body of the loop at render_pass.go:293-321 for one subpass; `count` is
the length of the outer slices (`len(depthStencil)`, `len(resolve)`: the number
of subpasses), which bounds the depth-stencil and resolve loops. `copy(p,
preserve[i])` copies the zero-filled `preserve[i]` over the blueprint's own
`PreserveAttachments`, so the subpass description is returned as it is left. -/
def translateRefs (t : VkTranslate) (count : Nat) (sp : RenderPassSubpassDescription) :
    Option (SubpassRefs × RenderPassSubpassDescription) :=
  let zeroRef : VkAttachmentReference := { Attachment := 0, Layout := 0 }
  let c := sp.ColorAttachmentReferences
  let n := sp.InputAttachmentReferences
  let p := sp.PreserveAttachments
  let d := sp.DepthStencilAttachment
  let r := sp.ResolveAttachments
  match copyRefs t c 0 c.length (List.replicate c.length zeroRef) with
  | none => none
  | some color =>
    match copyRefs t n 0 n.length (List.replicate n.length zeroRef) with
    | none => none
    | some input =>
      let preserve := List.replicate p.length 0
      let p2 := preserve.take p.length ++ p.drop preserve.length
      match copyRefs t d 0 count (List.replicate d.length zeroRef) with
      | none => none
      | some depthStencil =>
        match copyRefs t r 0 count (List.replicate r.length zeroRef) with
        | none => none
        | some resolve =>
          some ({ color := color, input := input, preserve := preserve,
                  depthStencil := depthStencil, resolve := resolve },
                { sp with PreserveAttachments := p2 })

/-- The loop at render_pass.go:293-321 over the subpasses, in order. -/
def translateAllRefs (t : VkTranslate) (count : Nat) :
    List RenderPassSubpassDescription →
      Option (List SubpassRefs × List RenderPassSubpassDescription)
  | [] => some ([], [])
  | sp :: rest =>
    match translateRefs t count sp with
    | none => none
    | some (refs, sp2) =>
      match translateAllRefs t count rest with
      | none => none
      | some (refsRest, spRest) => some (refs :: refsRest, sp2 :: spRest)

/-- `&arr[0]`: a pointer to the first element of the array, a panic when the
array is empty. -/
def firstElemPtr {α : Type} (arr : List α) : Option (Option (List α)) :=
  match arr with
  | [] => none
  | _ :: _ => some (some arr)

/-- The body of the loop at render_pass.go:323-345 for one subpass; `count` is
the length of the outer slices `color`, `input`, `preserve`, `depthStencil` and
`resolve` (the number of subpasses), which the code uses both as the attachment
counts and as the guard of the pointer assignments. -/
def describeSubpass (t : VkTranslate) (count : Nat) (sp : RenderPassSubpassDescription)
    (refs : SubpassRefs) : Option VkSubpassDescription :=
  let guard {α : Type} (arr : List α) : Option (Option (List α)) :=
    if count > 0 then firstElemPtr arr else some none
  match guard refs.color with
  | none => none
  | some pColor =>
    match guard refs.input with
    | none => none
    | some pInput =>
      match guard refs.preserve with
      | none => none
      | some pPreserve =>
        match guard refs.depthStencil with
        | none => none
        | some pDepth =>
          match guard refs.resolve with
          | none => none
          | some pResolve =>
            some { Flags := 0, PipelineBindPoint := t.pipelineBindPoint sp.PipelineBindPoint,
                   ColorAttachmentCount := count, InputAttachmentCount := count,
                   PreserveAttachmentCount := count, PColorAttachments := pColor,
                   PInputAttachments := pInput, PPreserveAttachments := pPreserve,
                   PDepthStencilAttachment := pDepth, PResolveAttachments := pResolve }

/-- The loop at render_pass.go:323-345 over the subpasses, in order. -/
def describeAll (t : VkTranslate) (count : Nat) :
    List RenderPassSubpassDescription → List SubpassRefs → Option (List VkSubpassDescription)
  | [], _ => some []
  | _ :: _, [] => none
  | sp :: rest, refs :: refsRest =>
    match describeSubpass t count sp refs with
    | none => none
    | some x =>
      match describeAll t count rest refsRest with
      | none => none
      | some xs => some (x :: xs)

/-- The loop filling `selfDependencies` (render_pass.go:347-355), in order. -/
def translateDependencies (t : VkTranslate) :
    List RenderPassSubpassDependency → List VkSubpassDependency
  | [] => []
  | x :: rest =>
    { SrcSubpass := x.SrcSubpass, DstSubpass := x.DstSubpass,
      SrcStageMask := t.pipelineStageFlags x.SrcStageMask,
      DstStageMask := t.pipelineStageFlags x.DstStageMask,
      SrcAccessMask := t.accessFlags x.SrcAccessMask,
      DstAccessMask := t.accessFlags x.DstAccessMask,
      DependencyFlags := t.dependencyFlags x.DependencyFlags } :: translateDependencies t rest

/-- The loop filling `imageViews` (render_pass.go:363-365). -/
def collectViews : List TextureId → List Ptr
  | [] => []
  | x :: rest => x.View :: collectViews rest

/-- What `ConstructRenderPass` hands back: the two results `(RenderPass, bool)`,
the GPU calls it issued, in order, and the blueprint as the call leaves it. -/
structure ConstructResult where
  pass : RenderPass
  ok : Bool
  calls : List GpuCall
  blueprint : RenderPassData
deriving DecidableEq, Repr

/-- `RenderPassData.ConstructRenderPass` (render_pass.go:231). The renderer is
`none` when it is not a `*Vulkan`, on which the type assertion panics. -/
def RenderPassData.ConstructRenderPass (r : RenderPassData) (renderer : Option Vulkan) :
    Option ConstructResult :=
  match renderer with
  | none => none
  | some vr =>
    let zeroPass : RenderPass := { Handle := none, Buffer := none }
    let made := attachmentsLoop vr r.AttachmentDescriptions 0
      (List.replicate r.AttachmentDescriptions.length TextureId.zero) []
    if !made.1 then some { pass := zeroPass, ok := false, calls := made.2.2, blueprint := r }
    else
      let textures := made.2.1
      let attachments := translateAttachments vr.translate r.AttachmentDescriptions
      match translateAllRefs vr.translate r.SubpassDescriptions.length r.SubpassDescriptions with
      | none => none
      | some (refs, subpassesLeft) =>
        let r2 := { r with SubpassDescriptions := subpassesLeft }
        match describeAll vr.translate r.SubpassDescriptions.length subpassesLeft refs with
        | none => none
        | some subpasses =>
          let selfDependencies := translateDependencies vr.translate r.SubpassDependencies
          let calls := made.2.2 ++
            [GpuCall.NewRenderPass attachments subpasses selfDependencies]
          if !vr.newRenderPassOk then
            some { pass := zeroPass, ok := false, calls := calls, blueprint := r2 }
          else
            let imageViews := collectViews textures
            match textures[0]? with
            | none => none
            | some first =>
              let calls := calls ++
                [GpuCall.CreateFrameBuffer imageViews first.Width first.Height]
              if !vr.createFrameBufferOk then
                some { pass := zeroPass, ok := false, calls := calls, blueprint := r2 }
              else
                some { pass := { Handle := some vr.passHandle,
                                 Buffer := some vr.bufferHandle },
                       ok := true, calls := calls, blueprint := r2 }

/-- The attachment a setup operation (image, view, sampler, layout transition)
works on; `none` for every other call. -/
def GpuCall.setupIndex : GpuCall → Option Nat
  | GpuCall.CreateImage i _ _ _ _ _ _ _ _ _ => some i
  | GpuCall.CreateImageView i _ => some i
  | GpuCall.CreateTextureSampler i _ _ => some i
  | GpuCall.TransitionImageLayout i _ _ _ => some i
  | _ => none

/-- Whether a GPU call is one the attachment loop issues (a set-up operation or a
`textureIdFree`). -/
def GpuCall.isLoopCall : GpuCall → Bool
  | GpuCall.NewRenderPass _ _ _ => false
  | GpuCall.CreateFrameBuffer _ _ _ => false
  | _ => true

/-! ## The log window of `editor/ui/log_window/log_window.go` -/

/-- `viewGroupAll` (log_window.go:59). -/
def viewGroupAll : Nat := 0

/-- `viewGroupInfo` (log_window.go:60). -/
def viewGroupInfo : Nat := 1

/-- `viewGroupWarn` (log_window.go:61). -/
def viewGroupWarn : Nat := 2

/-- `viewGroupError` (log_window.go:62). -/
def viewGroupError : Nat := 3

/-- `viewGroupSelected` (log_window.go:63). -/
def viewGroupSelected : Nat := 4

/-- `type visibleMessage struct` (log_window.go:66); the `Data` map is the list
of its bindings. -/
structure visibleMessage where
  Time : String
  Message : String
  Trace : String
  Data : List (String × String)
  Category : String
deriving DecidableEq, Repr

/-- `type LogWindow struct` (log_window.go:89): the view group and the stored
messages; the document, container and log-stream fields play no part in the
lists. -/
structure LogWindow where
  Group : Nat
  all : List visibleMessage
deriving DecidableEq, Repr

/-- `LogWindow.All` (log_window.go:101): the stored list is cloned and the clone
reversed; the result is the window as the call leaves it and the list returned. -/
def LogWindow.All (l : LogWindow) : LogWindow × List visibleMessage :=
  let res := l.all
  (l, res.reverse)

/-- The loop of `LogWindow.filter` (log_window.go:109-113); `res` is the slice
built so far. -/
def filterLoop (typeName : String) : List visibleMessage → List visibleMessage →
    List visibleMessage
  | [], res => res
  | m :: rest, res =>
    if m.Category = typeName then filterLoop typeName rest (res ++ [m])
    else filterLoop typeName rest res

/-- `LogWindow.filter` (log_window.go:107). -/
def LogWindow.filter (l : LogWindow) (typeName : String) : List visibleMessage :=
  filterLoop typeName l.all []

/-- `LogWindow.Infos` (log_window.go:117). -/
def LogWindow.Infos (l : LogWindow) : List visibleMessage :=
  (l.filter "info").reverse

/-- `LogWindow.Warnings` (log_window.go:123). -/
def LogWindow.Warnings (l : LogWindow) : List visibleMessage :=
  (l.filter "warn").reverse

/-- `LogWindow.Errors` (log_window.go:129). -/
def LogWindow.Errors (l : LogWindow) : List visibleMessage :=
  (l.filter "error").reverse

/-- The `switch l.Group` of `selectEntry` (log_window.go:279-288): the list the
entry index refers to; nil for any other group. -/
def LogWindow.selectTarget (l : LogWindow) : List visibleMessage :=
  if l.Group = viewGroupAll then l.all
  else if l.Group = viewGroupInfo then l.filter "info"
  else if l.Group = viewGroupWarn then l.filter "warn"
  else if l.Group = viewGroupError then l.filter "error"
  else []

/-- `LogWindow.selectEntry` (log_window.go:276), as far as the lists go: `entry`
is the parsed `data-entry` attribute (`none` when `strconv.Atoi` fails). The
result is the window afterwards (`showSelected` sets the group) and the message
whose fields are written to the label, if any; an index out of range panics. -/
def LogWindow.selectEntry (l : LogWindow) (entry : Option Int) :
    Option (LogWindow × Option visibleMessage) :=
  match entry with
  | none => some (l, none)
  | some id =>
    let target := l.selectTarget
    if 0 ≤ id ∧ id < (target.length : Int) then
      let id2 : Int := (target.length : Int) - id - 1
      if 0 ≤ id2 then
        match target[id2.toNat]? with
        | none => none
        | some m => some ({ l with Group := viewGroupSelected }, some m)
      else none
    else some (l, none)

/-- The list the window displays for its current group: `All()`, `Infos()`,
`Warnings()` or `Errors()`; none for the selected-entry view. -/
def LogWindow.displayed (l : LogWindow) : List visibleMessage :=
  if l.Group = viewGroupAll then l.All.2
  else if l.Group = viewGroupInfo then l.Infos
  else if l.Group = viewGroupWarn then l.Warnings
  else if l.Group = viewGroupError then l.Errors
  else []

/-! ## Test data -/

/-- A heap in which material `7` renders into pass `1`. -/
def heap0 : Heap :=
  { material := fun _ => { renderPass := some 1, Textures := [], Root := none, key := "basic" },
    dataSize := fun _ => 64 }

/-- A drawing of mesh `mesh` with material `7`, no blending. -/
def drawingOf (mesh : Nat) (inst : Nat) : Drawing :=
  { Renderer := some 0, Material := some 7, Mesh := some mesh, ShaderData := inst,
    Transform := none, UseBlending := false }

/-- The end-to-end example of the specification: two drawings of mesh `1` and one
of mesh `2`, all with material `7` and no blending. -/
def threeDrawings : List Drawing :=
  [drawingOf 1 10, drawingOf 1 11, drawingOf 2 12]

/-- The tree `PreparePending` builds from `threeDrawings`. -/
def tree0 : Drawings :=
  { renderPassGroups :=
      [{ renderPass := some 1,
         draws :=
          [{ material := some 7,
             instanceGroups :=
              [{ Mesh := some 1, MaterialInstance := some 7, Instances := [10, 11],
                 instanceSize := 64, useBlending := false, destroyed := false },
               { Mesh := some 2, MaterialInstance := some 7, Instances := [12],
                 instanceSize := 64, useBlending := false, destroyed := false }] }] }],
    backDraws := [] }

/-- The first group of `tree0` once marked destroyed. -/
def deadSlot : DrawInstanceGroup :=
  { Mesh := some 1, MaterialInstance := some 7, Instances := [10, 11],
    instanceSize := 64, useBlending := false, destroyed := true }

/-- The ShaderDraw of `tree0` with its first group marked destroyed. -/
def deadDraw : ShaderDraw :=
  { material := some 7,
    instanceGroups :=
      [deadSlot,
       { Mesh := some 2, MaterialInstance := some 7, Instances := [12],
         instanceSize := 64, useBlending := false, destroyed := false }] }

/-- The RenderPassGroup of `tree0` with its first group marked destroyed. -/
def deadPass : RenderPassGroup :=
  { renderPass := some 1, draws := [deadDraw] }

/-- A heap in which material `8` is a variant instance of material `7` with
textures of its own: `8` has texture `100`, every other material texture `200`. -/
def heapVariant : Heap :=
  { material := fun a =>
      if a = 8 then
        { renderPass := some 1, Textures := [some 100], Root := some 7, key := "variant" }
      else { renderPass := some 1, Textures := [some 200], Root := none, key := "basic" },
    dataSize := fun _ => 64 }

/-- A ShaderDraw of material `7` whose only group belongs to the variant `8`. -/
def variantDraw : ShaderDraw :=
  { material := some 7,
    instanceGroups :=
      [{ Mesh := some 1, MaterialInstance := some 8, Instances := [10],
         instanceSize := 64, useBlending := false, destroyed := false }] }

/-- A compiler that fails on every blueprint. -/
def failingCompiler : Compiler :=
  fun _ => (none, some "compile failed")

/-- A compiler that yields the material at address `5` for every blueprint. -/
def workingCompiler : Compiler :=
  fun _ => (some 5, none)

/-- A material blueprint named `"lit"`. -/
def litData : MaterialData :=
  { Name := "lit", blueprint := 0 }

/-- The cache after `AddMaterial` of material `1` (key `"basic"` in `heap0`). -/
def cacheOfOne : MaterialCache :=
  { renderer := some 0, assetDatabase := some 0, materials := [("basic", some 1)],
    pendingMaterials := [some 1] }

/-- Translation tables for the examples: a name is translated to its length, a
flag list to the number of its flags. -/
def vkTables : VkTranslate :=
  { format := String.length, sampleCount := String.length,
    attachmentLoadOp := String.length, attachmentStoreOp := String.length,
    imageLayout := String.length, imageTiling := String.length, filter := String.length,
    pipelineBindPoint := String.length, imageUsageFlags := List.length,
    memoryPropertyFlags := List.length, imageAspectFlags := List.length,
    accessFlags := List.length, pipelineStageFlags := List.length,
    dependencyFlags := List.length }

/-- A renderer on which every GPU operation succeeds; attachment `i` gets the
image handle `100 + i`, the view `200 + i` and the sampler `300 + i`. -/
def gpuAllOk : Vulkan :=
  { swapChainWidth := 800, swapChainHeight := 600, translate := vkTables,
    createImageOk := fun _ => true, createImageViewOk := fun _ => true,
    createTextureSamplerOk := fun _ => true, transitionImageLayoutOk := fun _ => true,
    imageOf := fun i => 100 + i, viewOf := fun i => 200 + i, samplerOf := fun i => 300 + i,
    newRenderPassOk := true, passHandle := 1, createFrameBufferOk := true, bufferHandle := 2 }

/-- As `gpuAllOk`, but image creation fails for attachment `2`. -/
def gpuImageFailsAt2 : Vulkan :=
  { gpuAllOk with createImageOk := fun i => decide (i ≠ 2) }

/-- As `gpuAllOk`, but sampler creation fails for attachment `1`. -/
def gpuSamplerFailsAt1 : Vulkan :=
  { gpuAllOk with createTextureSamplerOk := fun i => decide (i ≠ 1) }

/-- A colour attachment description. -/
def colorAttachment : RenderPassAttachmentDescription :=
  { Format := "rgba", Samples := "1", LoadOp := "clear", StoreOp := "store",
    StencilLoadOp := "", StencilStoreOp := "", InitialLayout := "undefined",
    FinalLayout := "color",
    Image := { MipLevels := 1, LayerCount := 1, Tiling := "optimal", Filter := "linear",
               Usage := ["color"], MemoryProperty := ["device"], Aspect := ["color"],
               Access := ["write"] } }

/-- A blueprint with three attachments and no subpass. -/
def threeAttachments : RenderPassData :=
  { Name := "three", AttachmentDescriptions := [colorAttachment, colorAttachment, colorAttachment],
    SubpassDescriptions := [], SubpassDependencies := [] }

/-- The cache after a successful `Material` call for `"lit"` and a failed one for
`"unlit"`. -/
def cacheAfterCalls : MaterialCache :=
  (((NewMaterialCache (some 0) (some 0)).Material workingCompiler litData).cache.Material
    failingCompiler { Name := "unlit", blueprint := 1 }).cache

/-- A log message of the given category. -/
def logMessage (text category : String) : visibleMessage :=
  { Time := "now", Message := text, Trace := "", Data := [], Category := category }

/-- A log window showing the warnings of four stored messages. -/
def warnWindow : LogWindow :=
  { Group := viewGroupWarn,
    all := [logMessage "a" "info", logMessage "b" "warn", logMessage "c" "error",
            logMessage "d" "warn"] }

/-- As `gpuAllOk`, but the creation of the native render pass fails. -/
def gpuPassFails : Vulkan :=
  { gpuAllOk with newRenderPassOk := false }

/-- As `gpuAllOk`, but the creation of the framebuffer fails. -/
def gpuBufferFails : Vulkan :=
  { gpuAllOk with createFrameBufferOk := false }

/-- A subpass with two colour references, one input, one resolve and one
depth-stencil reference, and the preserve attachment `5`. -/
def fullSubpass : RenderPassSubpassDescription :=
  { PipelineBindPoint := "graphics",
    ColorAttachmentReferences :=
      [{ Attachment := 0, Layout := "color" }, { Attachment := 1, Layout := "color" }],
    InputAttachmentReferences := [{ Attachment := 0, Layout := "read" }],
    ResolveAttachments := [{ Attachment := 1, Layout := "color" }],
    DepthStencilAttachment := [{ Attachment := 1, Layout := "depth" }],
    PreserveAttachments := [5] }

/-- A blueprint with two attachments, the subpass `fullSubpass` and one
dependency. -/
def onePass : RenderPassData :=
  { Name := "one", AttachmentDescriptions := [colorAttachment, colorAttachment],
    SubpassDescriptions := [fullSubpass],
    SubpassDependencies :=
      [{ SrcSubpass := 0, DstSubpass := 0, SrcStageMask := ["top"], DstStageMask := ["bottom"],
         SrcAccessMask := [], DstAccessMask := ["read", "write"], DependencyFlags := [] }] }

/-- A subpass with one colour reference and nothing else. -/
def colorOnlySubpass : RenderPassSubpassDescription :=
  { PipelineBindPoint := "graphics",
    ColorAttachmentReferences := [{ Attachment := 0, Layout := "color" }],
    InputAttachmentReferences := [], ResolveAttachments := [], DepthStencilAttachment := [],
    PreserveAttachments := [] }

/-- A blueprint with one attachment and the subpass `colorOnlySubpass`. -/
def plainPass : RenderPassData :=
  { Name := "plain", AttachmentDescriptions := [colorAttachment],
    SubpassDescriptions := [colorOnlySubpass], SubpassDependencies := [] }

/-- A blueprint with no attachment, no subpass and no dependency. -/
def emptyPass : RenderPassData :=
  { Name := "empty", AttachmentDescriptions := [], SubpassDescriptions := [],
    SubpassDependencies := [] }

/-- The set-up calls of three colour attachments on `gpuAllOk`, in order. -/
def setupOfThree : List GpuCall :=
  [GpuCall.CreateImage 0 800 600 1 1 4 7 1 1 1,
   GpuCall.CreateImageView 0 1,
   GpuCall.CreateTextureSampler 0 1 6,
   GpuCall.TransitionImageLayout 0 9 1 1,
   GpuCall.CreateImage 1 800 600 1 1 4 7 1 1 1,
   GpuCall.CreateImageView 1 1,
   GpuCall.CreateTextureSampler 1 1 6,
   GpuCall.TransitionImageLayout 1 9 1 1,
   GpuCall.CreateImage 2 800 600 1 1 4 7 1 1 1,
   GpuCall.CreateImageView 2 1,
   GpuCall.CreateTextureSampler 2 1 6,
   GpuCall.TransitionImageLayout 2 9 1 1]

/-- The native descriptor of `colorAttachment` under `vkTables`. -/
def colorAttachmentVk : VkAttachmentDescription :=
  { Flags := 0, Format := 4, Samples := 1, LoadOp := 5, StoreOp := 5, StencilLoadOp := 0,
    StencilStoreOp := 0, InitialLayout := 9, FinalLayout := 5 }

/-- What `ConstructRenderPass` hands back for `onePass` on `gpuAllOk`. -/
def onePassResult : ConstructResult :=
  { pass := { Handle := some 1, Buffer := some 2 }, ok := true,
    calls := setupOfThree.take 8 ++
      [GpuCall.NewRenderPass [colorAttachmentVk, colorAttachmentVk]
         [{ Flags := 0, PipelineBindPoint := 8, ColorAttachmentCount := 1,
            InputAttachmentCount := 1, PreserveAttachmentCount := 1,
            PColorAttachments :=
              some [{ Attachment := 0, Layout := 5 }, { Attachment := 1, Layout := 5 }],
            PInputAttachments := some [{ Attachment := 0, Layout := 4 }],
            PPreserveAttachments := some [0],
            PDepthStencilAttachment := some [{ Attachment := 1, Layout := 5 }],
            PResolveAttachments := some [{ Attachment := 1, Layout := 5 }] }]
         [{ SrcSubpass := 0, DstSubpass := 0, SrcStageMask := 1, DstStageMask := 1,
            SrcAccessMask := 0, DstAccessMask := 2, DependencyFlags := 0 }],
       GpuCall.CreateFrameBuffer [some 200, some 201] 800 600],
    blueprint :=
      { onePass with
        SubpassDescriptions := [{ fullSubpass with PreserveAttachments := [0] }] } }

/-- A heap in which material `9` is drawn in render pass `2` and every other
material in render pass `1`. -/
def heapTwoPasses : Heap :=
  { material := fun a =>
      { renderPass := some (if a = 9 then 2 else 1), Textures := [], Root := none,
        key := "basic" },
    dataSize := fun _ => 64 }

/-- A drawing of the given material and mesh, with shader data `inst`. -/
def drawingWith (material mesh inst : Nat) : Drawing :=
  { Renderer := some 0, Material := some material, Mesh := some mesh, ShaderData := inst,
    Transform := none, UseBlending := false }

/-- Four drawings over the materials `7` and `8` (render pass `1`) and `9` (render
pass `2`). -/
def fourDrawings : List Drawing :=
  [drawingWith 7 1 10, drawingWith 9 1 11, drawingWith 8 1 12, drawingWith 7 2 13]

/-- The tree the drain of `fourDrawings` builds under `heapTwoPasses`: two
RenderPassGroups, the first with two ShaderDraws. -/
def treeTwoPasses : Drawings :=
  { renderPassGroups :=
      [{ renderPass := some 1,
         draws :=
          [{ material := some 7,
             instanceGroups :=
              [{ Mesh := some 1, MaterialInstance := some 7, Instances := [10],
                 instanceSize := 64, useBlending := false, destroyed := false },
               { Mesh := some 2, MaterialInstance := some 7, Instances := [13],
                 instanceSize := 64, useBlending := false, destroyed := false }] },
           { material := some 8,
             instanceGroups :=
              [{ Mesh := some 1, MaterialInstance := some 8, Instances := [12],
                 instanceSize := 64, useBlending := false, destroyed := false }] }] },
       { renderPass := some 2,
         draws :=
          [{ material := some 9,
             instanceGroups :=
              [{ Mesh := some 1, MaterialInstance := some 9, Instances := [11],
                 instanceSize := 64, useBlending := false, destroyed := false }] }] }],
    backDraws := [] }

/-- The tree of the end-to-end example with its first group marked destroyed and
three more drawings buffered: one of a new mesh `3`, then two of mesh `1`, which
match the destroyed slot. -/
def deadTreeBuffered : Drawings :=
  (tree0.markDestroyed 0 0 0).AddDrawings [drawingOf 3 20, drawingOf 1 13, drawingOf 1 14]

/-- The state `PreparePending` makes of `deadTreeBuffered`. -/
def treeRefilled : Drawings :=
  { renderPassGroups :=
      [{ renderPass := some 1,
         draws :=
          [{ material := some 7,
             instanceGroups :=
              [{ Mesh := some 1, MaterialInstance := some 7, Instances := [13, 14],
                 instanceSize := 64, useBlending := false, destroyed := false },
               { Mesh := some 2, MaterialInstance := some 7, Instances := [12],
                 instanceSize := 64, useBlending := false, destroyed := false },
               { Mesh := some 3, MaterialInstance := some 7, Instances := [20],
                 instanceSize := 64, useBlending := false, destroyed := false }] }] }],
    backDraws := [] }

/-- A drawing whose material is nil (`IsValid` is false). -/
def nilMaterialDrawing : Drawing :=
  { Renderer := some 0, Material := none, Mesh := some 1, ShaderData := 10,
    Transform := none, UseBlending := false }

/-- The drawings a sequence of submission calls appends, in order. -/
def submitted : List Submit → List Drawing
  | [] => []
  | Submit.one v :: rest => v :: submitted rest
  | Submit.many vs :: rest => vs ++ submitted rest

/-- `AddDrawing` called on each element of a list in turn. -/
def addEach : Drawings → List Drawing → Option Drawings
  | d, [] => some d
  | d, v :: vs =>
    match d.AddDrawing (some v) with
    | none => none
    | some d2 => addEach d2 vs

/-- Every instance group of the tree has its `MaterialInstance` set (line 147
sets it on every group the batcher allocates). -/
def LiveInstances (groups : List RenderPassGroup) : Prop :=
  ∀ rpg ∈ groups, ∀ sd ∈ rpg.draws, ∀ g ∈ sd.instanceGroups, g.MaterialInstance ≠ none

instance (groups : List RenderPassGroup) : Decidable (LiveInstances groups) := by
  unfold LiveInstances
  infer_instance

/-- The part of an instance group's key that varies inside one ShaderDraw. -/
def slotKey (g : DrawInstanceGroup) : Ptr × Bool :=
  (g.Mesh, g.useBlending)

/-- A ShaderDraw is well grouped: every instance group carries the ShaderDraw's
material as its material instance, and no two of them share mesh and blending
flag. -/
def DrawOK (sd : ShaderDraw) : Prop :=
  (∀ g ∈ sd.instanceGroups, g.MaterialInstance = sd.material) ∧
    (sd.instanceGroups.map slotKey).Nodup

/-- A RenderPassGroup is well grouped: it holds a ShaderDraw, no two of its
ShaderDraws share a material, and each is keyed by a material and well grouped. -/
def PassOK (rpg : RenderPassGroup) : Prop :=
  rpg.draws ≠ [] ∧ (rpg.draws.map (fun s => s.material)).Nodup ∧
    ∀ sd ∈ rpg.draws, sd.material ≠ none ∧ DrawOK sd

/-- The tree is well grouped: no two RenderPassGroups share a render pass and
each is well grouped. -/
def TreeOK (groups : List RenderPassGroup) : Prop :=
  (groups.map (fun g => g.renderPass)).Nodup ∧ ∀ rpg ∈ groups, PassOK rpg

/-- The textures of an instance group: those of its material instance
(`group.MaterialInstance.Textures`). -/
def groupTextures (h : Heap) (g : DrawInstanceGroup) : List Ptr :=
  match g.MaterialInstance with
  | none => []
  | some m => (h.material m).Textures

/-- The render pass a drawing is routed to: `drawing.Material.renderPass`. -/
def Drawing.renderPass (h : Heap) (dg : Drawing) : Ptr :=
  match dg.Material with
  | none => none
  | some m => (h.material m).renderPass

/-- The instance group is live, has the drawing's mesh and blending flag, and
holds the drawing's shader data among its instances. -/
def Holds (dg : Drawing) (g : DrawInstanceGroup) : Prop :=
  g.destroyed = false ∧ g.Mesh = dg.Mesh ∧ g.useBlending = dg.UseBlending ∧
    dg.ShaderData ∈ g.Instances

/-- The drawing is batched in the tree: a group holds it, inside a ShaderDraw
keyed by its material, inside a RenderPassGroup keyed by its render pass. -/
def Batched (h : Heap) (dg : Drawing) (groups : List RenderPassGroup) : Prop :=
  ∃ rpg ∈ groups, rpg.renderPass = dg.renderPass h ∧
    ∃ sd ∈ rpg.draws, sd.material = dg.Material ∧ ∃ g ∈ sd.instanceGroups, Holds dg g

/-- The mesh and blending flag of a drawing, to compare with `slotKey`. -/
def drawKey (v : Drawing) : Ptr × Bool :=
  (v.Mesh, v.UseBlending)

/-- The slots of the ShaderDraw of material `x` after the drawings `done`, all of
material `x`, have been folded into an initially empty ShaderDraw: one live
group per mesh and blending flag met, holding the instances of the drawings
with that pair, in order. -/
def SlotInv (x : Nat) (done : List Drawing) (slots : List DrawInstanceGroup) : Prop :=
  (slots.map slotKey).Nodup ∧
    (∀ v ∈ done, ∃ g ∈ slots, slotKey g = drawKey v) ∧
    ∀ g ∈ slots, g.MaterialInstance = some x ∧ g.destroyed = false ∧
      (∃ v ∈ done, slotKey g = drawKey v) ∧
      g.Instances =
        (done.filter (fun v => decide (drawKey v = slotKey g))).map (fun v => v.ShaderData)

/-- Position by position, every element of `l` has a counterpart in `l2`
related to it by `R`: `l2` keeps the elements of `l` in place and may hold more. -/
def KeepsInPlace {α : Type} (R : α → α → Prop) (l l2 : List α) : Prop :=
  ∀ (i : Nat) (a : α), l[i]? = some a → ∃ b, l2[i]? = some b ∧ R a b

/-- The later ShaderDraw has the material of the earlier one and at least as many
slots. -/
def DrawKeeps (sd sd2 : ShaderDraw) : Prop :=
  sd2.material = sd.material ∧ sd.instanceGroups.length ≤ sd2.instanceGroups.length

/-- The later RenderPassGroup has the render pass of the earlier one and keeps its
ShaderDraws in place. -/
def PassKeeps (g g2 : RenderPassGroup) : Prop :=
  g2.renderPass = g.renderPass ∧ KeepsInPlace DrawKeeps g.draws g2.draws

/-- The loop of `texturesMatch` (drawing.go:84-88) over the elements of `a`. -/
def texturesMatchLoop (b : List Ptr) : List Ptr → Bool
  | [] => true
  | ta :: rest => if !(b.contains ta) then false else texturesMatchLoop b rest

/-- `texturesMatch` (drawing.go:80). -/
def texturesMatch (a b : List Ptr) : Bool :=
  if a.length ≠ b.length then false else texturesMatchLoop b a

/-- The textures of a drawing's material (`drawing.Material.Textures`). -/
def Drawing.textures (h : Heap) (dg : Drawing) : List Ptr :=
  match dg.Material with
  | none => []
  | some m => (h.material m).Textures

/-! ## The shape of one loop iteration -/

/-- What one iteration of `PreparePending` does to the slots of the ShaderDraw it
located: the first slot whose condition holds gets the instance when it is live
and is overwritten by a seeded group when it is destroyed; without such a slot a
seeded group is appended. -/
inductive SlotsStep (h : Heap) (dg : Drawing) :
    List DrawInstanceGroup → List DrawInstanceGroup → Prop where
  | appended (pre : List DrawInstanceGroup) (g : DrawInstanceGroup)
      (post : List DrawInstanceGroup) :
      (∀ a ∈ pre, groupMatches h a dg = some false) → groupMatches h g dg = some true →
      g.destroyed = false →
      SlotsStep h dg (pre ++ g :: post) (pre ++ g.AddInstance dg.ShaderData :: post)
  | replaced (pre : List DrawInstanceGroup) (g : DrawInstanceGroup)
      (post : List DrawInstanceGroup) :
      (∀ a ∈ pre, groupMatches h a dg = some false) → groupMatches h g dg = some true →
      g.destroyed = true →
      SlotsStep h dg (pre ++ g :: post) (pre ++ seedGroup h dg :: post)
  | added (slots : List DrawInstanceGroup) :
      (∀ a ∈ slots, groupMatches h a dg = some false) →
      SlotsStep h dg slots (slots ++ [seedGroup h dg])

/-- What one iteration does to the ShaderDraws of the RenderPassGroup it located:
the first ShaderDraw of the drawing's material is updated in place, or a new one
is appended and updated. -/
inductive DrawsStep (h : Heap) (dg : Drawing) : List ShaderDraw → List ShaderDraw → Prop where
  | found (pre : List ShaderDraw) (sd : ShaderDraw) (post : List ShaderDraw) (sd2 : ShaderDraw) :
      (∀ a ∈ pre, a.material ≠ dg.Material) → sd.material = dg.Material →
      sd2.material = dg.Material → SlotsStep h dg sd.instanceGroups sd2.instanceGroups →
      DrawsStep h dg (pre ++ sd :: post) (pre ++ sd2 :: post)
  | created (draws : List ShaderDraw) (sd2 : ShaderDraw) :
      (∀ a ∈ draws, a.material ≠ dg.Material) →
      sd2.material = dg.Material → SlotsStep h dg [] sd2.instanceGroups →
      DrawsStep h dg draws (draws ++ [sd2])

/-- What one iteration does to the RenderPassGroups: the first group of the render
pass `rp` is updated in place, or a new one is appended and updated. -/
inductive GroupsStep (h : Heap) (dg : Drawing) (rp : Ptr) :
    List RenderPassGroup → List RenderPassGroup → Prop where
  | found (pre : List RenderPassGroup) (g : RenderPassGroup) (post : List RenderPassGroup)
      (g2 : RenderPassGroup) :
      (∀ a ∈ pre, a.renderPass ≠ rp) → g.renderPass = rp → g2.renderPass = rp →
      DrawsStep h dg g.draws g2.draws →
      GroupsStep h dg rp (pre ++ g :: post) (pre ++ g2 :: post)
  | created (groups : List RenderPassGroup) (g2 : RenderPassGroup) :
      (∀ a ∈ groups, a.renderPass ≠ rp) → g2.renderPass = rp →
      DrawsStep h dg [] g2.draws →
      GroupsStep h dg rp groups (groups ++ [g2])

/-- What lines 143-152 of `PreparePending` leave in the slot `matchGroup` selected:
the group with the drawing's instance appended when it is live, the group seeded
with the drawing when it is marked destroyed. -/
def refill (h : Heap) (g : DrawInstanceGroup) (dg : Drawing) : DrawInstanceGroup :=
  if g.destroyed then seedGroup h dg else g.AddInstance dg.ShaderData

/-- What a drain does to the slots of the ShaderDraw of `material`: the buffered
drawings of that material take their `SlotsStep` in buffer order, the others
leave the slots as they are. -/
inductive SlotsRun (h : Heap) (material : Ptr) :
    List Drawing → List DrawInstanceGroup → List DrawInstanceGroup → Prop where
  | done (slots : List DrawInstanceGroup) : SlotsRun h material [] slots slots
  | skip (v : Drawing) (rest : List Drawing) (slots slots2 : List DrawInstanceGroup) :
      v.Material ≠ material → SlotsRun h material rest slots slots2 →
      SlotsRun h material (v :: rest) slots slots2
  | step (v : Drawing) (rest : List Drawing) (slots slots1 slots2 : List DrawInstanceGroup) :
      v.Material = material → SlotsStep h v slots slots1 →
      SlotsRun h material rest slots1 slots2 →
      SlotsRun h material (v :: rest) slots slots2

/-! ## Lists: searching and updating in place -/

theorem getElem?_append_cons_length {α : Type} (pre : List α) (x : α) (post : List α) :
    (pre ++ x :: post)[pre.length]? = some x := by
  induction pre with
  | nil => simp
  | cons a pre ih => simpa using ih

theorem set_append_cons_length {α : Type} (pre : List α) (x y : α) (post : List α) :
    (pre ++ x :: post).set pre.length y = pre ++ y :: post := by
  induction pre with
  | nil => simp
  | cons a pre ih => simp

theorem firstIndex_eq_none {α : Type} {p : α → Bool} {l : List α}
    (hn : firstIndex p l = none) : ∀ x ∈ l, p x = false := by
  induction l with
  | nil => simp
  | cons a l ih =>
    intro x hx
    cases hpa : p a with
    | true => simp [firstIndex, hpa] at hn
    | false =>
      simp only [firstIndex, hpa, Bool.false_eq_true, if_false, Option.map_eq_none'] at hn
      rcases List.mem_cons.mp hx with rfl | hx
      · exact hpa
      · exact ih hn x hx

theorem firstIndex_none_of_forall {α : Type} {p : α → Bool} {l : List α}
    (hall : ∀ x ∈ l, p x = false) : firstIndex p l = none := by
  induction l with
  | nil => rfl
  | cons a l ih =>
    have hpa : p a = false := hall a (List.mem_cons_self a l)
    have hl : firstIndex p l = none := ih (fun x hx => hall x (List.mem_cons_of_mem a hx))
    simp [firstIndex, hpa, hl]

theorem firstIndex_eq_some {α : Type} {p : α → Bool} {l : List α} {i : Nat}
    (hs : firstIndex p l = some i) :
    ∃ pre x post, l = pre ++ x :: post ∧ pre.length = i ∧ p x = true ∧
      ∀ a ∈ pre, p a = false := by
  induction l generalizing i with
  | nil => simp [firstIndex] at hs
  | cons a l ih =>
    cases hpa : p a with
    | true =>
      simp only [firstIndex, hpa, if_true, Option.some.injEq] at hs
      exact ⟨[], a, l, rfl, by subst hs; rfl, hpa, by simp⟩
    | false =>
      simp only [firstIndex, hpa, Bool.false_eq_true, if_false, Option.map_eq_some'] at hs
      obtain ⟨j, hj, rfl⟩ := hs
      obtain ⟨pre, x, post, rfl, hlen, hpx, hpre⟩ := ih hj
      refine ⟨a :: pre, x, post, rfl, by simp [hlen], hpx, ?_⟩
      intro b hb
      rcases List.mem_cons.mp hb with rfl | hb
      · exact hpa
      · exact hpre b hb

theorem firstIndex_append_of_forall {α : Type} {p : α → Bool} (pre : List α) (x : α)
    (post : List α) (hpre : ∀ a ∈ pre, p a = false) (hx : p x = true) :
    firstIndex p (pre ++ x :: post) = some pre.length := by
  induction pre with
  | nil => simp [firstIndex, hx]
  | cons a pre ih =>
    have hpa : p a = false := hpre a (List.mem_cons_self a pre)
    have hrest := ih (fun b hb => hpre b (List.mem_cons_of_mem a hb))
    simp [firstIndex, hpa, hrest]

/-! ## One loop iteration of `PreparePending` -/

theorem matchGroupFrom_cases {h : Heap} {dg : Drawing} {l : List DrawInstanceGroup} {i : Nat}
    {idx : Int} (hm : matchGroupFrom h dg l i = some idx) :
    (idx = -1 ∧ ∀ g ∈ l, groupMatches h g dg = some false) ∨
    (∃ pre g post, l = pre ++ g :: post ∧ idx = ((i + pre.length : Nat) : Int) ∧
      groupMatches h g dg = some true ∧ ∀ a ∈ pre, groupMatches h a dg = some false) := by
  induction l generalizing i with
  | nil =>
    left
    simp only [matchGroupFrom, Option.some.injEq] at hm
    exact ⟨hm.symm, by simp⟩
  | cons a l ih =>
    cases hgm : groupMatches h a dg with
    | none => simp [matchGroupFrom, hgm] at hm
    | some b =>
      cases b with
      | true =>
        right
        simp only [matchGroupFrom, hgm, Option.some.injEq] at hm
        exact ⟨[], a, l, rfl, by simp [← hm], hgm, by simp⟩
      | false =>
        simp only [matchGroupFrom, hgm] at hm
        rcases ih hm with ⟨hidx, hall⟩ | ⟨pre, g, post, rfl, hidx, hg, hpre⟩
        · left
          refine ⟨hidx, ?_⟩
          intro x hx
          rcases List.mem_cons.mp hx with rfl | hx
          · exact hgm
          · exact hall x hx
        · right
          refine ⟨a :: pre, g, post, rfl, ?_, hg, ?_⟩
          · rw [hidx]
            simp only [List.length_cons]
            congr 1
            omega
          · intro x hx
            rcases List.mem_cons.mp hx with rfl | hx
            · exact hgm
            · exact hpre x hx

theorem placeInstance_step {h : Heap} {draw draw2 : ShaderDraw} {dg : Drawing}
    (hp : placeInstance h draw dg = some draw2) :
    draw2.material = draw.material ∧ SlotsStep h dg draw.instanceGroups draw2.instanceGroups := by
  unfold placeInstance matchGroup at hp
  cases hm : matchGroupFrom h dg draw.instanceGroups 0 with
  | none => simp [hm] at hp
  | some idx =>
    rw [hm] at hp
    rcases matchGroupFrom_cases hm with ⟨hidx, hall⟩ | ⟨pre, g, post, hl, hidx, hg, hpre⟩
    · subst hidx
      simp only [show ¬ ((0 : Int) ≤ -1) by decide, if_false, Option.some.injEq] at hp
      subst hp
      exact ⟨rfl, SlotsStep.added _ hall⟩
    · have hnn : (0 : Int) ≤ idx := by rw [hidx]; exact Int.ofNat_nonneg _
      have htn : idx.toNat = pre.length := by rw [hidx]; simp
      simp only [hnn, if_true, htn, hl, getElem?_append_cons_length,
        set_append_cons_length] at hp
      cases hd : g.destroyed with
      | false =>
        simp only [hd, Bool.not_false, if_true, Option.some.injEq] at hp
        subst hp
        refine ⟨rfl, ?_⟩
        simp only [hl]
        exact SlotsStep.appended pre g post hpre hg hd
      | true =>
        simp only [hd, Bool.not_true, Bool.false_eq_true, if_false, Option.some.injEq] at hp
        subst hp
        refine ⟨rfl, ?_⟩
        simp only [hl]
        exact SlotsStep.replaced pre g post hpre hg hd

theorem placeInGroup_step {h : Heap} {rpGroup rpGroup2 : RenderPassGroup} {dg : Drawing}
    (hp : placeInGroup h rpGroup dg = some rpGroup2) :
    rpGroup2.renderPass = rpGroup.renderPass ∧ DrawsStep h dg rpGroup.draws rpGroup2.draws := by
  unfold placeInGroup RenderPassGroup.findShaderDraw at hp
  cases hf : firstIndex (fun s => decide (s.material = dg.Material)) rpGroup.draws with
  | some j =>
    obtain ⟨pre, sd, post, hl, hlen, hsd, hpre⟩ := firstIndex_eq_some hf
    subst hlen
    rw [hf] at hp
    simp only [hl, getElem?_append_cons_length, set_append_cons_length] at hp
    cases hpi : placeInstance h sd dg with
    | none => simp [hpi] at hp
    | some sd2 =>
      simp only [hpi, Option.some.injEq] at hp
      subst hp
      obtain ⟨hmat, hslots⟩ := placeInstance_step hpi
      refine ⟨rfl, ?_⟩
      simp only [hl]
      have hsd1 : sd.material = dg.Material := by simpa using hsd
      exact DrawsStep.found pre sd post sd2 (fun a ha => by simpa using hpre a ha) hsd1
        (hmat.trans hsd1) hslots
  | none =>
    have hall := firstIndex_eq_none hf
    have hget := getElem?_append_cons_length rpGroup.draws (NewShaderDraw dg.Material) []
    have hset := fun y => set_append_cons_length rpGroup.draws (NewShaderDraw dg.Material) y []
    simp only [hf, hget, hset] at hp
    cases hpi : placeInstance h (NewShaderDraw dg.Material) dg with
    | none => simp [hpi] at hp
    | some sd2 =>
      simp only [hpi, Option.some.injEq] at hp
      subst hp
      obtain ⟨hmat, hslots⟩ := placeInstance_step hpi
      exact ⟨rfl, DrawsStep.created rpGroup.draws sd2 (fun a ha => by simpa using hall a ha)
        hmat hslots⟩

theorem prepareOne_step {h : Heap} {groups groups2 : List RenderPassGroup} {dg : Drawing}
    (hp : prepareOne h groups dg = some groups2) :
    ∃ m, dg.Material = some m ∧ GroupsStep h dg (h.material m).renderPass groups groups2 := by
  unfold prepareOne at hp
  cases hmat : dg.Material with
  | none => simp [hmat] at hp
  | some m =>
    refine ⟨m, rfl, ?_⟩
    simp only [hmat] at hp
    unfold findRenderPassGroup at hp
    cases hf : firstIndex (fun g => decide (g.renderPass = (h.material m).renderPass)) groups with
    | some i =>
      obtain ⟨pre, g, post, hl, hlen, hg, hpre⟩ := firstIndex_eq_some hf
      subst hlen
      rw [hf] at hp
      simp only [hl, getElem?_append_cons_length, set_append_cons_length] at hp
      cases hpg : placeInGroup h g dg with
      | none => simp [hpg] at hp
      | some g2 =>
        simp only [hpg, Option.some.injEq] at hp
        subst hp
        obtain ⟨hrp, hdraws⟩ := placeInGroup_step hpg
        have hg1 : g.renderPass = (h.material m).renderPass := by simpa using hg
        simp only [hl]
        exact GroupsStep.found pre g post g2 (fun a ha => by simpa using hpre a ha) hg1
          (hrp.trans hg1) hdraws
    | none =>
      have hall := firstIndex_eq_none hf
      have hget := getElem?_append_cons_length groups
        ({ renderPass := (h.material m).renderPass, draws := [] } : RenderPassGroup) []
      have hset := fun y => set_append_cons_length groups
        ({ renderPass := (h.material m).renderPass, draws := [] } : RenderPassGroup) y []
      simp only [hf, hget, hset] at hp
      cases hpg : placeInGroup h
          ({ renderPass := (h.material m).renderPass, draws := [] } : RenderPassGroup) dg with
      | none => simp [hpg] at hp
      | some g2 =>
        simp only [hpg, Option.some.injEq] at hp
        subst hp
        obtain ⟨hrp, hdraws⟩ := placeInGroup_step hpg
        exact GroupsStep.created groups g2 (fun a ha => by simpa using hall a ha) hrp hdraws

/-! ## `PreparePending` completes on valid drawings -/

theorem groupMatches_total {h : Heap} {g : DrawInstanceGroup} (dg : Drawing)
    (hg : g.MaterialInstance ≠ none) : ∃ b, groupMatches h g dg = some b := by
  unfold groupMatches
  split
  · split
    · exact ⟨_, rfl⟩
    · cases hmi : g.MaterialInstance with
      | none => exact absurd hmi hg
      | some m =>
        simp only
        split
        · exact ⟨_, rfl⟩
        · exact ⟨_, rfl⟩
  · exact ⟨_, rfl⟩

theorem matchGroupFrom_total {h : Heap} (dg : Drawing) {l : List DrawInstanceGroup} (i : Nat)
    (hl : ∀ g ∈ l, g.MaterialInstance ≠ none) : ∃ idx, matchGroupFrom h dg l i = some idx := by
  induction l generalizing i with
  | nil => exact ⟨-1, rfl⟩
  | cons a l ih =>
    obtain ⟨b, hb⟩ := groupMatches_total (h := h) dg (hl a (List.mem_cons_self a l))
    cases b with
    | true => exact ⟨(i : Int), by simp [matchGroupFrom, hb]⟩
    | false =>
      obtain ⟨idx, hidx⟩ := ih (i + 1) (fun g hg => hl g (List.mem_cons_of_mem a hg))
      exact ⟨idx, by simp [matchGroupFrom, hb, hidx]⟩

theorem placeInstance_total {h : Heap} (draw : ShaderDraw) (dg : Drawing)
    (hl : ∀ g ∈ draw.instanceGroups, g.MaterialInstance ≠ none) :
    ∃ draw2, placeInstance h draw dg = some draw2 := by
  obtain ⟨idx, hidx⟩ := matchGroupFrom_total (h := h) dg 0 hl
  unfold placeInstance matchGroup
  rw [hidx]
  rcases matchGroupFrom_cases hidx with ⟨hneg, _⟩ | ⟨pre, g, post, hdec, hval, _, _⟩
  · subst hneg
    simp
  · have hnn : (0 : Int) ≤ idx := by rw [hval]; exact Int.ofNat_nonneg _
    have htn : idx.toNat = pre.length := by rw [hval]; simp
    simp only [hnn, if_true, htn, hdec, getElem?_append_cons_length]
    cases g.destroyed <;> simp

theorem placeInGroup_total {h : Heap} (rpGroup : RenderPassGroup) (dg : Drawing)
    (hl : ∀ sd ∈ rpGroup.draws, ∀ g ∈ sd.instanceGroups, g.MaterialInstance ≠ none) :
    ∃ rpGroup2, placeInGroup h rpGroup dg = some rpGroup2 := by
  unfold placeInGroup RenderPassGroup.findShaderDraw
  cases hf : firstIndex (fun s => decide (s.material = dg.Material)) rpGroup.draws with
  | some j =>
    obtain ⟨pre, sd, post, hdec, hlen, _, _⟩ := firstIndex_eq_some hf
    subst hlen
    have hsd : sd ∈ rpGroup.draws := by rw [hdec]; simp
    obtain ⟨sd2, hsd2⟩ := placeInstance_total (h := h) sd dg (hl sd hsd)
    simp only [hdec, getElem?_append_cons_length, hsd2]
    exact ⟨_, rfl⟩
  | none =>
    have hget := getElem?_append_cons_length rpGroup.draws (NewShaderDraw dg.Material) []
    obtain ⟨sd2, hsd2⟩ := placeInstance_total (h := h) (NewShaderDraw dg.Material) dg
      (by simp [NewShaderDraw])
    simp only [hget, hsd2]
    exact ⟨_, rfl⟩

theorem prepareOne_total {h : Heap} {groups : List RenderPassGroup} {dg : Drawing}
    (hv : dg.Material ≠ none) (hl : LiveInstances groups) :
    ∃ groups2, prepareOne h groups dg = some groups2 := by
  unfold prepareOne findRenderPassGroup
  cases hmat : dg.Material with
  | none => exact absurd hmat hv
  | some m =>
    simp only
    cases hf : firstIndex (fun g => decide (g.renderPass = (h.material m).renderPass)) groups with
    | some i =>
      obtain ⟨pre, g, post, hdec, hlen, _, _⟩ := firstIndex_eq_some hf
      subst hlen
      have hg : g ∈ groups := by rw [hdec]; simp
      obtain ⟨g2, hg2⟩ := placeInGroup_total (h := h) g dg (hl g hg)
      simp only [hdec, getElem?_append_cons_length, hg2]
      exact ⟨_, rfl⟩
    | none =>
      have hget := getElem?_append_cons_length groups
        ({ renderPass := (h.material m).renderPass, draws := [] } : RenderPassGroup) []
      obtain ⟨g2, hg2⟩ := placeInGroup_total (h := h)
        ({ renderPass := (h.material m).renderPass, draws := [] } : RenderPassGroup)
        dg (by simp)
      simp only [hget, hg2]
      exact ⟨_, rfl⟩

theorem SlotsStep.forall_slots {h : Heap} {dg : Drawing} {Q : DrawInstanceGroup → Prop}
    {l l2 : List DrawInstanceGroup} (hadd : ∀ g x, Q g → Q (g.AddInstance x))
    (hseed : Q (seedGroup h dg)) (hs : SlotsStep h dg l l2) (hl : ∀ g ∈ l, Q g) :
    ∀ g ∈ l2, Q g := by
  cases hs with
  | appended pre g post _ _ _ =>
    intro x hx
    rcases List.mem_append.mp hx with hx | hx
    · exact hl x (List.mem_append_left _ hx)
    · rcases List.mem_cons.mp hx with rfl | hx
      · exact hadd g _ (hl g (by simp))
      · exact hl x (by simp [hx])
  | replaced pre g post _ _ _ =>
    intro x hx
    rcases List.mem_append.mp hx with hx | hx
    · exact hl x (List.mem_append_left _ hx)
    · rcases List.mem_cons.mp hx with rfl | hx
      · exact hseed
      · exact hl x (by simp [hx])
  | added _ _ =>
    intro x hx
    rcases List.mem_append.mp hx with hx | hx
    · exact hl x hx
    · rw [List.mem_singleton.mp hx]
      exact hseed

theorem DrawsStep.forall_draw_slots {h : Heap} {dg : Drawing} {Q : DrawInstanceGroup → Prop}
    {l l2 : List ShaderDraw} (hadd : ∀ g x, Q g → Q (g.AddInstance x))
    (hseed : Q (seedGroup h dg)) (hs : DrawsStep h dg l l2)
    (hl : ∀ sd ∈ l, ∀ g ∈ sd.instanceGroups, Q g) :
    ∀ sd ∈ l2, ∀ g ∈ sd.instanceGroups, Q g := by
  cases hs with
  | found pre sd post sd2 _ _ _ hslots =>
    intro x hx
    rcases List.mem_append.mp hx with hx | hx
    · exact hl x (List.mem_append_left _ hx)
    · rcases List.mem_cons.mp hx with rfl | hx
      · exact hslots.forall_slots hadd hseed (hl sd (by simp))
      · exact hl x (by simp [hx])
  | created _ sd2 _ _ hslots =>
    intro x hx
    rcases List.mem_append.mp hx with hx | hx
    · exact hl x hx
    · rw [List.mem_singleton.mp hx]
      exact hslots.forall_slots hadd hseed (by simp)

theorem GroupsStep.forall_tree_slots {h : Heap} {dg : Drawing} {rp : Ptr}
    {Q : DrawInstanceGroup → Prop} {l l2 : List RenderPassGroup}
    (hadd : ∀ g x, Q g → Q (g.AddInstance x)) (hseed : Q (seedGroup h dg))
    (hs : GroupsStep h dg rp l l2)
    (hl : ∀ rpg ∈ l, ∀ sd ∈ rpg.draws, ∀ g ∈ sd.instanceGroups, Q g) :
    ∀ rpg ∈ l2, ∀ sd ∈ rpg.draws, ∀ g ∈ sd.instanceGroups, Q g := by
  cases hs with
  | found pre g post g2 _ _ _ hdraws =>
    intro x hx
    rcases List.mem_append.mp hx with hx | hx
    · exact hl x (List.mem_append_left _ hx)
    · rcases List.mem_cons.mp hx with rfl | hx
      · exact hdraws.forall_draw_slots hadd hseed (hl g (by simp))
      · exact hl x (by simp [hx])
  | created _ g2 _ _ hdraws =>
    intro x hx
    rcases List.mem_append.mp hx with hx | hx
    · exact hl x hx
    · rw [List.mem_singleton.mp hx]
      exact hdraws.forall_draw_slots hadd hseed (by simp)

theorem prepareOne_live {h : Heap} {groups groups2 : List RenderPassGroup} {dg : Drawing}
    (hp : prepareOne h groups dg = some groups2) (hl : LiveInstances groups) :
    LiveInstances groups2 := by
  obtain ⟨m, hm, hstep⟩ := prepareOne_step hp
  exact hstep.forall_tree_slots (Q := fun g => g.MaterialInstance ≠ none)
    (fun g x hg => by simpa [DrawInstanceGroup.AddInstance] using hg)
    (by simp [seedGroup, DrawInstanceGroup.AddInstance, hm]) hl

theorem prepareAll_total {h : Heap} {buffer : List Drawing} {groups : List RenderPassGroup}
    (hv : ∀ v ∈ buffer, v.IsValid = true) (hl : LiveInstances groups) :
    ∃ groups2, prepareAll h groups buffer = some groups2 ∧ LiveInstances groups2 := by
  induction buffer generalizing groups with
  | nil => exact ⟨groups, rfl, hl⟩
  | cons v rest ih =>
    have hvm : v.Material ≠ none := by
      have := hv v (List.mem_cons_self v rest)
      simpa [Drawing.IsValid] using this
    obtain ⟨groups1, h1⟩ := prepareOne_total (h := h) hvm hl
    obtain ⟨groups2, h2, hl2⟩ := ih (fun x hx => hv x (List.mem_cons_of_mem v hx))
      (prepareOne_live h1 hl)
    exact ⟨groups2, by simp [prepareAll, h1, h2], hl2⟩

theorem PreparePending_total {h : Heap} {d : Drawings}
    (hv : ∀ v ∈ d.backDraws, v.IsValid = true) (hl : LiveInstances d.renderPassGroups) :
    ∃ d2, d.PreparePending h = some d2 := by
  obtain ⟨groups2, h2, _⟩ := prepareAll_total (h := h) hv hl
  refine ⟨{ renderPassGroups := groups2, backDraws := [] }, ?_⟩
  simp [Drawings.PreparePending, h2]

theorem PreparePending_backDraws {h : Heap} {d d2 : Drawings}
    (hp : d.PreparePending h = some d2) : d2.backDraws = [] := by
  unfold Drawings.PreparePending at hp
  cases hall : prepareAll h d.renderPassGroups d.backDraws with
  | none => simp [hall] at hp
  | some groups =>
    simp only [hall, Option.some.injEq] at hp
    subst hp
    rfl

theorem PreparePending_groups {h : Heap} {d d2 : Drawings}
    (hp : d.PreparePending h = some d2) :
    prepareAll h d.renderPassGroups d.backDraws = some d2.renderPassGroups := by
  unfold Drawings.PreparePending at hp
  cases hall : prepareAll h d.renderPassGroups d.backDraws with
  | none => simp [hall] at hp
  | some groups =>
    simp only [hall, Option.some.injEq] at hp
    subst hp
    rfl

theorem submitAll_eq (d : Drawings) (ops : List Submit) :
    submitAll d ops =
      some { renderPassGroups := d.renderPassGroups, backDraws := d.backDraws ++ submitted ops } := by
  induction ops generalizing d with
  | nil => simp [submitAll, submitted]
  | cons op rest ih =>
    cases op with
    | one v => simp [submitAll, submitted, Drawings.AddDrawing, ih]
    | many vs => simp [submitAll, submitted, Drawings.AddDrawings, ih]

theorem addEach_eq (d : Drawings) (vs : List Drawing) :
    addEach d vs = some (d.AddDrawings vs) := by
  induction vs generalizing d with
  | nil => simp [addEach, Drawings.AddDrawings]
  | cons v rest ih => simp [addEach, Drawings.AddDrawing, Drawings.AddDrawings, ih]

theorem renderLoop_eq (l : List RenderPassGroup) (passes : List Ptr) (calls : List RendererCall) :
    renderLoop l passes calls =
      (passes ++ (l.filter (fun g => decide (g.draws ≠ []))).map (fun g => g.renderPass),
       calls ++ (l.filter (fun g => decide (g.draws ≠ []))).map
          (fun g => RendererCall.Draw g.renderPass g.draws)) := by
  induction l generalizing passes calls with
  | nil => simp [renderLoop]
  | cons g l ih =>
    cases hd : g.draws with
    | nil => simp [renderLoop, hd, ih]
    | cons a as => simp [renderLoop, hd, ih]

/-! ## Grouping invariants -/

theorem groupMatches_true {h : Heap} {g : DrawInstanceGroup} {dg : Drawing}
    (hm : groupMatches h g dg = some true) : g.Mesh = dg.Mesh ∧ g.useBlending = dg.UseBlending := by
  unfold groupMatches at hm
  by_cases hmesh : g.Mesh = dg.Mesh
  · refine ⟨hmesh, ?_⟩
    rw [if_pos hmesh] at hm
    by_cases hmi : g.MaterialInstance = dg.Material
    · rw [if_pos hmi] at hm
      simpa [eq_comm] using hm
    · rw [if_neg hmi] at hm
      cases hx : g.MaterialInstance with
      | none => simp [hx] at hm
      | some m =>
        simp only [hx] at hm
        by_cases hroot : (h.material m).Root = dg.Material
        · rw [if_pos hroot] at hm
          simpa [eq_comm] using hm
        · rw [if_neg hroot] at hm
          simp at hm
  · rw [if_neg hmesh] at hm
    simp at hm

theorem groupMatches_of_instance {h : Heap} {g : DrawInstanceGroup} {dg : Drawing}
    (hmi : g.MaterialInstance = dg.Material) :
    groupMatches h g dg = some (decide (slotKey g = (dg.Mesh, dg.UseBlending))) := by
  unfold groupMatches slotKey
  by_cases hmesh : g.Mesh = dg.Mesh
  · rw [if_pos hmesh, if_pos hmi]
    by_cases hb : dg.UseBlending = g.useBlending
    · simp [hmesh, hb]
    · have hb2 : ¬ g.useBlending = dg.UseBlending := fun hx => hb hx.symm
      simp [hmesh, hb, hb2]
  · rw [if_neg hmesh]
    simp [hmesh]

theorem seedGroup_slotKey (h : Heap) (dg : Drawing) :
    slotKey (seedGroup h dg) = (dg.Mesh, dg.UseBlending) := rfl

theorem addInstance_slotKey (g : DrawInstanceGroup) (x : DrawInstance) :
    slotKey (g.AddInstance x) = slotKey g := rfl

theorem nodup_append_singleton {α : Type} {l : List α} {x : α} (hl : l.Nodup) (hx : x ∉ l) :
    (l ++ [x]).Nodup := by
  rw [List.nodup_append]
  refine ⟨hl, List.nodup_singleton x, ?_⟩
  intro a ha hb
  rw [List.mem_singleton.mp hb] at ha
  exact hx ha

theorem SlotsStep.drawOK {h : Heap} {dg : Drawing} {l l2 : List DrawInstanceGroup}
    (hs : SlotsStep h dg l l2) (hmi : ∀ g ∈ l, g.MaterialInstance = dg.Material)
    (hnd : (l.map slotKey).Nodup) :
    (∀ g ∈ l2, g.MaterialInstance = dg.Material) ∧ (l2.map slotKey).Nodup := by
  refine ⟨hs.forall_slots (Q := fun g => g.MaterialInstance = dg.Material)
    (fun g x hg => hg) rfl hmi, ?_⟩
  cases hs with
  | appended pre g post _ _ _ =>
    simpa [addInstance_slotKey] using hnd
  | replaced pre g post _ hg _ =>
    have hkey : slotKey (seedGroup h dg) = slotKey g := by
      obtain ⟨h1, h2⟩ := groupMatches_true hg
      simp [slotKey, seedGroup, DrawInstanceGroup.AddInstance, NewDrawInstanceGroup, h1, h2]
    simpa [hkey] using hnd
  | added _ hall =>
    rw [List.map_append, List.map_singleton, seedGroup_slotKey]
    apply nodup_append_singleton hnd
    intro hmem
    obtain ⟨a, ha, hka⟩ := List.mem_map.mp hmem
    have h1 := hall a ha
    rw [groupMatches_of_instance (hmi a ha)] at h1
    simp [hka] at h1

theorem DrawsStep.passOK {h : Heap} {dg : Drawing} {l l2 : List ShaderDraw}
    (hv : dg.Material ≠ none) (hs : DrawsStep h dg l l2)
    (hnd : (l.map (fun s => s.material)).Nodup)
    (hok : ∀ sd ∈ l, sd.material ≠ none ∧ DrawOK sd) :
    l2 ≠ [] ∧ (l2.map (fun s => s.material)).Nodup ∧
      ∀ sd ∈ l2, sd.material ≠ none ∧ DrawOK sd := by
  cases hs with
  | found pre sd post sd2 _ hsd hsd2 hslots =>
    refine ⟨by simp, ?_, ?_⟩
    · simpa [hsd, hsd2] using hnd
    · intro x hx
      rcases List.mem_append.mp hx with hx | hx
      · exact hok x (List.mem_append_left _ hx)
      · rcases List.mem_cons.mp hx with rfl | hx
        · have hsdok := (hok sd (by simp)).2
          refine ⟨by rw [hsd2]; exact hv, ?_⟩
          have := hslots.drawOK (fun g hg => (hsdok.1 g hg).trans hsd) hsdok.2
          exact ⟨fun g hg => (this.1 g hg).trans hsd2.symm, this.2⟩
        · exact hok x (by simp [hx])
  | created _ sd2 hall hsd2 hslots =>
    refine ⟨by simp, ?_, ?_⟩
    · rw [List.map_append, List.map_singleton]
      apply nodup_append_singleton hnd
      intro hmem
      obtain ⟨a, ha, hka⟩ := List.mem_map.mp hmem
      exact hall a ha (hka.trans hsd2)
    · intro x hx
      rcases List.mem_append.mp hx with hx | hx
      · exact hok x hx
      · rw [List.mem_singleton.mp hx]
        refine ⟨by rw [hsd2]; exact hv, ?_⟩
        have := hslots.drawOK (by simp) (by simp)
        exact ⟨fun g hg => (this.1 g hg).trans hsd2.symm, this.2⟩

theorem GroupsStep.treeOK {h : Heap} {dg : Drawing} {rp : Ptr} {l l2 : List RenderPassGroup}
    (hv : dg.Material ≠ none) (hs : GroupsStep h dg rp l l2) (hok : TreeOK l) : TreeOK l2 := by
  obtain ⟨hnd, hall⟩ := hok
  cases hs with
  | found pre g post g2 _ hg hg2 hdraws =>
    refine ⟨by simpa [hg, hg2] using hnd, ?_⟩
    intro x hx
    rcases List.mem_append.mp hx with hx | hx
    · exact hall x (List.mem_append_left _ hx)
    · rcases List.mem_cons.mp hx with rfl | hx
      · have hgok := hall g (by simp)
        exact hdraws.passOK hv hgok.2.1 hgok.2.2
      · exact hall x (by simp [hx])
  | created _ g2 hnone hg2 hdraws =>
    refine ⟨?_, ?_⟩
    · rw [List.map_append, List.map_singleton]
      apply nodup_append_singleton hnd
      intro hmem
      obtain ⟨a, ha, hka⟩ := List.mem_map.mp hmem
      exact hnone a ha (hka.trans hg2)
    · intro x hx
      rcases List.mem_append.mp hx with hx | hx
      · exact hall x hx
      · rw [List.mem_singleton.mp hx]
        exact hdraws.passOK hv (by simp) (by simp)

theorem prepareAll_treeOK {h : Heap} {buffer : List Drawing} {groups groups2 : List RenderPassGroup}
    (hp : prepareAll h groups buffer = some groups2) (hok : TreeOK groups) : TreeOK groups2 := by
  induction buffer generalizing groups with
  | nil =>
    simp only [prepareAll, Option.some.injEq] at hp
    subst hp
    exact hok
  | cons v rest ih =>
    cases h1 : prepareOne h groups v with
    | none => simp [prepareAll, h1] at hp
    | some groups1 =>
      simp only [prepareAll, h1] at hp
      obtain ⟨m, hm, hstep⟩ := prepareOne_step h1
      exact ih hp (hstep.treeOK (by simp [hm]) hok)

theorem updateAt_map_key {α β : Type} (key : α → β) (f : α → α) (hf : ∀ x, key (f x) = key x)
    (l : List α) (i : Nat) : (updateAt f l i).map key = l.map key := by
  induction l generalizing i with
  | nil => rfl
  | cons a l ih =>
    cases i with
    | zero => simp [updateAt, hf]
    | succ i => simp [updateAt, ih]

theorem mem_updateAt {α : Type} {f : α → α} {l : List α} {i : Nat} {x : α}
    (hx : x ∈ updateAt f l i) : x ∈ l ∨ ∃ y ∈ l, x = f y := by
  induction l generalizing i with
  | nil => simp [updateAt] at hx
  | cons a l ih =>
    cases i with
    | zero =>
      simp only [updateAt, List.mem_cons] at hx
      rcases hx with rfl | hx
      · exact Or.inr ⟨a, List.mem_cons_self a l, rfl⟩
      · exact Or.inl (List.mem_cons_of_mem a hx)
    | succ i =>
      simp only [updateAt, List.mem_cons] at hx
      rcases hx with rfl | hx
      · exact Or.inl (List.mem_cons_self _ l)
      · rcases ih hx with hm | ⟨y, hy, rfl⟩
        · exact Or.inl (List.mem_cons_of_mem a hm)
        · exact Or.inr ⟨y, List.mem_cons_of_mem a hy, rfl⟩

theorem updateAt_ne_nil {α : Type} {f : α → α} {l : List α} (i : Nat) (hl : l ≠ []) :
    updateAt f l i ≠ [] := by
  cases l with
  | nil => exact absurd rfl hl
  | cons a l => cases i <;> simp [updateAt]

theorem forall_updateAt {α : Type} {f : α → α} {Q : α → Prop} {l : List α} (i : Nat)
    (hf : ∀ x, Q x → Q (f x)) (hl : ∀ x ∈ l, Q x) : ∀ x ∈ updateAt f l i, Q x := by
  intro x hx
  rcases mem_updateAt hx with hm | ⟨y, hy, rfl⟩
  · exact hl x hm
  · exact hf y (hl y hy)

theorem markDestroyed_treeOK {d : Drawings} (i j k : Nat) (hok : TreeOK d.renderPassGroups) :
    TreeOK (d.markDestroyed i j k).renderPassGroups := by
  obtain ⟨hnd, hall⟩ := hok
  unfold Drawings.markDestroyed
  refine ⟨?_, ?_⟩
  · simp only
    rw [updateAt_map_key (fun g : RenderPassGroup => g.renderPass)]
    · exact hnd
    · intro x
      rfl
  · simp only
    apply forall_updateAt i _ hall
    intro rpg ⟨hne, hnd2, hds⟩
    refine ⟨updateAt_ne_nil j hne, ?_, ?_⟩
    · simp only
      rw [updateAt_map_key (fun s : ShaderDraw => s.material)]
      · exact hnd2
      · intro x
        rfl
    · simp only
      apply forall_updateAt j _ hds
      intro sd ⟨hmat, hmi, hkeys⟩
      refine ⟨hmat, ?_, ?_⟩
      · simp only
        apply forall_updateAt k _ hmi
        intro g hg
        exact hg
      · simp only
        rw [updateAt_map_key slotKey]
        · exact hkeys
        · intro x
          rfl

theorem reachable_treeOK {d : Drawings} (hr : Reachable d) : TreeOK d.renderPassGroups := by
  induction hr with
  | init => exact ⟨List.nodup_nil, by simp [NewDrawings]⟩
  | addDrawing v _ hadd ih =>
    cases v with
    | none => simp [Drawings.AddDrawing] at hadd
    | some x =>
      simp only [Drawings.AddDrawing, Option.some.injEq] at hadd
      subst hadd
      exact ih
  | addDrawings vs _ ih => exact ih
  | preparePending h _ hp ih => exact prepareAll_treeOK (PreparePending_groups hp) ih
  | render _ ih => exact ih
  | destroy renderer _ _ => exact ⟨List.nodup_nil, by simp [Drawings.Destroy]⟩
  | markDestroyed i j k _ ih => exact markDestroyed_treeOK i j k ih

theorem treeOK_live {groups : List RenderPassGroup} (hok : TreeOK groups) :
    LiveInstances groups := by
  intro rpg hrpg sd hsd g hg
  obtain ⟨hmat, hmi, _⟩ := (hok.2 rpg hrpg).2.2 sd hsd
  rw [hmi g hg]
  exact hmat

theorem reachable_tree0 : Reachable tree0 :=
  Reachable.preparePending heap0 (Reachable.addDrawings threeDrawings Reachable.init) (by decide)

theorem reachable_tree0_marked : Reachable (tree0.markDestroyed 0 0 0) :=
  Reachable.markDestroyed 0 0 0 reachable_tree0

/-! ## Every buffered drawing ends up in the tree -/

theorem exists_mem_replace {α : Type} {Q : α → Prop} {pre post : List α} {x y : α}
    (hxy : Q x → Q y) (hq : ∃ a ∈ pre ++ x :: post, Q a) : ∃ a ∈ pre ++ y :: post, Q a := by
  obtain ⟨a, ha, hqa⟩ := hq
  rcases List.mem_append.mp ha with ha | ha
  · exact ⟨a, List.mem_append_left _ ha, hqa⟩
  · rcases List.mem_cons.mp ha with rfl | ha
    · exact ⟨y, by simp, hxy hqa⟩
    · exact ⟨a, by simp [ha], hqa⟩

theorem SlotsStep.keeps_slot {h : Heap} {dg x : Drawing} {l l2 : List DrawInstanceGroup}
    (hs : SlotsStep h dg l l2) (hq : ∃ g ∈ l, Holds x g) : ∃ g ∈ l2, Holds x g := by
  cases hs with
  | appended pre g post _ _ _ =>
    refine exists_mem_replace ?_ hq
    intro ⟨h1, h2, h3, h4⟩
    exact ⟨h1, h2, h3, by simp [DrawInstanceGroup.AddInstance, h4]⟩
  | replaced pre g post _ _ hd =>
    refine exists_mem_replace ?_ hq
    intro ⟨h1, _⟩
    rw [hd] at h1
    exact absurd h1 (by decide)
  | added _ _ =>
    obtain ⟨g, hg, hqg⟩ := hq
    exact ⟨g, List.mem_append_left _ hg, hqg⟩

theorem SlotsStep.places_slot {h : Heap} {dg : Drawing} {l l2 : List DrawInstanceGroup}
    (hs : SlotsStep h dg l l2) : ∃ g ∈ l2, Holds dg g := by
  have hseed : Holds dg (seedGroup h dg) :=
    ⟨rfl, rfl, rfl, by simp [seedGroup, DrawInstanceGroup.AddInstance, NewDrawInstanceGroup]⟩
  cases hs with
  | appended pre g post _ hg hd =>
    obtain ⟨h1, h2⟩ := groupMatches_true hg
    exact ⟨g.AddInstance dg.ShaderData, by simp,
      hd, h1, h2, by simp [DrawInstanceGroup.AddInstance]⟩
  | replaced pre g post _ _ _ => exact ⟨seedGroup h dg, by simp, hseed⟩
  | added _ _ => exact ⟨seedGroup h dg, by simp, hseed⟩

theorem DrawsStep.keeps_draw {h : Heap} {dg x : Drawing} {l l2 : List ShaderDraw}
    (hs : DrawsStep h dg l l2)
    (hq : ∃ sd ∈ l, sd.material = x.Material ∧ ∃ g ∈ sd.instanceGroups, Holds x g) :
    ∃ sd ∈ l2, sd.material = x.Material ∧ ∃ g ∈ sd.instanceGroups, Holds x g := by
  cases hs with
  | found pre sd post sd2 _ hsd hsd2 hslots =>
    refine exists_mem_replace ?_ hq
    intro ⟨h1, h2⟩
    exact ⟨(hsd2.trans hsd.symm).trans h1, hslots.keeps_slot h2⟩
  | created _ sd2 _ _ _ =>
    obtain ⟨sd, hsd, hqsd⟩ := hq
    exact ⟨sd, List.mem_append_left _ hsd, hqsd⟩

theorem DrawsStep.places_draw {h : Heap} {dg : Drawing} {l l2 : List ShaderDraw}
    (hs : DrawsStep h dg l l2) :
    ∃ sd ∈ l2, sd.material = dg.Material ∧ ∃ g ∈ sd.instanceGroups, Holds dg g := by
  cases hs with
  | found pre sd post sd2 _ _ hsd2 hslots => exact ⟨sd2, by simp, hsd2, hslots.places_slot⟩
  | created _ sd2 _ hsd2 hslots => exact ⟨sd2, by simp, hsd2, hslots.places_slot⟩

theorem GroupsStep.keeps_batched {h : Heap} {dg x : Drawing} {rp : Ptr} {l l2 : List RenderPassGroup}
    (hs : GroupsStep h dg rp l l2) (hq : Batched h x l) : Batched h x l2 := by
  unfold Batched at hq ⊢
  cases hs with
  | found pre g post g2 _ hg hg2 hdraws =>
    refine exists_mem_replace ?_ hq
    intro ⟨h1, h2⟩
    exact ⟨(hg2.trans hg.symm).trans h1, hdraws.keeps_draw h2⟩
  | created _ g2 _ _ _ =>
    obtain ⟨g, hg, hqg⟩ := hq
    exact ⟨g, List.mem_append_left _ hg, hqg⟩

theorem GroupsStep.places_batched {h : Heap} {dg : Drawing} {rp : Ptr} {l l2 : List RenderPassGroup}
    (hrp : rp = dg.renderPass h) (hs : GroupsStep h dg rp l l2) : Batched h dg l2 := by
  unfold Batched
  cases hs with
  | found pre g post g2 _ _ hg2 hdraws => exact ⟨g2, by simp, hg2.trans hrp, hdraws.places_draw⟩
  | created _ g2 _ hg2 hdraws => exact ⟨g2, by simp, hg2.trans hrp, hdraws.places_draw⟩

theorem prepareOne_places {h : Heap} {groups groups2 : List RenderPassGroup} {dg : Drawing}
    (hp : prepareOne h groups dg = some groups2) : Batched h dg groups2 := by
  obtain ⟨m, hm, hstep⟩ := prepareOne_step hp
  exact hstep.places_batched (by simp [Drawing.renderPass, hm])

theorem prepareOne_keeps {h : Heap} {groups groups2 : List RenderPassGroup} {dg x : Drawing}
    (hp : prepareOne h groups dg = some groups2) (hq : Batched h x groups) :
    Batched h x groups2 := by
  obtain ⟨m, _, hstep⟩ := prepareOne_step hp
  exact hstep.keeps_batched hq

theorem prepareAll_keeps {h : Heap} {buffer : List Drawing} {groups groups2 : List RenderPassGroup}
    {x : Drawing} (hp : prepareAll h groups buffer = some groups2) (hq : Batched h x groups) :
    Batched h x groups2 := by
  induction buffer generalizing groups with
  | nil =>
    simp only [prepareAll, Option.some.injEq] at hp
    subst hp
    exact hq
  | cons v rest ih =>
    cases h1 : prepareOne h groups v with
    | none => simp [prepareAll, h1] at hp
    | some groups1 =>
      simp only [prepareAll, h1] at hp
      exact ih hp (prepareOne_keeps h1 hq)

theorem prepareAll_places {h : Heap} {buffer : List Drawing} {groups groups2 : List RenderPassGroup}
    (hp : prepareAll h groups buffer = some groups2) : ∀ x ∈ buffer, Batched h x groups2 := by
  induction buffer generalizing groups with
  | nil => simp
  | cons v rest ih =>
    cases h1 : prepareOne h groups v with
    | none => simp [prepareAll, h1] at hp
    | some groups1 =>
      simp only [prepareAll, h1] at hp
      intro x hx
      rcases List.mem_cons.mp hx with rfl | hx
      · exact prepareAll_keeps hp (prepareOne_places h1)
      · exact ih hp x hx

theorem mem_render_of_draws {d : Drawings} {rpg : RenderPassGroup}
    (hmem : rpg ∈ d.renderPassGroups) (hne : rpg.draws ≠ []) :
    RendererCall.Draw rpg.renderPass rpg.draws ∈ d.Render := by
  unfold Drawings.Render
  have hlen : ¬ d.renderPassGroups.length = 0 := by
    have := List.length_pos_of_mem hmem
    omega
  rw [if_neg hlen, renderLoop_eq]
  have hin : RendererCall.Draw rpg.renderPass rpg.draws ∈
      (d.renderPassGroups.filter (fun g => decide (g.draws ≠ []))).map
        (fun g => RendererCall.Draw g.renderPass g.draws) :=
    List.mem_map.mpr ⟨rpg, List.mem_filter.mpr ⟨hmem, by simpa using hne⟩, rfl⟩
  simp only [List.nil_append]
  split
  · exact List.mem_append_left _ hin
  · exact hin

/-! ## Computing one iteration from the position of the keys -/

theorem getElem?_decompose {α : Type} {l : List α} {i : Nat} {x : α} (hx : l[i]? = some x) :
    ∃ pre post, l = pre ++ x :: post ∧ pre.length = i := by
  induction l generalizing i with
  | nil => simp at hx
  | cons a l ih =>
    cases i with
    | zero =>
      simp only [List.getElem?_cons_zero, Option.some.injEq] at hx
      subst hx
      exact ⟨[], l, rfl, rfl⟩
    | succ i =>
      simp only [List.getElem?_cons_succ] at hx
      obtain ⟨pre, post, rfl, hlen⟩ := ih hx
      exact ⟨a :: pre, post, rfl, by simp [hlen]⟩

theorem nodup_map_others {α β : Type} {key : α → β} {pre post : List α} {x : α}
    (hnd : ((pre ++ x :: post).map key).Nodup) : ∀ a ∈ pre ++ post, key a ≠ key x := by
  rw [List.map_append, List.map_cons, List.nodup_middle, List.nodup_cons] at hnd
  intro a ha hka
  apply hnd.1
  rw [← hka, ← List.map_append]
  exact List.mem_map_of_mem key ha

theorem matchGroupFrom_first {h : Heap} {dg : Drawing} (pre : List DrawInstanceGroup)
    (g : DrawInstanceGroup) (post : List DrawInstanceGroup) (i : Nat)
    (hpre : ∀ a ∈ pre, groupMatches h a dg = some false) (hg : groupMatches h g dg = some true) :
    matchGroupFrom h dg (pre ++ g :: post) i = some ((i + pre.length : Nat) : Int) := by
  induction pre generalizing i with
  | nil => simp [matchGroupFrom, hg]
  | cons a pre ih =>
    have ha := hpre a (List.mem_cons_self a pre)
    have hrest := ih (i + 1) (fun b hb => hpre b (List.mem_cons_of_mem a hb))
    have hadd : i + 1 + pre.length = i + (pre.length + 1) := by omega
    rw [hadd] at hrest
    rw [List.cons_append, List.length_cons]
    unfold matchGroupFrom
    rw [ha]
    exact hrest

theorem placeInstance_found {h : Heap} {sd : ShaderDraw} {dg : Drawing}
    (pre : List DrawInstanceGroup) (g : DrawInstanceGroup) (post : List DrawInstanceGroup)
    (hdec : sd.instanceGroups = pre ++ g :: post)
    (hpre : ∀ a ∈ pre, groupMatches h a dg = some false) (hg : groupMatches h g dg = some true) :
    placeInstance h sd dg =
      some { material := sd.material,
             instanceGroups := pre ++
              (if g.destroyed then seedGroup h dg else g.AddInstance dg.ShaderData) :: post } := by
  unfold placeInstance matchGroup
  rw [hdec, matchGroupFrom_first pre g post 0 hpre hg]
  have hnn : (0 : Int) ≤ ((0 + pre.length : Nat) : Int) := Int.ofNat_nonneg _
  have htn : ((0 + pre.length : Nat) : Int).toNat = pre.length := by simp
  simp only [hnn, if_true, htn, getElem?_append_cons_length, set_append_cons_length]
  cases g.destroyed <;> simp

theorem placeInGroup_found {h : Heap} {rpg : RenderPassGroup} {dg : Drawing}
    (pre : List ShaderDraw) (sd : ShaderDraw) (post : List ShaderDraw)
    (hdec : rpg.draws = pre ++ sd :: post)
    (hpre : ∀ a ∈ pre, a.material ≠ dg.Material) (hsd : sd.material = dg.Material) :
    placeInGroup h rpg dg =
      (placeInstance h sd dg).map
        (fun sd2 => { renderPass := rpg.renderPass, draws := pre ++ sd2 :: post }) := by
  unfold placeInGroup RenderPassGroup.findShaderDraw
  rw [hdec, firstIndex_append_of_forall pre sd post (fun a ha => by simpa using hpre a ha)
    (by simpa using hsd)]
  simp only [getElem?_append_cons_length, set_append_cons_length]
  cases placeInstance h sd dg <;> rfl

theorem prepareOne_found {h : Heap} {groups : List RenderPassGroup} {dg : Drawing} {m : Nat}
    (pre : List RenderPassGroup) (rpg : RenderPassGroup) (post : List RenderPassGroup)
    (hmat : dg.Material = some m) (hdec : groups = pre ++ rpg :: post)
    (hpre : ∀ a ∈ pre, a.renderPass ≠ (h.material m).renderPass)
    (hrpg : rpg.renderPass = (h.material m).renderPass) :
    prepareOne h groups dg = (placeInGroup h rpg dg).map (fun g2 => pre ++ g2 :: post) := by
  unfold prepareOne findRenderPassGroup
  rw [hmat]
  simp only
  rw [hdec, firstIndex_append_of_forall pre rpg post (fun a ha => by simpa using hpre a ha)
    (by simpa using hrpg)]
  simp only [getElem?_append_cons_length, set_append_cons_length]
  cases placeInGroup h rpg dg <;> rfl

/-! ## Drawings of a single material -/

theorem filter_append_singleton_of_ne {g : DrawInstanceGroup} {dg : Drawing} (done : List Drawing)
    (hne : slotKey g ≠ drawKey dg) :
    (done ++ [dg]).filter (fun v => decide (drawKey v = slotKey g)) =
      done.filter (fun v => decide (drawKey v = slotKey g)) := by
  have hne2 : ¬ drawKey dg = slotKey g := fun hx => hne hx.symm
  simp [List.filter_append, List.filter_cons, hne2]

theorem filter_append_singleton_of_eq {g : DrawInstanceGroup} {dg : Drawing} (done : List Drawing)
    (heq : slotKey g = drawKey dg) :
    (done ++ [dg]).filter (fun v => decide (drawKey v = slotKey g)) =
      done.filter (fun v => decide (drawKey v = slotKey g)) ++ [dg] := by
  simp [List.filter_append, List.filter_cons, heq]

theorem slotInv_other {x : Nat} {done : List Drawing} {dg : Drawing} {a : DrawInstanceGroup}
    (hne : slotKey a ≠ drawKey dg)
    (ha : a.MaterialInstance = some x ∧ a.destroyed = false ∧
      (∃ v ∈ done, slotKey a = drawKey v) ∧
      a.Instances =
        (done.filter (fun v => decide (drawKey v = slotKey a))).map (fun v => v.ShaderData)) :
    a.MaterialInstance = some x ∧ a.destroyed = false ∧
      (∃ v ∈ done ++ [dg], slotKey a = drawKey v) ∧
      a.Instances =
        ((done ++ [dg]).filter (fun v => decide (drawKey v = slotKey a))).map
          (fun v => v.ShaderData) := by
  obtain ⟨h1, h2, ⟨v, hv, hkv⟩, h4⟩ := ha
  refine ⟨h1, h2, ⟨v, List.mem_append_left _ hv, hkv⟩, ?_⟩
  rw [filter_append_singleton_of_ne done hne]
  exact h4

theorem SlotsStep.slotInv {h : Heap} {dg : Drawing} {x : Nat} {done : List Drawing}
    {l l2 : List DrawInstanceGroup} (hmat : dg.Material = some x) (hs : SlotsStep h dg l l2)
    (hinv : SlotInv x done l) : SlotInv x (done ++ [dg]) l2 := by
  obtain ⟨hnd, hcov, hall⟩ := hinv
  cases hs with
  | appended pre g post _ hg hd =>
    have hkey : slotKey g = drawKey dg := by
      obtain ⟨h1, h2⟩ := groupMatches_true hg
      simp [slotKey, drawKey, h1, h2]
    refine ⟨by simpa [addInstance_slotKey] using hnd, ?_, ?_⟩
    · intro v hv
      rcases List.mem_append.mp hv with hv | hv
      · exact exists_mem_replace (Q := fun a => slotKey a = drawKey v) (x := g)
          (y := g.AddInstance dg.ShaderData) (fun hq => hq) (hcov v hv)
      · rw [List.mem_singleton.mp hv]
        exact ⟨g.AddInstance dg.ShaderData, by simp, hkey⟩
    · intro a ha
      rcases List.mem_append.mp ha with ha | ha
      · have hne := nodup_map_others hnd a (List.mem_append_left _ ha)
        rw [hkey] at hne
        exact slotInv_other hne (hall a (List.mem_append_left _ ha))
      · rcases List.mem_cons.mp ha with rfl | ha
        · obtain ⟨h1, h2, _, h4⟩ := hall g (by simp)
          refine ⟨h1, h2, ⟨dg, by simp, hkey⟩, ?_⟩
          rw [addInstance_slotKey, filter_append_singleton_of_eq done hkey]
          simp [DrawInstanceGroup.AddInstance, h4]
        · have hne := nodup_map_others hnd a (List.mem_append_right _ ha)
          rw [hkey] at hne
          exact slotInv_other hne (hall a (by simp [ha]))
  | replaced pre g post _ _ hd =>
    have := (hall g (by simp)).2.1
    rw [hd] at this
    exact absurd this (by decide)
  | added _ hnone =>
    have hne : ∀ a ∈ l, slotKey a ≠ drawKey dg := by
      intro a ha hka
      have h1 := hnone a ha
      rw [groupMatches_of_instance (((hall a ha).1).trans hmat.symm)] at h1
      have hka2 : slotKey a = (dg.Mesh, dg.UseBlending) := hka
      simp [hka2] at h1
    refine ⟨?_, ?_, ?_⟩
    · rw [List.map_append, List.map_singleton, seedGroup_slotKey]
      apply nodup_append_singleton hnd
      intro hmem
      obtain ⟨a, ha, hka⟩ := List.mem_map.mp hmem
      exact hne a ha hka
    · intro v hv
      rcases List.mem_append.mp hv with hv | hv
      · obtain ⟨g, hg, hkg⟩ := hcov v hv
        exact ⟨g, List.mem_append_left _ hg, hkg⟩
      · rw [List.mem_singleton.mp hv]
        exact ⟨seedGroup h dg, by simp, rfl⟩
    · intro a ha
      rcases List.mem_append.mp ha with ha | ha
      · exact slotInv_other (hne a ha) (hall a ha)
      · rw [List.mem_singleton.mp ha]
        refine ⟨hmat, rfl, ⟨dg, by simp, rfl⟩, ?_⟩
        have hkey : slotKey (seedGroup h dg) = drawKey dg := rfl
        rw [filter_append_singleton_of_eq done hkey]
        have hnil : done.filter (fun v => decide (drawKey v = slotKey (seedGroup h dg))) = [] := by
          rw [List.filter_eq_nil_iff]
          intro u hu hku
          obtain ⟨g, hg, hkg⟩ := hcov u hu
          have hku2 : drawKey u = drawKey dg := by simpa [hkey] using hku
          exact hne g hg (hkg.trans hku2)
        rw [hnil]
        rfl

theorem slotInv_seed (h : Heap) {v : Drawing} {x : Nat} (hmat : v.Material = some x) :
    SlotInv x [v] [seedGroup h v] := by
  have hkey : slotKey (seedGroup h v) = drawKey v := rfl
  refine ⟨by simp, ?_, ?_⟩
  · intro u hu
    rw [List.mem_singleton.mp hu]
    exact ⟨seedGroup h v, by simp, hkey⟩
  · intro g hg
    rw [List.mem_singleton.mp hg]
    refine ⟨hmat, rfl, ⟨v, by simp, hkey⟩, ?_⟩
    simp [hkey]
    rfl

theorem prepareOne_empty (h : Heap) {v : Drawing} {x : Nat} (hmat : v.Material = some x) :
    prepareOne h [] v =
      some [{ renderPass := (h.material x).renderPass,
              draws := [{ material := some x, instanceGroups := [seedGroup h v] }] }] := by
  unfold prepareOne
  rw [hmat]
  simp [findRenderPassGroup, firstIndex, placeInGroup, RenderPassGroup.findShaderDraw,
    placeInstance, matchGroup, matchGroupFrom, NewShaderDraw, ShaderDraw.AddInstanceGroup, hmat]

theorem prepareAll_single {h : Heap} {x : Nat} (rest : List Drawing) :
    ∀ (done : List Drawing) (sd : ShaderDraw), sd.material = some x →
      SlotInv x done sd.instanceGroups → (∀ v ∈ rest, v.Material = some x) →
      ∃ sd2, prepareAll h [{ renderPass := (h.material x).renderPass, draws := [sd] }] rest =
          some [{ renderPass := (h.material x).renderPass, draws := [sd2] }] ∧
        sd2.material = some x ∧ SlotInv x (done ++ rest) sd2.instanceGroups := by
  induction rest with
  | nil =>
    intro done sd hsd hinv _
    exact ⟨sd, rfl, hsd, by simpa using hinv⟩
  | cons v rest ih =>
    intro done sd hsd hinv hmat
    have hv : v.Material = some x := hmat v (List.mem_cons_self v rest)
    obtain ⟨sd1, hsd1⟩ := placeInstance_total (h := h) sd v
      (fun g hg => by rw [(hinv.2.2 g hg).1]; simp)
    obtain ⟨hmat1, hstep⟩ := placeInstance_step hsd1
    have hgroup : placeInGroup h { renderPass := (h.material x).renderPass, draws := [sd] } v =
        (placeInstance h sd v).map
          (fun s2 => { renderPass := (h.material x).renderPass, draws := [] ++ s2 :: [] }) :=
      placeInGroup_found [] sd [] rfl (by simp) (hsd.trans hv.symm)
    rw [hsd1, Option.map_some'] at hgroup
    have hone : prepareOne h [{ renderPass := (h.material x).renderPass, draws := [sd] }] v =
        some [{ renderPass := (h.material x).renderPass, draws := [sd1] }] := by
      have h1 := prepareOne_found (h := h) []
        ({ renderPass := (h.material x).renderPass, draws := [sd] } : RenderPassGroup) [] hv rfl
        (by simp) rfl
      rw [hgroup, Option.map_some'] at h1
      exact h1
    obtain ⟨sd2, hall2, hmat2, hinv2⟩ := ih (done ++ [v]) sd1 (hmat1.trans hsd)
      (hstep.slotInv hv hinv) (fun u hu => hmat u (List.mem_cons_of_mem v hu))
    refine ⟨sd2, ?_, hmat2, by simpa using hinv2⟩
    simp only [prepareAll, hone]
    exact hall2

/-! ## Groups stay in place across a drain -/

theorem keepsInPlace_refl {α : Type} {R : α → α → Prop} (hR : ∀ a, R a a) (l : List α) :
    KeepsInPlace R l l :=
  fun _ a ha => ⟨a, ha, hR a⟩

theorem keepsInPlace_trans {α : Type} {R : α → α → Prop} (hR : ∀ a b c, R a b → R b c → R a c)
    {l l2 l3 : List α} (h12 : KeepsInPlace R l l2) (h23 : KeepsInPlace R l2 l3) :
    KeepsInPlace R l l3 := by
  intro i a ha
  obtain ⟨b, hb, hab⟩ := h12 i a ha
  obtain ⟨c, hc, hbc⟩ := h23 i b hb
  exact ⟨c, hc, hR a b c hab hbc⟩

theorem keepsInPlace_append {α : Type} {R : α → α → Prop} (hR : ∀ a, R a a) (l more : List α) :
    KeepsInPlace R l (l ++ more) := by
  intro i a ha
  have hlt : i < l.length := by
    by_contra hge
    rw [List.getElem?_eq_none (by omega)] at ha
    exact absurd ha (by simp)
  exact ⟨a, by rw [List.getElem?_append_left hlt]; exact ha, hR a⟩

theorem keepsInPlace_replace {α : Type} {R : α → α → Prop} (hR : ∀ a, R a a)
    (pre : List α) {x y : α} (post : List α) (hxy : R x y) :
    KeepsInPlace R (pre ++ x :: post) (pre ++ y :: post) := by
  induction pre with
  | nil =>
    intro i a ha
    cases i with
    | zero =>
      simp only [List.nil_append, List.getElem?_cons_zero, Option.some.injEq] at ha
      subst ha
      exact ⟨y, by simp, hxy⟩
    | succ i =>
      simp only [List.nil_append, List.getElem?_cons_succ] at ha
      exact ⟨a, by simpa using ha, hR a⟩
  | cons p pre ih =>
    intro i a ha
    cases i with
    | zero =>
      simp only [List.cons_append, List.getElem?_cons_zero, Option.some.injEq] at ha
      subst ha
      exact ⟨p, by simp, hR p⟩
    | succ i =>
      simp only [List.cons_append, List.getElem?_cons_succ] at ha
      obtain ⟨b, hb, hab⟩ := ih i a ha
      exact ⟨b, by simpa using hb, hab⟩

theorem keepsInPlace_map_leading {α β : Type} (key : α → β) {l l2 : List α}
    (hk : KeepsInPlace (fun a b => key b = key a) l l2) : l.map key <+: l2.map key := by
  induction l generalizing l2 with
  | nil => simp
  | cons a l ih =>
    obtain ⟨b, hb, hab⟩ := hk 0 a (by simp)
    cases l2 with
    | nil => simp at hb
    | cons c l2 =>
      simp only [List.getElem?_cons_zero, Option.some.injEq] at hb
      subst hb
      rw [List.map_cons, List.map_cons, hab, List.prefix_cons_inj]
      apply ih
      intro i x hx
      obtain ⟨y, hy, hxy⟩ := hk (i + 1) x (by simpa using hx)
      exact ⟨y, by simpa using hy, hxy⟩

theorem keepsInPlace_mono {α : Type} {R S : α → α → Prop} (hRS : ∀ a b, R a b → S a b)
    {l l2 : List α} (hk : KeepsInPlace R l l2) : KeepsInPlace S l l2 := by
  intro i a ha
  obtain ⟨b, hb, hab⟩ := hk i a ha
  exact ⟨b, hb, hRS a b hab⟩

theorem drawKeeps_refl (sd : ShaderDraw) : DrawKeeps sd sd := ⟨rfl, le_refl _⟩

theorem drawKeeps_trans (a b c : ShaderDraw) (hab : DrawKeeps a b) (hbc : DrawKeeps b c) :
    DrawKeeps a c :=
  ⟨hbc.1.trans hab.1, le_trans hab.2 hbc.2⟩

theorem passKeeps_refl (g : RenderPassGroup) : PassKeeps g g :=
  ⟨rfl, keepsInPlace_refl drawKeeps_refl g.draws⟩

theorem passKeeps_trans (a b c : RenderPassGroup) (hab : PassKeeps a b) (hbc : PassKeeps b c) :
    PassKeeps a c :=
  ⟨hbc.1.trans hab.1, keepsInPlace_trans drawKeeps_trans hab.2 hbc.2⟩

theorem SlotsStep.length_le {h : Heap} {dg : Drawing} {l l2 : List DrawInstanceGroup}
    (hs : SlotsStep h dg l l2) : l.length ≤ l2.length := by
  cases hs <;> simp

theorem DrawsStep.keepsInPlace {h : Heap} {dg : Drawing} {l l2 : List ShaderDraw}
    (hs : DrawsStep h dg l l2) : KeepsInPlace DrawKeeps l l2 := by
  cases hs with
  | found pre sd post sd2 _ hsd hsd2 hslots =>
    exact keepsInPlace_replace drawKeeps_refl pre post ⟨hsd2.trans hsd.symm, hslots.length_le⟩
  | created _ sd2 _ _ _ => exact keepsInPlace_append drawKeeps_refl _ _

theorem GroupsStep.passesKeepInPlace {h : Heap} {dg : Drawing} {rp : Ptr}
    {l l2 : List RenderPassGroup} (hs : GroupsStep h dg rp l l2) :
    KeepsInPlace PassKeeps l l2 := by
  cases hs with
  | found pre g post g2 _ hg hg2 hdraws =>
    exact keepsInPlace_replace passKeeps_refl pre post ⟨hg2.trans hg.symm, hdraws.keepsInPlace⟩
  | created _ g2 _ _ _ => exact keepsInPlace_append passKeeps_refl _ _

theorem prepareAll_keepsInPlace {h : Heap} {buffer : List Drawing}
    {groups groups2 : List RenderPassGroup}
    (hp : prepareAll h groups buffer = some groups2) : KeepsInPlace PassKeeps groups groups2 := by
  induction buffer generalizing groups with
  | nil =>
    simp only [prepareAll, Option.some.injEq] at hp
    subst hp
    exact keepsInPlace_refl passKeeps_refl groups
  | cons v rest ih =>
    cases h1 : prepareOne h groups v with
    | none => simp [prepareAll, h1] at hp
    | some groups1 =>
      simp only [prepareAll, h1] at hp
      obtain ⟨m, _, hstep⟩ := prepareOne_step h1
      exact keepsInPlace_trans passKeeps_trans hstep.passesKeepInPlace (ih hp)

/-! ## `Destroy`, `texturesMatch` and what `matchGroup` compares -/

theorem destroyDraws_eq (renderer : Ptr) (l : List ShaderDraw) (calls : List RendererCall) :
    destroyDraws renderer l calls = calls ++ l.map (RendererCall.DestroyDraw renderer) := by
  induction l generalizing calls with
  | nil => simp [destroyDraws]
  | cons s rest ih => simp [destroyDraws, ih]

theorem destroyGroups_eq (renderer : Ptr) (l : List RenderPassGroup)
    (calls : List RendererCall) :
    destroyGroups renderer l calls =
      calls ++ (l.flatMap (fun g => g.draws)).map (RendererCall.DestroyDraw renderer) := by
  induction l generalizing calls with
  | nil => simp [destroyGroups]
  | cons g rest ih => simp [destroyGroups, ih, destroyDraws_eq]

theorem texturesMatchLoop_iff (b a : List Ptr) :
    texturesMatchLoop b a = true ↔ ∀ t ∈ a, t ∈ b := by
  induction a with
  | nil => simp [texturesMatchLoop]
  | cons ta rest ih =>
    by_cases hc : ta ∈ b
    · simp [texturesMatchLoop, hc, ih]
    · simp [texturesMatchLoop, hc]

theorem texturesMatch_iff (a b : List Ptr) :
    texturesMatch a b = true ↔ a.length = b.length ∧ ∀ t ∈ a, t ∈ b := by
  unfold texturesMatch
  by_cases hlen : a.length = b.length
  · simp [hlen, texturesMatchLoop_iff]
  · simp [hlen]

theorem texturesMatch_nodup_iff {a b : List Ptr} (ha : a.Nodup) (hb : b.Nodup) :
    texturesMatch a b = true ↔ ∀ t, t ∈ a ↔ t ∈ b := by
  rw [texturesMatch_iff]
  constructor
  · intro ⟨hlen, hsub⟩
    have hperm : a.Perm b :=
      (List.subperm_of_subset ha hsub).perm_of_length_le (le_of_eq hlen.symm)
    exact fun t => hperm.mem_iff
  · intro hset
    have hperm : a.Perm b := (List.perm_ext_iff_of_nodup ha hb).mpr hset
    exact ⟨hperm.length_eq, fun t ht => (hset t).mp ht⟩

theorem groupMatches_material {h : Heap} {g : DrawInstanceGroup} {dg : Drawing}
    (hm : groupMatches h g dg = some true) :
    g.MaterialInstance = dg.Material ∨
      ∃ m, g.MaterialInstance = some m ∧ (h.material m).Root = dg.Material := by
  unfold groupMatches at hm
  by_cases hmesh : g.Mesh = dg.Mesh
  · rw [if_pos hmesh] at hm
    by_cases hmi : g.MaterialInstance = dg.Material
    · exact Or.inl hmi
    · rw [if_neg hmi] at hm
      cases hx : g.MaterialInstance with
      | none => simp [hx] at hm
      | some m =>
        simp only [hx] at hm
        by_cases hroot : (h.material m).Root = dg.Material
        · exact Or.inr ⟨m, rfl, hroot⟩
        · rw [if_neg hroot] at hm
          simp at hm
  · rw [if_neg hmesh] at hm
    simp at hm

theorem matchGroup_selected {h : Heap} {sd : ShaderDraw} {dg : Drawing} {idx : Int}
    {g : DrawInstanceGroup} (hm : matchGroup h sd dg = some idx) (hnn : 0 ≤ idx)
    (hg : sd.instanceGroups[idx.toNat]? = some g) :
    g ∈ sd.instanceGroups ∧ groupMatches h g dg = some true := by
  unfold matchGroup at hm
  rcases matchGroupFrom_cases hm with ⟨hneg, _⟩ | ⟨pre, g2, post, hdec, hval, hg2, _⟩
  · omega
  · have htn : idx.toNat = pre.length := by rw [hval]; simp
    rw [htn, hdec, getElem?_append_cons_length, Option.some.injEq] at hg
    subst hg
    exact ⟨by rw [hdec]; simp, hg2⟩

/-! ## The material cache -/

theorem mapGet_mapSet_self (key : String) (v : Ptr) (l : List (String × Ptr)) :
    mapGet key (mapSet key v l) = some v := by
  induction l with
  | nil => simp [mapSet, mapGet]
  | cons kv rest ih =>
    obtain ⟨k, w⟩ := kv
    by_cases hk : k = key
    · simp [mapSet, mapGet, hk]
    · simp [mapSet, mapGet, hk, ih]

theorem material_of_compile_failure (c : MaterialCache) (compile : Compiler) (md : MaterialData)
    (hmiss : mapGet md.Name c.materials = none)
    (hfail : (compile { data := md, assetDatabase := c.assetDatabase,
                        renderer := c.renderer }).2 ≠ none) :
    c.Material compile md =
      { cache := c, material := none, err := none,
        compiled := [{ data := md, assetDatabase := c.assetDatabase,
                       renderer := c.renderer }] } := by
  unfold MaterialCache.Material
  rw [hmiss]
  simp only [hfail, ne_eq, not_false_eq_true, if_true]

theorem material_of_compile_success (c : MaterialCache) (compile : Compiler) (md : MaterialData)
    (hmiss : mapGet md.Name c.materials = none)
    (hok : (compile { data := md, assetDatabase := c.assetDatabase,
                      renderer := c.renderer }).2 = none) :
    c.Material compile md =
      { cache :=
          { renderer := c.renderer, assetDatabase := c.assetDatabase,
            materials := mapSet md.Name
              (compile { data := md, assetDatabase := c.assetDatabase,
                         renderer := c.renderer }).1 c.materials,
            pendingMaterials := c.pendingMaterials ++
              [(compile { data := md, assetDatabase := c.assetDatabase,
                          renderer := c.renderer }).1] },
        material := (compile { data := md, assetDatabase := c.assetDatabase,
                               renderer := c.renderer }).1,
        err := none,
        compiled := [{ data := md, assetDatabase := c.assetDatabase,
                       renderer := c.renderer }] } := by
  unfold MaterialCache.Material
  rw [hmiss]
  simp only [hok, ne_eq, not_true_eq_false, if_false]

theorem material_of_cached (c : MaterialCache) (compile : Compiler) (md : MaterialData)
    (v : Ptr) (hhit : mapGet md.Name c.materials = some v) :
    c.Material compile md = { cache := c, material := v, err := none, compiled := [] } := by
  unfold MaterialCache.Material
  rw [hhit]

/-! ## The attachment loop of `ConstructRenderPass` -/

theorem freeLoop_eq (j count : Nat) (calls : List GpuCall) :
    freeLoop j count calls = calls ++ (List.range' j count).map GpuCall.TextureIdFree := by
  induction count generalizing j calls with
  | zero => simp [freeLoop]
  | succ n ih => simp [freeLoop, ih, List.range'_succ]

theorem freeLoop_zero_eq (count : Nat) (calls : List GpuCall) :
    freeLoop 0 count calls = calls ++ (List.range count).map GpuCall.TextureIdFree := by
  rw [freeLoop_eq, List.range_eq_range']

theorem attachmentsLoop_late_failure (vr : Vulkan) (k : Nat) :
    ∀ (l : List RenderPassAttachmentDescription) (i0 : Nat) (textures : List TextureId)
      (calls : List GpuCall), k < l.length →
      (∀ j < k, vr.createImageOk (i0 + j) = true ∧ vr.createImageViewOk (i0 + j) = true ∧
        vr.createTextureSamplerOk (i0 + j) = true ∧
        vr.transitionImageLayoutOk (i0 + j) = true) →
      vr.createImageOk (i0 + k) = true →
      (vr.createImageViewOk (i0 + k) = false ∨ vr.createTextureSamplerOk (i0 + k) = false ∨
        vr.transitionImageLayoutOk (i0 + k) = false) →
      ∃ pre, (attachmentsLoop vr l i0 textures calls).1 = false ∧
        (attachmentsLoop vr l i0 textures calls).2.2 =
          calls ++ pre ++ (List.range (i0 + k + 1)).map GpuCall.TextureIdFree ∧
        ∀ c ∈ pre, ∃ m, c.setupIndex = some m ∧ m ≤ i0 + k := by
  induction k with
  | zero =>
    intro l i0 textures calls hlen _ himg hfail
    cases l with
    | nil => simp at hlen
    | cons a rest =>
      simp only [Nat.add_zero] at himg hfail ⊢
      cases hview : vr.createImageViewOk i0 with
      | false =>
        refine ⟨[GpuCall.CreateImage i0 vr.swapChainWidth vr.swapChainHeight a.Image.MipLevels
          (vr.translate.sampleCount a.Samples) (vr.translate.format a.Format)
          (vr.translate.imageTiling a.Image.Tiling)
          (vr.translate.imageUsageFlags a.Image.Usage)
          (vr.translate.memoryPropertyFlags a.Image.MemoryProperty) a.Image.LayerCount,
          GpuCall.CreateImageView i0 (vr.translate.imageAspectFlags a.Image.Aspect)], ?_, ?_, ?_⟩
        · simp [attachmentsLoop, himg, hview]
        · simp [attachmentsLoop, himg, hview, freeLoop_zero_eq]
        · intro c hc
          simp only [List.mem_cons, List.mem_singleton, List.not_mem_nil, or_false] at hc
          rcases hc with rfl | rfl <;> exact ⟨i0, rfl, le_refl _⟩
      | true =>
        cases hsamp : vr.createTextureSamplerOk i0 with
        | false =>
          refine ⟨[GpuCall.CreateImage i0 vr.swapChainWidth vr.swapChainHeight
            a.Image.MipLevels
            (vr.translate.sampleCount a.Samples) (vr.translate.format a.Format)
            (vr.translate.imageTiling a.Image.Tiling)
            (vr.translate.imageUsageFlags a.Image.Usage)
            (vr.translate.memoryPropertyFlags a.Image.MemoryProperty) a.Image.LayerCount,
            GpuCall.CreateImageView i0 (vr.translate.imageAspectFlags a.Image.Aspect),
            GpuCall.CreateTextureSampler i0 a.Image.MipLevels
              (vr.translate.filter a.Image.Filter)], ?_, ?_, ?_⟩
          · simp [attachmentsLoop, himg, hview, hsamp]
          · simp [attachmentsLoop, himg, hview, hsamp, freeLoop_zero_eq]
          · intro c hc
            simp only [List.mem_cons, List.mem_singleton, List.not_mem_nil, or_false] at hc
            rcases hc with rfl | rfl | rfl <;> exact ⟨i0, rfl, le_refl _⟩
        | true =>
          have htrans : vr.transitionImageLayoutOk i0 = false := by
            rcases hfail with hx | hx | hx
            · rw [hview] at hx
              exact absurd hx (by decide)
            · rw [hsamp] at hx
              exact absurd hx (by decide)
            · exact hx
          refine ⟨[GpuCall.CreateImage i0 vr.swapChainWidth vr.swapChainHeight
            a.Image.MipLevels
            (vr.translate.sampleCount a.Samples) (vr.translate.format a.Format)
            (vr.translate.imageTiling a.Image.Tiling)
            (vr.translate.imageUsageFlags a.Image.Usage)
            (vr.translate.memoryPropertyFlags a.Image.MemoryProperty) a.Image.LayerCount,
            GpuCall.CreateImageView i0 (vr.translate.imageAspectFlags a.Image.Aspect),
            GpuCall.CreateTextureSampler i0 a.Image.MipLevels
              (vr.translate.filter a.Image.Filter),
            GpuCall.TransitionImageLayout i0 (vr.translate.imageLayout a.InitialLayout)
              (vr.translate.imageAspectFlags a.Image.Aspect)
              (vr.translate.accessFlags a.Image.Access)], ?_, ?_, ?_⟩
          · simp [attachmentsLoop, himg, hview, hsamp, htrans]
          · simp [attachmentsLoop, himg, hview, hsamp, htrans, freeLoop_zero_eq]
          · intro c hc
            simp only [List.mem_cons, List.mem_singleton, List.not_mem_nil, or_false] at hc
            rcases hc with rfl | rfl | rfl | rfl <;> exact ⟨i0, rfl, le_refl _⟩
  | succ k ih =>
    intro l i0 textures calls hlen hbefore himg hfail
    cases l with
    | nil => simp at hlen
    | cons a rest =>
      obtain ⟨h1, h2, h3, h4⟩ := hbefore 0 (Nat.succ_pos k)
      simp only [Nat.add_zero] at h1 h2 h3 h4
      have hlen2 : k < rest.length := by simpa using hlen
      have hshift : i0 + (k + 1) = i0 + 1 + k := by omega
      rw [hshift] at himg hfail
      have hbefore2 : ∀ j < k, vr.createImageOk (i0 + 1 + j) = true ∧
          vr.createImageViewOk (i0 + 1 + j) = true ∧
          vr.createTextureSamplerOk (i0 + 1 + j) = true ∧
          vr.transitionImageLayoutOk (i0 + 1 + j) = true := by
        intro j hj
        have := hbefore (j + 1) (by omega)
        have hidx : i0 + (j + 1) = i0 + 1 + j := by omega
        rw [hidx] at this
        exact this
      obtain ⟨pre, hok, hcalls, hpre⟩ := ih rest (i0 + 1)
        (updateAt (fun x => { x with Sampler := some (vr.samplerOf i0) })
          (updateAt (fun x => { x with View := some (vr.viewOf i0) })
            (updateAt (fun x => { x with
              Image := some (vr.imageOf i0), Width := vr.swapChainWidth,
              Height := vr.swapChainHeight }) textures i0) i0) i0)
        (calls ++ [GpuCall.CreateImage i0 vr.swapChainWidth vr.swapChainHeight
            a.Image.MipLevels
            (vr.translate.sampleCount a.Samples) (vr.translate.format a.Format)
            (vr.translate.imageTiling a.Image.Tiling)
            (vr.translate.imageUsageFlags a.Image.Usage)
            (vr.translate.memoryPropertyFlags a.Image.MemoryProperty) a.Image.LayerCount] ++
          [GpuCall.CreateImageView i0 (vr.translate.imageAspectFlags a.Image.Aspect)] ++
          [GpuCall.CreateTextureSampler i0 a.Image.MipLevels
            (vr.translate.filter a.Image.Filter)] ++
          [GpuCall.TransitionImageLayout i0 (vr.translate.imageLayout a.InitialLayout)
            (vr.translate.imageAspectFlags a.Image.Aspect)
            (vr.translate.accessFlags a.Image.Access)])
        hlen2 hbefore2 himg hfail
      refine ⟨[GpuCall.CreateImage i0 vr.swapChainWidth vr.swapChainHeight
            a.Image.MipLevels
            (vr.translate.sampleCount a.Samples) (vr.translate.format a.Format)
            (vr.translate.imageTiling a.Image.Tiling)
            (vr.translate.imageUsageFlags a.Image.Usage)
            (vr.translate.memoryPropertyFlags a.Image.MemoryProperty) a.Image.LayerCount,
          GpuCall.CreateImageView i0 (vr.translate.imageAspectFlags a.Image.Aspect),
          GpuCall.CreateTextureSampler i0 a.Image.MipLevels
            (vr.translate.filter a.Image.Filter),
          GpuCall.TransitionImageLayout i0 (vr.translate.imageLayout a.InitialLayout)
            (vr.translate.imageAspectFlags a.Image.Aspect)
            (vr.translate.accessFlags a.Image.Access)] ++ pre, ?_, ?_, ?_⟩
      · simp only [attachmentsLoop, h1, h2, h3, h4, Bool.not_true, Bool.false_eq_true, if_false]
        exact hok
      · simp only [attachmentsLoop, h1, h2, h3, h4, Bool.not_true, Bool.false_eq_true, if_false]
        rw [hcalls, hshift]
        simp
      · intro c hc
        rcases List.mem_append.mp hc with hc | hc
        · simp only [List.mem_cons, List.mem_singleton, List.not_mem_nil, or_false] at hc
          rcases hc with rfl | rfl | rfl | rfl <;> exact ⟨i0, rfl, by omega⟩
        · obtain ⟨m, hm, hle⟩ := hpre c hc
          exact ⟨m, hm, by omega⟩

/-! ## Two drains, the cache invariant -/

theorem prepareAll_append (h : Heap) (a b : List Drawing) (groups : List RenderPassGroup) :
    prepareAll h groups (a ++ b) =
      (prepareAll h groups a).bind (fun groups1 => prepareAll h groups1 b) := by
  induction a generalizing groups with
  | nil => simp [prepareAll]
  | cons v rest ih =>
    cases h1 : prepareOne h groups v with
    | none => simp [prepareAll, h1]
    | some groups1 => simp [prepareAll, h1, ih]

theorem mapGet_eq_none_iff (key : String) (l : List (String × Ptr)) :
    mapGet key l = none ↔ key ∉ l.map Prod.fst := by
  induction l with
  | nil => simp [mapGet]
  | cons kv rest ih =>
    obtain ⟨k, v⟩ := kv
    by_cases hk : k = key
    · simp [mapGet, hk]
    · have hk2 : ¬ key = k := fun hx => hk hx.symm
      simp [mapGet, hk, hk2, ih]

theorem mapSet_of_absent (key : String) (v : Ptr) (l : List (String × Ptr))
    (habs : mapGet key l = none) : mapSet key v l = l ++ [(key, v)] := by
  induction l with
  | nil => rfl
  | cons kv rest ih =>
    obtain ⟨k, w⟩ := kv
    by_cases hk : k = key
    · simp [mapGet, hk] at habs
    · simp only [mapGet, hk, if_false] at habs
      simp [mapSet, hk, ih habs]

theorem mapGet_of_mem {key : String} {v : Ptr} {l : List (String × Ptr)}
    (hnd : (l.map Prod.fst).Nodup) (hmem : (key, v) ∈ l) : mapGet key l = some v := by
  induction l with
  | nil => simp at hmem
  | cons kv rest ih =>
    obtain ⟨k, w⟩ := kv
    rw [List.map_cons, List.nodup_cons] at hnd
    rcases List.mem_cons.mp hmem with heq | hmem
    · simp only [Prod.mk.injEq] at heq
      simp [mapGet, heq.1, heq.2]
    · have hk : k ≠ key := by
        intro hx
        apply hnd.1
        rw [hx]
        exact List.mem_map.mpr ⟨(key, v), hmem, rfl⟩
      simp only [mapGet, hk, if_false]
      exact ih hnd.2 hmem

theorem cacheOK_insert {c : MaterialCache} {key : String} (v : Ptr)
    (hok : (c.materials.map Prod.fst).Nodup ∧
      c.pendingMaterials = c.materials.map Prod.snd)
    (habs : mapGet key c.materials = none) :
    ((mapSet key v c.materials).map Prod.fst).Nodup ∧
      c.pendingMaterials ++ [v] = (mapSet key v c.materials).map Prod.snd := by
  rw [mapSet_of_absent key v c.materials habs]
  refine ⟨?_, by simp [hok.2]⟩
  rw [List.map_append, List.map_singleton]
  exact nodup_append_singleton hok.1 ((mapGet_eq_none_iff key c.materials).mp habs)

theorem cacheReachable_ok {c : MaterialCache} (hr : CacheReachable c) :
    (c.materials.map Prod.fst).Nodup ∧ c.pendingMaterials = c.materials.map Prod.snd := by
  induction hr with
  | init renderer assetDatabase => exact ⟨by simp [NewMaterialCache], rfl⟩
  | @addMaterial c0 c2 found h material _ hadd ih =>
    cases material with
    | none => simp [MaterialCache.AddMaterial] at hadd
    | some a =>
      cases hget : mapGet (h.material a).key c0.materials with
      | none =>
        simp only [MaterialCache.AddMaterial, hget, Option.some.injEq, Prod.mk.injEq] at hadd
        obtain ⟨hc, _⟩ := hadd
        subst hc
        exact cacheOK_insert (some a) ih hget
      | some w =>
        simp only [MaterialCache.AddMaterial, hget, Option.some.injEq, Prod.mk.injEq] at hadd
        obtain ⟨hc, _⟩ := hadd
        subst hc
        exact ih
  | @material c0 compile md _ ih =>
    cases hget : mapGet md.Name c0.materials with
    | some v =>
      rw [material_of_cached c0 compile md v hget]
      exact ih
    | none =>
      by_cases hfail : (compile { data := md, assetDatabase := c0.assetDatabase,
                                  renderer := c0.renderer }).2 = none
      · rw [material_of_compile_success c0 compile md hget hfail]
        exact cacheOK_insert _ ih hget
      · rw [material_of_compile_failure c0 compile md hget hfail]
        exact ih
  | findMaterial key _ ih => exact ih

/-! ## The log window -/

theorem filterLoop_eq (typeName : String) (l res : List visibleMessage) :
    filterLoop typeName l res =
      res ++ l.filter (fun m => decide (m.Category = typeName)) := by
  induction l generalizing res with
  | nil => simp [filterLoop]
  | cons m rest ih =>
    by_cases hm : m.Category = typeName
    · simp [filterLoop, hm, ih]
    · simp [filterLoop, hm, ih]

theorem filter_eq (l : LogWindow) (typeName : String) :
    l.filter typeName = l.all.filter (fun m => decide (m.Category = typeName)) := by
  simp [LogWindow.filter, filterLoop_eq]

theorem reverse_getElem?_inverted {α : Type} (target : List α) (id : Int) (h0 : 0 ≤ id)
    (hlt : id < (target.length : Int)) :
    0 ≤ (target.length : Int) - id - 1 ∧
      ∃ m, target[((target.length : Int) - id - 1).toNat]? = some m ∧
        target.reverse[id.toNat]? = some m := by
  have hnat : id.toNat < target.length := by omega
  have hidx : ((target.length : Int) - id - 1).toNat = target.length - 1 - id.toNat := by
    omega
  refine ⟨by omega, ?_⟩
  rw [hidx, List.getElem?_reverse hnat]
  have hlt2 : target.length - 1 - id.toNat < target.length := by omega
  exact ⟨target[target.length - 1 - id.toNat], List.getElem?_eq_getElem hlt2,
    List.getElem?_eq_getElem hlt2⟩

theorem selectTarget_reverse (l : LogWindow) : l.displayed = l.selectTarget.reverse := by
  unfold LogWindow.displayed LogWindow.selectTarget LogWindow.All LogWindow.Infos
    LogWindow.Warnings LogWindow.Errors
  split
  · rfl
  · split
    · rfl
    · split
      · rfl
      · split <;> rfl

/-! ## The descriptor arrays of `ConstructRenderPass` -/

theorem updateAt_length {α : Type} (f : α → α) (l : List α) (i : Nat) :
    (updateAt f l i).length = l.length := by
  induction l generalizing i with
  | nil => rfl
  | cons a l ih => cases i <;> simp [updateAt, ih]

theorem updateAt_getElem?_self {α : Type} (f : α → α) (l : List α) (i : Nat) :
    (updateAt f l i)[i]? = (l[i]?).map f := by
  induction l generalizing i with
  | nil => simp [updateAt]
  | cons a l ih => cases i <;> simp [updateAt, ih]

theorem updateAt_getElem?_other {α : Type} (f : α → α) (l : List α) (i k : Nat) (h : k ≠ i) :
    (updateAt f l i)[k]? = l[k]? := by
  induction l generalizing i k with
  | nil => simp [updateAt]
  | cons a l ih =>
    cases i with
    | zero =>
      cases k with
      | zero => exact absurd rfl h
      | succ k => simp [updateAt]
    | succ i =>
      cases k with
      | zero => simp [updateAt]
      | succ k => simpa [updateAt] using ih i k (by omega)

theorem translateAttachments_eq_map (t : VkTranslate) (l : List RenderPassAttachmentDescription) :
    translateAttachments t l = l.map (fun a =>
      { Flags := 0, Format := t.format a.Format, Samples := t.sampleCount a.Samples,
        LoadOp := t.attachmentLoadOp a.LoadOp, StoreOp := t.attachmentStoreOp a.StoreOp,
        StencilLoadOp := t.attachmentLoadOp a.StencilLoadOp,
        StencilStoreOp := t.attachmentStoreOp a.StencilStoreOp,
        InitialLayout := t.imageLayout a.InitialLayout,
        FinalLayout := t.imageLayout a.FinalLayout }) := by
  induction l with
  | nil => rfl
  | cons a l ih => simp [translateAttachments, ih]

theorem translateDependencies_eq_map (t : VkTranslate) (l : List RenderPassSubpassDependency) :
    translateDependencies t l = l.map (fun x =>
      { SrcSubpass := x.SrcSubpass, DstSubpass := x.DstSubpass,
        SrcStageMask := t.pipelineStageFlags x.SrcStageMask,
        DstStageMask := t.pipelineStageFlags x.DstStageMask,
        SrcAccessMask := t.accessFlags x.SrcAccessMask,
        DstAccessMask := t.accessFlags x.DstAccessMask,
        DependencyFlags := t.dependencyFlags x.DependencyFlags }) := by
  induction l with
  | nil => rfl
  | cons a l ih => simp [translateDependencies, ih]

theorem collectViews_eq_map (l : List TextureId) :
    collectViews l = l.map (fun x => x.View) := by
  induction l with
  | nil => rfl
  | cons a l ih => simp [collectViews, ih]

/-- Every call the attachment loop adds is a set-up operation or a
`textureIdFree`. -/
theorem attachmentsLoop_calls (vr : Vulkan) :
    ∀ (l : List RenderPassAttachmentDescription) (i : Nat) (textures : List TextureId)
      (calls : List GpuCall),
      ∀ c ∈ (attachmentsLoop vr l i textures calls).2.2, c ∈ calls ∨ c.isLoopCall = true := by
  intro l
  induction l with
  | nil => intro i textures calls c hc; exact Or.inl (by simpa [attachmentsLoop] using hc)
  | cons a rest ih =>
    intro i textures calls c hc
    unfold attachmentsLoop at hc
    simp only at hc
    split at hc
    · simp only [List.mem_append, List.mem_singleton] at hc
      rcases hc with hc | rfl
      · exact Or.inl hc
      · exact Or.inr rfl
    · split at hc
      · rw [freeLoop_zero_eq] at hc
        simp only [List.mem_append, List.mem_singleton, List.mem_map] at hc
        rcases hc with ((hc | rfl) | rfl) | ⟨j, _, rfl⟩
        · exact Or.inl hc
        · exact Or.inr rfl
        · exact Or.inr rfl
        · exact Or.inr rfl
      · split at hc
        · rw [freeLoop_zero_eq] at hc
          simp only [List.mem_append, List.mem_singleton, List.mem_map] at hc
          rcases hc with (((hc | rfl) | rfl) | rfl) | ⟨j, _, rfl⟩
          · exact Or.inl hc
          · exact Or.inr rfl
          · exact Or.inr rfl
          · exact Or.inr rfl
          · exact Or.inr rfl
        · split at hc
          · rw [freeLoop_zero_eq] at hc
            simp only [List.mem_append, List.mem_singleton, List.mem_map] at hc
            rcases hc with ((((hc | rfl) | rfl) | rfl) | rfl) | ⟨j, _, rfl⟩
            · exact Or.inl hc
            · exact Or.inr rfl
            · exact Or.inr rfl
            · exact Or.inr rfl
            · exact Or.inr rfl
            · exact Or.inr rfl
          · rcases ih _ _ _ c hc with h | h
            · simp only [List.mem_append, List.mem_singleton] at h
              rcases h with (((h | rfl) | rfl) | rfl) | rfl
              · exact Or.inl h
              · exact Or.inr rfl
              · exact Or.inr rfl
              · exact Or.inr rfl
              · exact Or.inr rfl
            · exact Or.inr h

/-- When the attachment loop runs to the end, `textures` keeps its length, the
elements outside the range of the loop are untouched and element `k` of the range
holds the view created for attachment `k`. -/
theorem attachmentsLoop_views (vr : Vulkan) :
    ∀ (l : List RenderPassAttachmentDescription) (i : Nat) (textures : List TextureId)
      (calls : List GpuCall), (attachmentsLoop vr l i textures calls).1 = true →
      (attachmentsLoop vr l i textures calls).2.1.length = textures.length ∧
      (∀ k, k < i → (attachmentsLoop vr l i textures calls).2.1[k]? = textures[k]?) ∧
      (∀ k, i ≤ k → k < i + l.length → k < textures.length →
        ((attachmentsLoop vr l i textures calls).2.1[k]?).map (fun x => x.View) =
          some (some (vr.viewOf k))) := by
  intro l
  induction l with
  | nil =>
    intro i textures calls _
    refine ⟨rfl, fun k _ => rfl, fun k h1 h2 _ => ?_⟩
    simp at h2
    omega
  | cons a rest ih =>
    intro i textures calls hok
    unfold attachmentsLoop at hok ⊢
    simp only at hok ⊢
    split at hok
    · simp at hok
    · split at hok
      · simp at hok
      · split at hok
        · simp at hok
        · split at hok
          · simp at hok
          · rename_i h1 h2 h3 h4
            simp only [h1, h2, h3, h4, Bool.false_eq_true, if_false]
            obtain ⟨hlen, hbefore, hin⟩ := ih _ _ _ hok
            refine ⟨?_, ?_, ?_⟩
            · rw [hlen]
              simp only [updateAt_length]
            · intro k hk
              rw [hbefore k (by omega)]
              simp only [updateAt_getElem?_other _ _ _ _ (show k ≠ i by omega)]
            · intro k hk1 hk2 hk3
              by_cases hki : k = i
              · subst hki
                rw [hbefore k (by omega)]
                simp only [updateAt_getElem?_self]
                have hget : textures[k]? = some (textures.get ⟨k, hk3⟩) :=
                  List.getElem?_eq_getElem hk3
                rw [hget]
                rfl
              · exact hin k (by omega) (by simp at hk2; omega)
                  (by simpa only [updateAt_length] using hk3)

/-- The calls of a `ConstructRenderPass` that returns: those of the attachment
loop alone when it failed, else followed by `NewRenderPass` on the translated
arrays, and by `CreateFrameBuffer` on the collected views when the pass was
created. -/
theorem constructRenderPass_calls {r : RenderPassData} {vr : Vulkan} {res : ConstructResult}
    (h : r.ConstructRenderPass (some vr) = some res) :
    (res.ok = false ∧
        res.calls = (attachmentsLoop vr r.AttachmentDescriptions 0
          (List.replicate r.AttachmentDescriptions.length TextureId.zero) []).2.2) ∨
      ((attachmentsLoop vr r.AttachmentDescriptions 0
          (List.replicate r.AttachmentDescriptions.length TextureId.zero) []).1 = true ∧
        ∃ subs,
          (res.ok = false ∧
            res.calls = (attachmentsLoop vr r.AttachmentDescriptions 0
                (List.replicate r.AttachmentDescriptions.length TextureId.zero) []).2.2 ++
              [GpuCall.NewRenderPass (translateAttachments vr.translate r.AttachmentDescriptions)
                subs (translateDependencies vr.translate r.SubpassDependencies)]) ∨
          ∃ w ht,
            res.calls = (attachmentsLoop vr r.AttachmentDescriptions 0
                (List.replicate r.AttachmentDescriptions.length TextureId.zero) []).2.2 ++
              [GpuCall.NewRenderPass (translateAttachments vr.translate r.AttachmentDescriptions)
                subs (translateDependencies vr.translate r.SubpassDependencies)] ++
              [GpuCall.CreateFrameBuffer
                (collectViews (attachmentsLoop vr r.AttachmentDescriptions 0
                  (List.replicate r.AttachmentDescriptions.length TextureId.zero) []).2.1)
                w ht]) := by
  unfold RenderPassData.ConstructRenderPass at h
  simp only at h
  split at h
  · simp only [Option.some.injEq] at h
    subst h
    exact Or.inl ⟨rfl, rfl⟩
  · rename_i hmade
    have hmade2 : (attachmentsLoop vr r.AttachmentDescriptions 0
        (List.replicate r.AttachmentDescriptions.length TextureId.zero) []).1 = true := by
      simpa using hmade
    split at h
    · exact absurd h (by simp)
    · split at h
      · exact absurd h (by simp)
      · rename_i subs _
        split at h
        · simp only [Option.some.injEq] at h
          subst h
          exact Or.inr ⟨hmade2, subs, Or.inl ⟨rfl, rfl⟩⟩
        · split at h
          · exact absurd h (by simp)
          · rename_i first _
            split at h
            · simp only [Option.some.injEq] at h
              subst h
              exact Or.inr ⟨hmade2, subs, Or.inr ⟨first.Width, first.Height, rfl⟩⟩
            · simp only [Option.some.injEq] at h
              subst h
              exact Or.inr ⟨hmade2, subs, Or.inr ⟨first.Width, first.Height, rfl⟩⟩

/-! ## A destroyed slot across a drain -/

theorem nodup_key_index {α β : Type} {key : α → β} {l : List α} (hnd : (l.map key).Nodup)
    {i1 i2 : Nat} {a b : α} (h1 : l[i1]? = some a) (h2 : l[i2]? = some b)
    (hkey : key a = key b) : i1 = i2 := by
  induction l generalizing i1 i2 with
  | nil => simp at h1
  | cons x l ih =>
    simp only [List.map_cons, List.nodup_cons, List.mem_map, not_exists, not_and] at hnd
    cases i1 with
    | zero =>
      cases i2 with
      | zero => rfl
      | succ i2 =>
        simp only [List.getElem?_cons_zero, Option.some.injEq] at h1
        simp only [List.getElem?_cons_succ] at h2
        subst h1
        exact absurd hkey.symm (hnd.1 b (List.getElem?_mem h2))
    | succ i1 =>
      cases i2 with
      | zero =>
        simp only [List.getElem?_cons_zero, Option.some.injEq] at h2
        simp only [List.getElem?_cons_succ] at h1
        subst h2
        exact absurd hkey (hnd.1 a (List.getElem?_mem h1))
      | succ i2 =>
        simp only [List.getElem?_cons_succ] at h1 h2
        rw [ih hnd.2 h1 h2]

theorem getElem?_replace {α : Type} (pre : List α) (x y : α) (post : List α) (i : Nat) :
    (pre ++ y :: post)[i]? = if i = pre.length then some y else (pre ++ x :: post)[i]? := by
  induction pre generalizing i with
  | nil => cases i <;> simp
  | cons a pre ih => cases i <;> simp [ih]

theorem groupMatches_true_key {h : Heap} {g : DrawInstanceGroup} {dg : Drawing}
    (hmi : g.MaterialInstance = dg.Material) (hm : groupMatches h g dg = some true) :
    slotKey g = drawKey dg := by
  rw [groupMatches_of_instance hmi] at hm
  simpa [drawKey] using hm

theorem groupMatches_false_key {h : Heap} {g : DrawInstanceGroup} {dg : Drawing}
    (hmi : g.MaterialInstance = dg.Material) (hm : groupMatches h g dg = some false) :
    slotKey g ≠ drawKey dg := by
  rw [groupMatches_of_instance hmi] at hm
  simpa [drawKey] using hm

theorem refill_slotKey (h : Heap) {g : DrawInstanceGroup} {dg : Drawing}
    (hkey : slotKey g = drawKey dg) : slotKey (refill h g dg) = slotKey g := by
  unfold refill
  split
  · rw [hkey]; rfl
  · rfl

theorem refill_live (h : Heap) (g : DrawInstanceGroup) (dg : Drawing) :
    (refill h g dg).destroyed = false := by
  unfold refill
  split
  · rfl
  · simpa [DrawInstanceGroup.AddInstance] using ‹¬g.destroyed = true›

/-- One iteration on the ShaderDraw of the drawing's material, seen from slot
`k`: the slot is refilled when it has the drawing's mesh and blending flag and is
left as it is otherwise. -/
theorem SlotsStep.at_slot {h : Heap} {dg : Drawing} {l l2 : List DrawInstanceGroup}
    (hs : SlotsStep h dg l l2) (hmi : ∀ g ∈ l, g.MaterialInstance = dg.Material)
    (hnd : (l.map slotKey).Nodup) {k : Nat} {a : DrawInstanceGroup} (hk : l[k]? = some a) :
    l2[k]? = some (if slotKey a = drawKey dg then refill h a dg else a) := by
  cases hs with
  | appended pre g post hpre hg hlive =>
    have hgkey := groupMatches_true_key (hmi g (by simp)) hg
    rw [getElem?_replace pre g]
    by_cases hkp : k = pre.length
    · subst hkp
      rw [getElem?_append_cons_length] at hk
      simp only [Option.some.injEq] at hk
      subst hk
      simp [hgkey, refill, hlive]
    · have hne : slotKey a ≠ drawKey dg := fun he =>
        hkp (nodup_key_index hnd hk (getElem?_append_cons_length pre g post)
          (he.trans hgkey.symm))
      simp [hkp, hk, hne]
  | replaced pre g post hpre hg hdead =>
    have hgkey := groupMatches_true_key (hmi g (by simp)) hg
    rw [getElem?_replace pre g]
    by_cases hkp : k = pre.length
    · subst hkp
      rw [getElem?_append_cons_length] at hk
      simp only [Option.some.injEq] at hk
      subst hk
      simp [hgkey, refill, hdead]
    · have hne : slotKey a ≠ drawKey dg := fun he =>
        hkp (nodup_key_index hnd hk (getElem?_append_cons_length pre g post)
          (he.trans hgkey.symm))
      simp [hkp, hk, hne]
  | added slots hall =>
    have hmem : a ∈ l := List.getElem?_mem hk
    have hne := groupMatches_false_key (hmi a hmem) (hall a hmem)
    have hlt : k < l.length := by
      rcases Nat.lt_or_ge k l.length with hlt | hge
      · exact hlt
      · rw [List.getElem?_eq_none hge] at hk
        exact absurd hk (by simp)
    rw [List.getElem?_append_left hlt, hk]
    simp [hne]

/-- One iteration never changes a group that is marked destroyed afterwards:
such a group was in its slot before. -/
theorem SlotsStep.destroyed_kept {h : Heap} {dg : Drawing} {l l2 : List DrawInstanceGroup}
    (hs : SlotsStep h dg l l2) {k : Nat} {g2 : DrawInstanceGroup} (hk : l2[k]? = some g2)
    (hdead : g2.destroyed = true) : l[k]? = some g2 := by
  cases hs with
  | appended pre g post hpre hg hlive =>
    rw [getElem?_replace pre g] at hk
    by_cases hkp : k = pre.length
    · simp only [hkp, if_true, Option.some.injEq] at hk
      subst hk
      simp [DrawInstanceGroup.AddInstance, hlive] at hdead
    · simpa [hkp] using hk
  | replaced pre g post hpre hg hdead0 =>
    rw [getElem?_replace pre g] at hk
    by_cases hkp : k = pre.length
    · simp only [hkp, if_true, Option.some.injEq] at hk
      subst hk
      simp [seedGroup, NewDrawInstanceGroup, DrawInstanceGroup.AddInstance] at hdead
    · simpa [hkp] using hk
  | added slots hall =>
    rcases Nat.lt_or_ge k l.length with hlt | hge
    · rwa [List.getElem?_append_left hlt] at hk
    · rw [List.getElem?_append_right hge] at hk
      have hmem := List.getElem?_mem hk
      simp only [List.mem_singleton] at hmem
      subst hmem
      simp [seedGroup, NewDrawInstanceGroup, DrawInstanceGroup.AddInstance] at hdead

/-- One iteration adds no slot when a slot has the drawing's mesh and blending
flag. -/
theorem SlotsStep.length_eq {h : Heap} {dg : Drawing} {l l2 : List DrawInstanceGroup}
    (hs : SlotsStep h dg l l2) (hmi : ∀ g ∈ l, g.MaterialInstance = dg.Material)
    (hkey : ∃ a ∈ l, slotKey a = drawKey dg) : l2.length = l.length := by
  cases hs with
  | appended pre g post hpre hg hlive => simp
  | replaced pre g post hpre hg hdead => simp
  | added slots hall =>
    obtain ⟨a, ha, he⟩ := hkey
    exact absurd he (groupMatches_false_key (hmi a ha) (hall a ha))

theorem SlotsStep.keys_kept {h : Heap} {dg : Drawing} {l l2 : List DrawInstanceGroup}
    (hs : SlotsStep h dg l l2) (hmi : ∀ g ∈ l, g.MaterialInstance = dg.Material)
    (hnd : (l.map slotKey).Nodup) {a : DrawInstanceGroup} (ha : a ∈ l) :
    ∃ b ∈ l2, slotKey b = slotKey a := by
  obtain ⟨k, hk⟩ := List.getElem?_of_mem ha
  have h2 := hs.at_slot hmi hnd hk
  refine ⟨_, List.getElem?_mem h2, ?_⟩
  split
  · exact refill_slotKey h ‹_›
  · rfl

theorem SlotsRun.run_drawOK {h : Heap} {material : Ptr} {buffer : List Drawing}
    {l l2 : List DrawInstanceGroup} (hs : SlotsRun h material buffer l l2)
    (hmi : ∀ g ∈ l, g.MaterialInstance = material) (hnd : (l.map slotKey).Nodup) :
    (∀ g ∈ l2, g.MaterialInstance = material) ∧ (l2.map slotKey).Nodup := by
  induction hs with
  | done slots => exact ⟨hmi, hnd⟩
  | skip v rest slots slots2 _ _ ih => exact ih hmi hnd
  | step v rest slots slots1 slots2 hmat hstep _ ih =>
    have h1 := hstep.drawOK (fun g hg => (hmi g hg).trans hmat.symm) hnd
    exact ih (fun g hg => (h1.1 g hg).trans hmat) h1.2

/-- A drain seen from slot `k` of the ShaderDraw of `material`: the slot is
refilled, in buffer order, by the buffered drawings of that material that have
its mesh and blending flag. -/
theorem SlotsRun.run_at_slot {h : Heap} {material : Ptr} {buffer : List Drawing}
    {l l2 : List DrawInstanceGroup} (hs : SlotsRun h material buffer l l2)
    (hmi : ∀ g ∈ l, g.MaterialInstance = material) (hnd : (l.map slotKey).Nodup)
    {k : Nat} {a : DrawInstanceGroup} (hk : l[k]? = some a) :
    l2[k]? = some ((buffer.filter
      (fun v => decide (v.Material = material ∧ drawKey v = slotKey a))).foldl (refill h) a) := by
  induction hs generalizing a with
  | done slots => simpa using hk
  | skip v rest slots slots2 hne _ ih =>
    rw [List.filter_cons_of_neg (by simp [hne])]
    exact ih hmi hnd hk
  | step v rest slots slots1 slots2 hmat hstep _ ih =>
    have hmi0 : ∀ g ∈ slots, g.MaterialInstance = v.Material :=
      fun g hg => (hmi g hg).trans hmat.symm
    have h1 := hstep.drawOK hmi0 hnd
    have hmi1 : ∀ g ∈ slots1, g.MaterialInstance = material :=
      fun g hg => (h1.1 g hg).trans hmat
    have hat := hstep.at_slot hmi0 hnd hk
    by_cases hkey : slotKey a = drawKey v
    · rw [if_pos hkey] at hat
      rw [List.filter_cons_of_pos (by simp [hmat, hkey]), List.foldl_cons]
      have := ih hmi1 h1.2 hat
      rw [refill_slotKey h hkey] at this
      exact this
    · rw [if_neg hkey] at hat
      rw [List.filter_cons_of_neg (by simp only [decide_eq_true_eq, not_and]
                                      exact fun _ he => hkey he.symm)]
      exact ih hmi1 h1.2 hat

theorem SlotsRun.run_length_le {h : Heap} {material : Ptr} {buffer : List Drawing}
    {l l2 : List DrawInstanceGroup} (hs : SlotsRun h material buffer l l2) :
    l.length ≤ l2.length := by
  induction hs with
  | done slots => exact le_refl _
  | skip v rest slots slots2 _ _ ih => exact ih
  | step v rest slots slots1 slots2 _ hstep _ ih => exact le_trans hstep.length_le ih

/-- A drain adds no slot to the ShaderDraw of `material` when every buffered
drawing of that material has the mesh and blending flag of one of its slots. -/
theorem SlotsRun.run_length_eq {h : Heap} {material : Ptr} {buffer : List Drawing}
    {l l2 : List DrawInstanceGroup} (hs : SlotsRun h material buffer l l2)
    (hmi : ∀ g ∈ l, g.MaterialInstance = material) (hnd : (l.map slotKey).Nodup)
    (hkeys : ∀ v ∈ buffer, v.Material = material → ∃ a ∈ l, slotKey a = drawKey v) :
    l2.length = l.length := by
  induction hs with
  | done slots => rfl
  | skip v rest slots slots2 _ _ ih =>
    exact ih hmi hnd (fun x hx => hkeys x (List.mem_cons_of_mem v hx))
  | step v rest slots slots1 slots2 hmat hstep _ ih =>
    have hmi0 : ∀ g ∈ slots, g.MaterialInstance = v.Material :=
      fun g hg => (hmi g hg).trans hmat.symm
    have h1 := hstep.drawOK hmi0 hnd
    have hlen := hstep.length_eq hmi0 (hkeys v (List.mem_cons_self v rest) hmat)
    rw [← hlen]
    refine ih (fun g hg => (h1.1 g hg).trans hmat) h1.2 ?_
    intro x hx hxm
    obtain ⟨a, ha, hka⟩ := hkeys x (List.mem_cons_of_mem v hx) hxm
    obtain ⟨b, hb, hkb⟩ := hstep.keys_kept hmi0 hnd ha
    exact ⟨b, hb, hkb.trans hka⟩

/-- A drain never changes a group that is marked destroyed afterwards. -/
theorem SlotsRun.run_destroyed_kept {h : Heap} {material : Ptr} {buffer : List Drawing}
    {l l2 : List DrawInstanceGroup} (hs : SlotsRun h material buffer l l2) {k : Nat}
    {g2 : DrawInstanceGroup} (hk : l2[k]? = some g2) (hdead : g2.destroyed = true) :
    l[k]? = some g2 := by
  induction hs with
  | done slots => exact hk
  | skip v rest slots slots2 _ _ ih => exact ih hk
  | step v rest slots slots1 slots2 _ hstep _ ih => exact hstep.destroyed_kept (ih hk) hdead

theorem foldl_refill_live (h : Heap) (vs : List Drawing) :
    ∀ a : DrawInstanceGroup, a.destroyed = false →
      vs.foldl (refill h) a =
        { a with Instances := a.Instances ++ vs.map (fun v => v.ShaderData) } := by
  induction vs with
  | nil => intro a _; simp
  | cons v vs ih =>
    intro a ha
    have hr : refill h a v = a.AddInstance v.ShaderData := by simp [refill, ha]
    rw [List.foldl_cons, hr, ih _ (by simpa [DrawInstanceGroup.AddInstance] using ha)]
    simp [DrawInstanceGroup.AddInstance]

/-- One iteration seen from ShaderDraw `j` of a RenderPassGroup: it takes a
`SlotsStep` when the drawing has its material and is left as it is otherwise. -/
theorem DrawsStep.focus_draw {h : Heap} {v : Drawing} {l l2 : List ShaderDraw}
    (hs : DrawsStep h v l l2) (hnd : (l.map (fun s => s.material)).Nodup) {j : Nat}
    {sd : ShaderDraw} (hj : l[j]? = some sd) :
    ∃ sd1, l2[j]? = some sd1 ∧ sd1.material = sd.material ∧
      ((v.Material = sd.material ∧ SlotsStep h v sd.instanceGroups sd1.instanceGroups) ∨
        (v.Material ≠ sd.material ∧ sd1 = sd)) := by
  cases hs with
  | found pre sd0 post sd2 hpre hsd0 hsd2 hslots =>
    by_cases hjp : j = pre.length
    · subst hjp
      rw [getElem?_append_cons_length] at hj
      simp only [Option.some.injEq] at hj
      subst hj
      refine ⟨sd2, getElem?_append_cons_length pre sd2 post, hsd2.trans hsd0.symm,
        Or.inl ⟨hsd0.symm, hslots⟩⟩
    · refine ⟨sd, ?_, rfl, Or.inr ⟨?_, rfl⟩⟩
      · rw [getElem?_replace pre sd0, if_neg hjp]
        exact hj
      · intro he
        exact hjp (nodup_key_index hnd hj (getElem?_append_cons_length pre sd0 post)
          (he.symm.trans hsd0.symm))
  | created draws sd2 hall hsd2 hslots =>
    have hlt : j < l.length := by
      rcases Nat.lt_or_ge j l.length with hlt | hge
      · exact hlt
      · rw [List.getElem?_eq_none hge] at hj
        exact absurd hj (by simp)
    refine ⟨sd, ?_, rfl, Or.inr ⟨?_, rfl⟩⟩
    · rw [List.getElem?_append_left hlt]
      exact hj
    · exact fun he => hall sd (List.getElem?_mem hj) he.symm

/-- One iteration seen from ShaderDraw `j` of RenderPassGroup `i`. -/
theorem GroupsStep.focus_group {h : Heap} {v : Drawing} {rp : Ptr} {l l2 : List RenderPassGroup}
    (hs : GroupsStep h v rp l l2) (hok : TreeOK l) {i j : Nat} {rpg : RenderPassGroup}
    {sd : ShaderDraw} (hi : l[i]? = some rpg) (hj : rpg.draws[j]? = some sd) :
    ∃ rpg1 sd1, l2[i]? = some rpg1 ∧ rpg1.renderPass = rpg.renderPass ∧
      rpg1.draws[j]? = some sd1 ∧ sd1.material = sd.material ∧
      ((rp = rpg.renderPass ∧ v.Material = sd.material ∧
          SlotsStep h v sd.instanceGroups sd1.instanceGroups) ∨
        ((rp ≠ rpg.renderPass ∨ v.Material ≠ sd.material) ∧ sd1 = sd)) := by
  obtain ⟨hnd, hall⟩ := hok
  cases hs with
  | found pre g post g2 hpre hg hg2 hdraws =>
    by_cases hip : i = pre.length
    · subst hip
      rw [getElem?_append_cons_length] at hi
      simp only [Option.some.injEq] at hi
      subst hi
      obtain ⟨sd1, hj1, hm1, hcase⟩ := hdraws.focus_draw (hall g (by simp)).2.1 hj
      refine ⟨g2, sd1, getElem?_append_cons_length pre g2 post, hg2.trans hg.symm, hj1, hm1, ?_⟩
      rcases hcase with ⟨he, hstep⟩ | ⟨hne, heq⟩
      · exact Or.inl ⟨hg.symm, he, hstep⟩
      · exact Or.inr ⟨Or.inr hne, heq⟩
    · refine ⟨rpg, sd, ?_, rfl, hj, rfl, Or.inr ⟨Or.inl ?_, rfl⟩⟩
      · rw [getElem?_replace pre g, if_neg hip]
        exact hi
      · intro he
        exact hip (nodup_key_index hnd hi (getElem?_append_cons_length pre g post)
          (he.symm.trans hg.symm))
  | created groups g2 hnone hg2 hdraws =>
    have hlt : i < l.length := by
      rcases Nat.lt_or_ge i l.length with hlt | hge
      · exact hlt
      · rw [List.getElem?_eq_none hge] at hi
        exact absurd hi (by simp)
    refine ⟨rpg, sd, ?_, rfl, hj, rfl, Or.inr ⟨Or.inl ?_, rfl⟩⟩
    · rw [List.getElem?_append_left hlt]
      exact hi
    · exact fun he => hnone rpg (List.getElem?_mem hi) he.symm

/-- A drain seen from the ShaderDraw of material `m` in the RenderPassGroup of
that material's render pass: the ShaderDraw stays where it is and its slots take
the drain's `SlotsRun`. -/
theorem prepareAll_focus {h : Heap} {m : Nat} (buffer : List Drawing) :
    ∀ (groups groups2 : List RenderPassGroup) (i j : Nat) (rpg : RenderPassGroup)
      (sd : ShaderDraw), TreeOK groups → groups[i]? = some rpg → rpg.draws[j]? = some sd →
      sd.material = some m → rpg.renderPass = (h.material m).renderPass →
      prepareAll h groups buffer = some groups2 →
      ∃ rpg2 sd2, groups2[i]? = some rpg2 ∧ rpg2.renderPass = rpg.renderPass ∧
        rpg2.draws[j]? = some sd2 ∧ sd2.material = sd.material ∧
        SlotsRun h (some m) buffer sd.instanceGroups sd2.instanceGroups := by
  induction buffer with
  | nil =>
    intro groups groups2 i j rpg sd _ hi hj _ _ hp
    simp only [prepareAll, Option.some.injEq] at hp
    subst hp
    exact ⟨rpg, sd, hi, rfl, hj, rfl, SlotsRun.done _⟩
  | cons v rest ih =>
    intro groups groups2 i j rpg sd hok hi hj hsd hrp hp
    cases h1 : prepareOne h groups v with
    | none => simp [prepareAll, h1] at hp
    | some groups1 =>
      simp only [prepareAll, h1] at hp
      obtain ⟨m2, hm2, hstep⟩ := prepareOne_step h1
      have hok1 : TreeOK groups1 := hstep.treeOK (by simp [hm2]) hok
      obtain ⟨rpg1, sd1, hi1, hrp1, hj1, hsd1, hcase⟩ := hstep.focus_group hok hi hj
      obtain ⟨rpg2, sd2, hi2, hrp2, hj2, hsd2, hrun⟩ :=
        ih groups1 groups2 i j rpg1 sd1 hok1 hi1 hj1 (hsd1.trans hsd) (hrp1.trans hrp) hp
      refine ⟨rpg2, sd2, hi2, hrp2.trans hrp1, hj2, hsd2.trans hsd1, ?_⟩
      rcases hcase with ⟨_, hvm, hslots⟩ | ⟨hne, heq⟩
      · exact SlotsRun.step v rest _ _ _ (hvm.trans hsd) hslots hrun
      · subst heq
        refine SlotsRun.skip v rest _ _ ?_ hrun
        intro hvm
        rcases hne with hne | hne
        · apply hne
          have hmm : m2 = m := by
            rw [hm2] at hvm
            exact Option.some.inj hvm
          rw [hmm, hrp]
        · exact hne (hvm.trans hsd.symm)

/-- The drain of a back buffer holding one drawing that matches a slot marked
destroyed: the slot is overwritten by the group seeded with the drawing, and
nothing else changes. -/
theorem preparePending_lone_on_destroyed (h : Heap) (d : Drawings) (dg : Drawing) (m i j k : Nat)
    (rpg : RenderPassGroup) (sd : ShaderDraw) (g : DrawInstanceGroup)
    (hr : Reachable d) (hbuf : d.backDraws = [dg]) (hmat : dg.Material = some m)
    (hi : d.renderPassGroups[i]? = some rpg) (hrp : rpg.renderPass = (h.material m).renderPass)
    (hj : rpg.draws[j]? = some sd) (hsd : sd.material = dg.Material)
    (hk : sd.instanceGroups[k]? = some g) (hdead : g.destroyed = true)
    (hmesh : g.Mesh = dg.Mesh) (hmi : g.MaterialInstance = dg.Material)
    (hblend : g.useBlending = dg.UseBlending) :
    d.PreparePending h = some
        { renderPassGroups := d.renderPassGroups.set i
            { renderPass := rpg.renderPass,
              draws := rpg.draws.set j
                { material := sd.material,
                  instanceGroups := sd.instanceGroups.set k (seedGroup h dg) } },
          backDraws := [] } ∧
      (seedGroup h dg).destroyed = false ∧
      (seedGroup h dg).Instances = [dg.ShaderData] ∧
      (seedGroup h dg).Mesh = dg.Mesh ∧
      (seedGroup h dg).MaterialInstance = dg.Material ∧
      (seedGroup h dg).useBlending = dg.UseBlending ∧
      (sd.instanceGroups.set k (seedGroup h dg)).length = sd.instanceGroups.length ∧
      g.AddInstance dg.ShaderData ∉ sd.instanceGroups.set k (seedGroup h dg) := by
  obtain ⟨hnd, hall⟩ := reachable_treeOK hr
  obtain ⟨gpre, gpost, hgdec, hglen⟩ := getElem?_decompose hi
  have hrpgmem : rpg ∈ d.renderPassGroups := by rw [hgdec]; simp
  obtain ⟨_, hnd2, hdraws⟩ := hall rpg hrpgmem
  obtain ⟨dpre, dpost, hddec, hdlen⟩ := getElem?_decompose hj
  have hsdmem : sd ∈ rpg.draws := by rw [hddec]; simp
  obtain ⟨_, hinst, hkeys⟩ := hdraws sd hsdmem
  obtain ⟨pre, post, hsdec, hslen⟩ := getElem?_decompose hk
  rw [hgdec] at hnd
  rw [hddec] at hnd2
  rw [hsdec] at hkeys
  have hgkey : slotKey g = (dg.Mesh, dg.UseBlending) := by simp [slotKey, hmesh, hblend]
  have hgm : groupMatches h g dg = some true := by
    rw [groupMatches_of_instance hmi, hgkey]
    simp
  have hpre : ∀ a ∈ pre, groupMatches h a dg = some false := by
    intro a ha
    have hamem : a ∈ sd.instanceGroups := by rw [hsdec]; simp [ha]
    rw [groupMatches_of_instance ((hinst a hamem).trans hsd)]
    have hne := nodup_map_others hkeys a (List.mem_append_left _ ha)
    rw [hgkey] at hne
    simp [hne]
  have hplace := placeInstance_found pre g post hsdec hpre hgm
  rw [hdead, if_pos rfl] at hplace
  have hgroup := placeInGroup_found (h := h) dpre sd dpost hddec
    (fun a ha => by
      have := nodup_map_others hnd2 a (List.mem_append_left _ ha)
      rw [hsd] at this
      exact this) hsd
  rw [hplace, Option.map_some'] at hgroup
  have hone := prepareOne_found (h := h) gpre rpg gpost hmat hgdec
    (fun a ha => by
      have := nodup_map_others hnd a (List.mem_append_left _ ha)
      rw [hrp] at this
      exact this) hrp
  rw [hgroup, Option.map_some'] at hone
  refine ⟨?_, rfl, rfl, rfl, rfl, rfl, by simp, ?_⟩
  · unfold Drawings.PreparePending
    rw [hbuf]
    simp only [prepareAll, hone]
    rw [hgdec, hddec, hsdec, ← hglen, ← hdlen, ← hslen]
    simp only [set_append_cons_length]
  · intro hmem
    rcases List.mem_or_eq_of_mem_set hmem with hin | heq
    · rw [hsdec] at hin
      rcases List.mem_append.mp hin with hin | hin
      · exact nodup_map_others hkeys _ (List.mem_append_left _ hin) rfl
      · rcases List.mem_cons.mp hin with heq | hin
        · have hlen := congrArg (fun x => x.Instances.length) heq
          simp [DrawInstanceGroup.AddInstance] at hlen
        · exact nodup_map_others hkeys _ (List.mem_append_right _ hin) rfl
    · have hflag := congrArg (fun x => x.destroyed) heq
      simp [DrawInstanceGroup.AddInstance, seedGroup, NewDrawInstanceGroup, hdead] at hflag

/-! ## The claims -/

/-- C1: whatever the batcher state and the sequence of AddDrawing / AddDrawings
calls, a PreparePending that returns leaves a back buffer of length zero; and
it does return (with the buffer emptied) when every buffered and submitted
drawing is valid and every instance group of the tree has its material instance
set. -/
theorem C1_drain_empties_buffer (h : Heap) (d : Drawings) (ops : List Submit) :
    (∀ d1 d2, submitAll d ops = some d1 → d1.PreparePending h = some d2 →
      d2.backDraws.length = 0) ∧
    ((∀ v ∈ d.backDraws ++ submitted ops, v.IsValid = true) →
      LiveInstances d.renderPassGroups →
      ∃ d1 d2, submitAll d ops = some d1 ∧ d1.PreparePending h = some d2 ∧
        d2.backDraws.length = 0) := by
  constructor
  · intro d1 d2 _ hp
    rw [PreparePending_backDraws hp]
    rfl
  · intro hv hl
    obtain ⟨d2, hd2⟩ := PreparePending_total (h := h)
      (d := { renderPassGroups := d.renderPassGroups, backDraws := d.backDraws ++ submitted ops })
      hv hl
    refine ⟨_, d2, submitAll_eq d ops, hd2, ?_⟩
    rw [PreparePending_backDraws hd2]
    rfl

/-- C6: Render issues one Draw per RenderPassGroup that has a ShaderDraw, in
group order, with that group's render pass and ShaderDraw list, and none for
the other groups; after them it issues a single BlitTargets over exactly those
render passes when there is at least one, and no BlitTargets otherwise. -/
theorem C6_render_issues_touched_passes (d : Drawings) :
    d.Render =
      (d.renderPassGroups.filter (fun g => decide (g.draws ≠ []))).map
          (fun g => RendererCall.Draw g.renderPass g.draws) ++
        (if d.renderPassGroups.filter (fun g => decide (g.draws ≠ [])) = [] then []
         else [RendererCall.BlitTargets
          ((d.renderPassGroups.filter (fun g => decide (g.draws ≠ []))).map
            (fun g => g.renderPass))]) := by
  unfold Drawings.Render
  by_cases hlen : d.renderPassGroups.length = 0
  · have hnil : d.renderPassGroups = [] := List.length_eq_zero.mp hlen
    simp [hnil]
  · rw [if_neg hlen, renderLoop_eq]
    by_cases hf : d.renderPassGroups.filter (fun g => decide (g.draws ≠ [])) = []
    · simp only [hf]
      simp
    · have hpos : 0 < (List.map (fun g => g.renderPass)
          (d.renderPassGroups.filter (fun g => decide (g.draws ≠ [])))).length := by
        rw [List.length_map]
        exact List.length_pos.mpr hf
      simp only [List.nil_append, gt_iff_lt, hpos, if_true, hf, if_false]

/-- C10: AddDrawing(v) leaves the back buffer equal to the old one followed by
v, AddDrawings(vs) leaves it equal to the old one followed by vs in order, which
is what AddDrawing on each element of vs in turn gives, and both leave the
RenderPassGroup tree unchanged. -/
theorem C10_submit_appends_to_back_buffer (d : Drawings) (v : Drawing) (vs : List Drawing) :
    d.AddDrawing (some v) =
        some { renderPassGroups := d.renderPassGroups, backDraws := d.backDraws ++ [v] } ∧
      d.AddDrawings vs =
        { renderPassGroups := d.renderPassGroups, backDraws := d.backDraws ++ vs } ∧
      addEach d vs = some (d.AddDrawings vs) :=
  ⟨rfl, rfl, addEach_eq d vs⟩

/-- C1, at the end-to-end example: both submission calls and the drain return,
and the back buffer is empty afterwards. -/
theorem C1_drain_empties_buffer_witness :
    (∀ v ∈ NewDrawings.backDraws ++
        submitted [Submit.one (drawingOf 1 10), Submit.many [drawingOf 1 11, drawingOf 2 12]],
        v.IsValid = true) ∧
      LiveInstances NewDrawings.renderPassGroups ∧
      (∃ d1 d2,
        submitAll NewDrawings
            [Submit.one (drawingOf 1 10), Submit.many [drawingOf 1 11, drawingOf 2 12]] = some d1 ∧
          d1.PreparePending heap0 = some d2 ∧ d2.backDraws.length = 0) ∧
      tree0.backDraws.length = 0 :=
  ⟨by decide, by decide,
    (C1_drain_empties_buffer heap0 NewDrawings
      [Submit.one (drawingOf 1 10), Submit.many [drawingOf 1 11, drawingOf 2 12]]).2
      (by decide) (by decide),
    (C1_drain_empties_buffer heap0 NewDrawings
      [Submit.one (drawingOf 1 10), Submit.many [drawingOf 1 11, drawingOf 2 12]]).1
      (NewDrawings.AddDrawings threeDrawings) tree0 (by decide) (by decide)⟩

/-- C3: in every reachable batcher state no two RenderPassGroups have the same
render pass and, within each RenderPassGroup, no two ShaderDraws have the same
material. -/
theorem C3_pass_and_material_keys_unique (d : Drawings) (hr : Reachable d) :
    d.renderPassGroups.Pairwise (fun a b => a.renderPass ≠ b.renderPass) ∧
      ∀ rpg ∈ d.renderPassGroups, rpg.draws.Pairwise (fun a b => a.material ≠ b.material) := by
  obtain ⟨hnd, hall⟩ := reachable_treeOK hr
  refine ⟨List.pairwise_map.mp hnd, ?_⟩
  intro rpg hrpg
  exact List.pairwise_map.mp (hall rpg hrpg).2.1

/-- C3, at the tree built from four drawings over three materials and two render
passes: it has two RenderPassGroups, whose render passes are compared, and its
first group has two ShaderDraws, whose materials are compared. -/
theorem C3_pass_and_material_keys_unique_witness :
    Reachable treeTwoPasses ∧
      treeTwoPasses.renderPassGroups.map (fun g => g.renderPass) = [some 1, some 2] ∧
      treeTwoPasses.renderPassGroups.map (fun g => g.draws.map (fun s => s.material)) =
        [[some 7, some 8], [some 9]] ∧
      treeTwoPasses.renderPassGroups.Pairwise (fun a b => a.renderPass ≠ b.renderPass) ∧
      ∀ rpg ∈ treeTwoPasses.renderPassGroups,
        rpg.draws.Pairwise (fun a b => a.material ≠ b.material) :=
  ⟨Reachable.preparePending heapTwoPasses (Reachable.addDrawings fourDrawings Reachable.init)
      (by decide),
    by decide, by decide,
    C3_pass_and_material_keys_unique treeTwoPasses
      (Reachable.preparePending heapTwoPasses
        (Reachable.addDrawings fourDrawings Reachable.init) (by decide))⟩

/-- C4: in every reachable batcher state, groups marked destroyed between calls
included, no ShaderDraw holds two DrawInstanceGroups with the same mesh,
material instance, blending flag and texture set. -/
theorem C4_instance_group_keys_unique (h : Heap) (d : Drawings) (hr : Reachable d) :
    ∀ rpg ∈ d.renderPassGroups, ∀ sd ∈ rpg.draws,
      sd.instanceGroups.Pairwise (fun a b =>
        ¬ (a.Mesh = b.Mesh ∧ a.MaterialInstance = b.MaterialInstance ∧
            a.useBlending = b.useBlending ∧
            ∀ t, t ∈ groupTextures h a ↔ t ∈ groupTextures h b)) := by
  intro rpg hrpg sd hsd
  obtain ⟨_, _, hkeys⟩ := ((reachable_treeOK hr).2 rpg hrpg).2.2 sd hsd
  refine (List.pairwise_map.mp hkeys).imp ?_
  intro a b hne ⟨hmesh, _, hblend, _⟩
  exact hne (by simp [slotKey, hmesh, hblend])

/-- C4, at the tree of the end-to-end example with its first group marked
destroyed. -/
theorem C4_instance_group_keys_unique_witness :
    Reachable (tree0.markDestroyed 0 0 0) ∧
      ∀ rpg ∈ (tree0.markDestroyed 0 0 0).renderPassGroups, ∀ sd ∈ rpg.draws,
        sd.instanceGroups.Pairwise (fun a b =>
          ¬ (a.Mesh = b.Mesh ∧ a.MaterialInstance = b.MaterialInstance ∧
              a.useBlending = b.useBlending ∧
              ∀ t, t ∈ groupTextures heap0 a ↔ t ∈ groupTextures heap0 b)) :=
  ⟨reachable_tree0_marked,
    C4_instance_group_keys_unique heap0 (tree0.markDestroyed 0 0 0) reachable_tree0_marked⟩

/-- C7: in every reachable batcher state HasDrawings is true exactly when some
RenderPassGroup holds at least one ShaderDraw. -/
theorem C7_hasDrawings_iff_some_draw (d : Drawings) (hr : Reachable d) :
    d.HasDrawings = true ↔ ∃ rpg ∈ d.renderPassGroups, rpg.draws ≠ [] := by
  have hok := reachable_treeOK hr
  unfold Drawings.HasDrawings
  constructor
  · intro hlen
    cases hg : d.renderPassGroups with
    | nil => simp [hg] at hlen
    | cons g gs =>
      have hmem : g ∈ d.renderPassGroups := by simp [hg]
      exact ⟨g, List.mem_cons_self g gs, (hok.2 g hmem).1⟩
  · intro ⟨rpg, hrpg, _⟩
    simp only [gt_iff_lt, decide_eq_true_eq]
    exact List.length_pos_of_mem hrpg

/-- C7, at the tree built from the end-to-end example. -/
theorem C7_hasDrawings_iff_some_draw_witness :
    Reachable tree0 ∧
      (tree0.HasDrawings = true ↔ ∃ rpg ∈ tree0.renderPassGroups, rpg.draws ≠ []) :=
  ⟨reachable_tree0, C7_hasDrawings_iff_some_draw tree0 reachable_tree0⟩

/-- C9 fails as stated: a drawing with a nil material is accepted by AddDrawing,
and the next PreparePending panics on `drawing.Material.renderPass`. -/
theorem C9_nil_material_panics :
    nilMaterialDrawing.IsValid = false ∧
      NewDrawings.AddDrawing (some nilMaterialDrawing) =
        some { renderPassGroups := [], backDraws := [nilMaterialDrawing] } ∧
      Drawings.PreparePending heap0
        { renderPassGroups := [], backDraws := [nilMaterialDrawing] } = none := by
  decide

/-- C9, amended: AddDrawing and AddDrawings complete for every batcher state and
every drawing or list of drawings, and PreparePending completes for every heap
when every buffered drawing is valid and every instance group of the tree has
its material instance set. -/
theorem C9_operations_complete (h : Heap) (d : Drawings) (v : Drawing) (vs : List Drawing) :
    (∃ d2, d.AddDrawing (some v) = some d2) ∧
      (d.AddDrawings vs).backDraws = d.backDraws ++ vs ∧
      ((∀ x ∈ d.backDraws, x.IsValid = true) → LiveInstances d.renderPassGroups →
        ∃ d2, d.PreparePending h = some d2) :=
  ⟨⟨_, rfl⟩, rfl, fun hv hl => PreparePending_total hv hl⟩

/-- C9, amended, at the end-to-end example. -/
theorem C9_operations_complete_witness :
    (∀ x ∈ (NewDrawings.AddDrawings threeDrawings).backDraws, x.IsValid = true) ∧
      LiveInstances (NewDrawings.AddDrawings threeDrawings).renderPassGroups ∧
      ∃ d2, (NewDrawings.AddDrawings threeDrawings).PreparePending heap0 = some d2 :=
  ⟨by decide, by decide,
    (C9_operations_complete heap0 (NewDrawings.AddDrawings threeDrawings) (drawingOf 1 10) []).2.2
      (by decide) (by decide)⟩

/-- C8: for every batcher state and every back buffer, once PreparePending has
returned each buffered drawing's shader data is an instance of a live group with
the drawing's mesh and blending flag, inside the ShaderDraw keyed by the
drawing's material, inside the RenderPassGroup keyed by that material's render
pass; that group holds a ShaderDraw and Render issues its Draw. And
PreparePending does return when the buffered drawings are valid and every
instance group of the tree has its material instance set. -/
theorem C8_buffered_drawings_are_batched (h : Heap) (d : Drawings) :
    (∀ d2, d.PreparePending h = some d2 →
      ∀ v ∈ d.backDraws, ∃ rpg ∈ d2.renderPassGroups,
        rpg.renderPass = v.renderPass h ∧
        (∃ sd ∈ rpg.draws, sd.material = v.Material ∧
          ∃ g ∈ sd.instanceGroups, g.destroyed = false ∧ g.Mesh = v.Mesh ∧
            g.useBlending = v.UseBlending ∧ v.ShaderData ∈ g.Instances) ∧
        rpg.draws.length > 0 ∧
        RendererCall.Draw rpg.renderPass rpg.draws ∈ d2.Render) ∧
    ((∀ v ∈ d.backDraws, v.IsValid = true) → LiveInstances d.renderPassGroups →
      ∃ d2, d.PreparePending h = some d2) := by
  refine ⟨?_, fun hv hl => PreparePending_total hv hl⟩
  intro d2 hd2 v hvmem
  obtain ⟨rpg, hrpg, hrp, sd, hsd, hrest⟩ :=
    prepareAll_places (PreparePending_groups hd2) v hvmem
  have hne : rpg.draws ≠ [] := List.ne_nil_of_mem hsd
  exact ⟨rpg, hrpg, hrp, ⟨sd, hsd, hrest⟩, List.length_pos.mpr hne,
    mem_render_of_draws hrpg hne⟩

/-- C8, at the end-to-end example: the drain returns `tree0`, in which every one
of the three drawings is batched and drawn. -/
theorem C8_buffered_drawings_are_batched_witness :
    (∀ v ∈ (NewDrawings.AddDrawings threeDrawings).backDraws, v.IsValid = true) ∧
      LiveInstances (NewDrawings.AddDrawings threeDrawings).renderPassGroups ∧
      (∃ d2, (NewDrawings.AddDrawings threeDrawings).PreparePending heap0 = some d2) ∧
      (NewDrawings.AddDrawings threeDrawings).PreparePending heap0 = some tree0 ∧
      ∀ v ∈ (NewDrawings.AddDrawings threeDrawings).backDraws, ∃ rpg ∈ tree0.renderPassGroups,
        rpg.renderPass = v.renderPass heap0 ∧
        (∃ sd ∈ rpg.draws, sd.material = v.Material ∧
          ∃ g ∈ sd.instanceGroups, g.destroyed = false ∧ g.Mesh = v.Mesh ∧
            g.useBlending = v.UseBlending ∧ v.ShaderData ∈ g.Instances) ∧
        rpg.draws.length > 0 ∧
        RendererCall.Draw rpg.renderPass rpg.draws ∈ tree0.Render :=
  ⟨by decide, by decide,
    (C8_buffered_drawings_are_batched heap0 (NewDrawings.AddDrawings threeDrawings)).2
      (by decide) (by decide),
    by decide,
    (C8_buffered_drawings_are_batched heap0 (NewDrawings.AddDrawings threeDrawings)).1
      tree0 (by decide)⟩

/-- C5 fails as stated: in the tree of the end-to-end example slot 0 of the
ShaderDraw is marked destroyed, and the buffer holds a drawing of a new mesh `3`
and two drawings of mesh `1` (instances 13 and 14) that match the destroyed slot.
After PreparePending the ShaderDraw has three slots where it had two, and slot 0
holds the group seeded with instance 13 to which 14 was appended, not a group
seeded with the instance of the matching drawing 14. -/
theorem C5_other_buffered_drawings_add_slots :
    deadTreeBuffered.renderPassGroups = [deadPass] ∧ deadPass.draws = [deadDraw] ∧
      deadDraw.instanceGroups[0]? = some deadSlot ∧ deadSlot.destroyed = true ∧
      deadDraw.instanceGroups.length = 2 ∧
      drawingOf 1 14 ∈ deadTreeBuffered.backDraws ∧
      deadSlot.Mesh = (drawingOf 1 14).Mesh ∧
      deadSlot.MaterialInstance = (drawingOf 1 14).Material ∧
      deadSlot.useBlending = (drawingOf 1 14).UseBlending ∧
      deadTreeBuffered.PreparePending heap0 = some treeRefilled ∧
      treeRefilled.renderPassGroups.map
          (fun g => g.draws.map (fun s => s.instanceGroups.length)) = [[3]] ∧
      treeRefilled.renderPassGroups.map (fun g => g.draws.map
          (fun s => (s.instanceGroups[0]?).map (fun x => x.Instances))) = [[some [13, 14]]] ∧
      treeRefilled.renderPassGroups.map (fun g => g.draws.map
          (fun s => s.instanceGroups[0]?)) ≠ [[some (seedGroup heap0 (drawingOf 1 14))]] := by
  decide

/-- C5, amended: in a reachable state, let slot k of a ShaderDraw hold a group
marked destroyed, and let a buffered drawing match it (same mesh, material and
blending flag, the ShaderDraw being that of the drawing's material in the group
of its render pass). Whenever PreparePending returns, the ShaderDraw is where it
was and slot k holds a fresh live group with the drawing's mesh, material and
blending flag whose instances are those of the buffered drawings matching the
slot, in buffer order, the first of them having seeded it; the drawing's instance
is among them; the number of slots has not shrunk, and it is unchanged when every
buffered drawing of that material has the mesh and blending flag of one of the
slots; and every group still marked destroyed after the drain is in its slot as
it was before, so no destroyed group received an instance. When that drawing is
the only one buffered, the drain overwrites slot k with the group seeded with its
instance and changes nothing else. PreparePending does return when the buffered
drawings are valid. -/
theorem C5_destroyed_slot_reused (h : Heap) (d : Drawings) (dg : Drawing) (m i j k : Nat)
    (rpg : RenderPassGroup) (sd : ShaderDraw) (g : DrawInstanceGroup)
    (hr : Reachable d) (hbuf : dg ∈ d.backDraws) (hmat : dg.Material = some m)
    (hi : d.renderPassGroups[i]? = some rpg) (hrp : rpg.renderPass = (h.material m).renderPass)
    (hj : rpg.draws[j]? = some sd) (hsd : sd.material = dg.Material)
    (hk : sd.instanceGroups[k]? = some g) (hdead : g.destroyed = true)
    (hmesh : g.Mesh = dg.Mesh) (hmi : g.MaterialInstance = dg.Material)
    (hblend : g.useBlending = dg.UseBlending) :
    (∀ d2, d.PreparePending h = some d2 →
      ∃ rpg2 sd2 first rest,
        d2.renderPassGroups[i]? = some rpg2 ∧ rpg2.renderPass = rpg.renderPass ∧
        rpg2.draws[j]? = some sd2 ∧ sd2.material = sd.material ∧
        d.backDraws.filter (fun v => decide (v.Material = dg.Material ∧ v.Mesh = dg.Mesh ∧
          v.UseBlending = dg.UseBlending)) = first :: rest ∧
        sd2.instanceGroups[k]? =
          some { Mesh := dg.Mesh, MaterialInstance := dg.Material,
                 Instances := (first :: rest).map (fun v => v.ShaderData),
                 instanceSize := h.dataSize first.ShaderData,
                 useBlending := dg.UseBlending, destroyed := false } ∧
        dg.ShaderData ∈ (first :: rest).map (fun v => v.ShaderData) ∧
        sd.instanceGroups.length ≤ sd2.instanceGroups.length ∧
        ((∀ v ∈ d.backDraws, v.Material = dg.Material →
            ∃ a ∈ sd.instanceGroups, a.Mesh = v.Mesh ∧ a.useBlending = v.UseBlending) →
          sd2.instanceGroups.length = sd.instanceGroups.length) ∧
        (∀ (k2 : Nat) (g2 : DrawInstanceGroup), sd2.instanceGroups[k2]? = some g2 →
          g2.destroyed = true → sd.instanceGroups[k2]? = some g2)) ∧
    (d.backDraws = [dg] →
      d.PreparePending h = some
          { renderPassGroups := d.renderPassGroups.set i
              { renderPass := rpg.renderPass,
                draws := rpg.draws.set j
                  { material := sd.material,
                    instanceGroups := sd.instanceGroups.set k (seedGroup h dg) } },
            backDraws := [] } ∧
        (seedGroup h dg).destroyed = false ∧
        (seedGroup h dg).Instances = [dg.ShaderData] ∧
        (seedGroup h dg).Mesh = dg.Mesh ∧
        (seedGroup h dg).MaterialInstance = dg.Material ∧
        (seedGroup h dg).useBlending = dg.UseBlending ∧
        (sd.instanceGroups.set k (seedGroup h dg)).length = sd.instanceGroups.length ∧
        g.AddInstance dg.ShaderData ∉ sd.instanceGroups.set k (seedGroup h dg)) ∧
    ((∀ v ∈ d.backDraws, v.IsValid = true) → ∃ d2, d.PreparePending h = some d2) := by
  have hok := reachable_treeOK hr
  refine ⟨?_, fun hlone => preparePending_lone_on_destroyed h d dg m i j k rpg sd g hr hlone hmat
    hi hrp hj hsd hk hdead hmesh hmi hblend, fun hv => PreparePending_total hv (treeOK_live hok)⟩
  intro d2 hd2
  obtain ⟨rpg2, sd2, hi2, hrp2, hj2, hsd2, hrun⟩ :=
    prepareAll_focus d.backDraws d.renderPassGroups d2.renderPassGroups i j rpg sd hok hi hj
      (hsd.trans hmat) hrp (PreparePending_groups hd2)
  obtain ⟨_, hinst, hkeys⟩ := (hok.2 rpg (List.getElem?_mem hi)).2.2 sd (List.getElem?_mem hj)
  have hmiM : ∀ a ∈ sd.instanceGroups, a.MaterialInstance = some m :=
    fun a ha => (hinst a ha).trans (hsd.trans hmat)
  have hat := hrun.run_at_slot hmiM hkeys hk
  have hfilter : d.backDraws.filter
        (fun v => decide (v.Material = some m ∧ drawKey v = slotKey g)) =
      d.backDraws.filter (fun v => decide (v.Material = dg.Material ∧ v.Mesh = dg.Mesh ∧
        v.UseBlending = dg.UseBlending)) := by
    apply List.filter_congr
    intro v _
    simp [drawKey, slotKey, hmat, hmesh, hblend]
  rw [hfilter] at hat
  have hmem : dg ∈ d.backDraws.filter (fun v => decide (v.Material = dg.Material ∧
      v.Mesh = dg.Mesh ∧ v.UseBlending = dg.UseBlending)) := by
    simp [List.mem_filter, hbuf]
  cases hfl : d.backDraws.filter (fun v => decide (v.Material = dg.Material ∧
      v.Mesh = dg.Mesh ∧ v.UseBlending = dg.UseBlending)) with
  | nil => rw [hfl] at hmem; exact absurd hmem (by simp)
  | cons first rest =>
    have hfirst : first ∈ d.backDraws.filter (fun v => decide (v.Material = dg.Material ∧
        v.Mesh = dg.Mesh ∧ v.UseBlending = dg.UseBlending)) := by rw [hfl]; simp
    obtain ⟨_, hf⟩ := List.mem_filter.mp hfirst
    simp only [decide_eq_true_eq] at hf
    obtain ⟨hf1, hf2, hf3⟩ := hf
    refine ⟨rpg2, sd2, first, rest, hi2, hrp2, hj2, hsd2, rfl, ?_, ?_, hrun.run_length_le, ?_,
      fun k2 g2 hk2 hd => hrun.run_destroyed_kept hk2 hd⟩
    · rw [hat, hfl, List.foldl_cons]
      have hr1 : refill h g first = seedGroup h first := by simp [refill, hdead]
      rw [hr1, foldl_refill_live h rest _ rfl]
      simp [seedGroup, NewDrawInstanceGroup, DrawInstanceGroup.AddInstance, hf1, hf2, hf3]
    · rw [← hfl]
      exact List.mem_map.mpr ⟨dg, hmem, rfl⟩
    · intro hall
      refine hrun.run_length_eq hmiM hkeys ?_
      intro v hv hvm
      obtain ⟨a, ha, hm1, hb1⟩ := hall v hv (hvm.trans hmat.symm)
      exact ⟨a, ha, by simp [slotKey, drawKey, hm1, hb1]⟩

/-- C5, amended, at the tree of the end-to-end example with the group of mesh `1`
marked destroyed: with a drawing of a new mesh and two drawings of mesh `1`
buffered, slot 0 holds a fresh group with the instances 13 and 14, taken for the
second matching drawing; with one drawing of mesh `1` buffered, slot 0 is
overwritten by a fresh group holding instance `13` alone. -/
theorem C5_destroyed_slot_reused_witness :
    Reachable deadTreeBuffered ∧ drawingOf 1 14 ∈ deadTreeBuffered.backDraws ∧
      deadTreeBuffered.renderPassGroups[0]? = some deadPass ∧
      deadPass.draws[0]? = some deadDraw ∧
      deadDraw.instanceGroups[0]? = some deadSlot ∧
      deadSlot.destroyed = true ∧
      deadTreeBuffered.PreparePending heap0 = some treeRefilled ∧
      (∃ rpg2 sd2 first rest,
        treeRefilled.renderPassGroups[0]? = some rpg2 ∧ rpg2.renderPass = deadPass.renderPass ∧
        rpg2.draws[0]? = some sd2 ∧ sd2.material = deadDraw.material ∧
        deadTreeBuffered.backDraws.filter (fun v => decide (v.Material = (drawingOf 1 14).Material ∧
          v.Mesh = (drawingOf 1 14).Mesh ∧ v.UseBlending = (drawingOf 1 14).UseBlending)) =
            first :: rest ∧
        sd2.instanceGroups[0]? =
          some { Mesh := (drawingOf 1 14).Mesh, MaterialInstance := (drawingOf 1 14).Material,
                 Instances := (first :: rest).map (fun v => v.ShaderData),
                 instanceSize := heap0.dataSize first.ShaderData,
                 useBlending := (drawingOf 1 14).UseBlending, destroyed := false } ∧
        (drawingOf 1 14).ShaderData ∈ (first :: rest).map (fun v => v.ShaderData) ∧
        deadDraw.instanceGroups.length ≤ sd2.instanceGroups.length ∧
        ((∀ v ∈ deadTreeBuffered.backDraws, v.Material = (drawingOf 1 14).Material →
            ∃ a ∈ deadDraw.instanceGroups, a.Mesh = v.Mesh ∧ a.useBlending = v.UseBlending) →
          sd2.instanceGroups.length = deadDraw.instanceGroups.length) ∧
        (∀ (k2 : Nat) (g2 : DrawInstanceGroup), sd2.instanceGroups[k2]? = some g2 →
          g2.destroyed = true → deadDraw.instanceGroups[k2]? = some g2)) ∧
      Reachable ((tree0.markDestroyed 0 0 0).AddDrawings [drawingOf 1 13]) ∧
      ((tree0.markDestroyed 0 0 0).AddDrawings [drawingOf 1 13]).PreparePending heap0 =
        some
          { renderPassGroups :=
              [{ renderPass := some 1,
                 draws :=
                  [{ material := some 7,
                     instanceGroups :=
                      [{ Mesh := some 1, MaterialInstance := some 7, Instances := [13],
                         instanceSize := 64, useBlending := false, destroyed := false },
                       { Mesh := some 2, MaterialInstance := some 7, Instances := [12],
                         instanceSize := 64, useBlending := false, destroyed := false }] }] }],
            backDraws := [] } :=
  ⟨Reachable.addDrawings [drawingOf 3 20, drawingOf 1 13, drawingOf 1 14] reachable_tree0_marked,
    by decide, by decide, by decide, by decide, by decide, by decide,
    (C5_destroyed_slot_reused heap0 deadTreeBuffered (drawingOf 1 14) 7 0 0 0 deadPass deadDraw
      deadSlot
      (Reachable.addDrawings [drawingOf 3 20, drawingOf 1 13, drawingOf 1 14]
        reachable_tree0_marked)
      (by decide) (by decide) (by decide) (by decide) (by decide) (by decide) (by decide)
      (by decide) (by decide) (by decide) (by decide)).1 treeRefilled (by decide),
    Reachable.addDrawings [drawingOf 1 13] reachable_tree0_marked,
    ((C5_destroyed_slot_reused heap0 ((tree0.markDestroyed 0 0 0).AddDrawings [drawingOf 1 13])
      (drawingOf 1 13) 7 0 0 0 deadPass deadDraw deadSlot
      (Reachable.addDrawings [drawingOf 1 13] reachable_tree0_marked)
      (by decide) (by decide) (by decide) (by decide) (by decide) (by decide) (by decide)
      (by decide) (by decide) (by decide) (by decide)).2.1 (by decide)).1⟩

/-- C2 fails as stated: the empty list is a list of drawings that all use
material `7`, and after submitting it and draining there is no RenderPassGroup
at all. -/
theorem C2_empty_list_builds_nothing :
    (∀ v ∈ ([] : List Drawing), v.Material = some 7) ∧
      (NewDrawings.AddDrawings []).PreparePending heap0 =
        some { renderPassGroups := [], backDraws := [] } ∧
      ¬ (∃ d2, (NewDrawings.AddDrawings []).PreparePending heap0 = some d2 ∧
          d2.renderPassGroups.length = 1) := by
  refine ⟨by simp, by decide, ?_⟩
  intro ⟨d2, hd2, hlen⟩
  have hsome : (NewDrawings.AddDrawings []).PreparePending heap0 =
      some { renderPassGroups := [], backDraws := [] } := by decide
  rw [hsome, Option.some.injEq] at hd2
  subst hd2
  simp at hlen

/-- C2, amended: starting from NewDrawings, for every non-empty list of drawings
that all use one non-nil material x, after submitting them and draining there
is exactly one RenderPassGroup (that of x's render pass) with exactly one
ShaderDraw (keyed by x), whose live instance groups have pairwise different
(mesh, blending flag) pairs, one for each pair occurring in the list and no
other, each holding the instances of the drawings with that pair, in order, and
so as many instances as the list has drawings with that pair. -/
theorem C2_single_material_batches (h : Heap) (x : Nat) (ds : List Drawing) (hne : ds ≠ [])
    (hx : ∀ v ∈ ds, v.Material = some x) :
    ∃ sd, (NewDrawings.AddDrawings ds).PreparePending h =
        some { renderPassGroups := [{ renderPass := (h.material x).renderPass, draws := [sd] }],
               backDraws := [] } ∧
      sd.material = some x ∧
      sd.instanceGroups.Pairwise
        (fun a b => ¬ (a.Mesh = b.Mesh ∧ a.useBlending = b.useBlending)) ∧
      (∀ v ∈ ds, ∃ g ∈ sd.instanceGroups, g.Mesh = v.Mesh ∧ g.useBlending = v.UseBlending) ∧
      ∀ g ∈ sd.instanceGroups,
        g.destroyed = false ∧
        (∃ v ∈ ds, g.Mesh = v.Mesh ∧ g.useBlending = v.UseBlending) ∧
        g.Instances =
          (ds.filter (fun v => decide (v.Mesh = g.Mesh ∧ v.UseBlending = g.useBlending))).map
            (fun v => v.ShaderData) ∧
        g.Instances.length =
          ds.countP (fun v => decide (v.Mesh = g.Mesh ∧ v.UseBlending = g.useBlending)) := by
  cases ds with
  | nil => exact absurd rfl hne
  | cons v rest =>
    have hv : v.Material = some x := hx v (List.mem_cons_self v rest)
    obtain ⟨sd, hall, hmat, hnd, hcov, hslots⟩ :=
      prepareAll_single (h := h) rest [v]
        { material := some x, instanceGroups := [seedGroup h v] } rfl (slotInv_seed h hv)
        (fun u hu => hx u (List.mem_cons_of_mem v hu))
    have hfilter : ∀ g : DrawInstanceGroup,
        (v :: rest).filter (fun u => decide (drawKey u = slotKey g)) =
          (v :: rest).filter
            (fun u => decide (u.Mesh = g.Mesh ∧ u.UseBlending = g.useBlending)) := by
      intro g
      apply List.filter_congr
      intro u _
      simp [drawKey, slotKey]
    refine ⟨sd, ?_, hmat, ?_, ?_, ?_⟩
    · unfold Drawings.PreparePending
      simp only [Drawings.AddDrawings, NewDrawings, List.nil_append, prepareAll,
        prepareOne_empty h hv, hall]
    · refine (List.pairwise_map.mp hnd).imp ?_
      intro a b hab ⟨h1, h2⟩
      exact hab (by simp [slotKey, h1, h2])
    · intro u hu
      obtain ⟨g, hg, hkg⟩ := hcov u (by simpa using hu)
      simp only [slotKey, drawKey, Prod.mk.injEq] at hkg
      exact ⟨g, hg, hkg⟩
    · intro g hg
      obtain ⟨_, hlive, ⟨u, hu, hku⟩, hinst⟩ := hslots g hg
      simp only [slotKey, drawKey, Prod.mk.injEq] at hku
      have hinst2 : g.Instances =
          ((v :: rest).filter
            (fun u => decide (u.Mesh = g.Mesh ∧ u.UseBlending = g.useBlending))).map
            (fun u => u.ShaderData) := by
        rw [← hfilter g]
        simpa using hinst
      refine ⟨hlive, ⟨u, by simpa using hu, hku⟩, hinst2, ?_⟩
      rw [hinst2, List.length_map, List.countP_eq_length_filter]

/-- C2, amended, at the end-to-end example: two drawings of mesh `1` and one of
mesh `2` with material `7` give one RenderPassGroup, one ShaderDraw and two
instance groups, with 2 and 1 instances. -/
theorem C2_single_material_batches_witness :
    threeDrawings ≠ [] ∧ (∀ v ∈ threeDrawings, v.Material = some 7) ∧
      (NewDrawings.AddDrawings threeDrawings).PreparePending heap0 = some tree0 ∧
      (tree0.renderPassGroups.map (fun g => g.draws.map
        (fun s => s.instanceGroups.map (fun x => x.Instances.length)))) = [[[2, 1]]] ∧
      ∃ sd, (NewDrawings.AddDrawings threeDrawings).PreparePending heap0 =
          some { renderPassGroups :=
                  [{ renderPass := (heap0.material 7).renderPass, draws := [sd] }],
                 backDraws := [] } ∧
        sd.material = some 7 ∧
        sd.instanceGroups.Pairwise
          (fun a b => ¬ (a.Mesh = b.Mesh ∧ a.useBlending = b.useBlending)) ∧
        (∀ v ∈ threeDrawings,
          ∃ g ∈ sd.instanceGroups, g.Mesh = v.Mesh ∧ g.useBlending = v.UseBlending) ∧
        ∀ g ∈ sd.instanceGroups,
          g.destroyed = false ∧
          (∃ v ∈ threeDrawings, g.Mesh = v.Mesh ∧ g.useBlending = v.UseBlending) ∧
          g.Instances =
            (threeDrawings.filter
              (fun v => decide (v.Mesh = g.Mesh ∧ v.UseBlending = g.useBlending))).map
              (fun v => v.ShaderData) ∧
          g.Instances.length =
            threeDrawings.countP
              (fun v => decide (v.Mesh = g.Mesh ∧ v.UseBlending = g.useBlending)) :=
  ⟨by decide, by decide, by decide, by decide,
    C2_single_material_batches heap0 7 threeDrawings (by decide) (by decide)⟩

/-- C11: PreparePending never removes or reorders groups. Whatever the state and
the buffer, once it has returned the render-pass keys before the call are a
prefix of those after it, the RenderPassGroup at each position keeps its
position and the materials of its ShaderDraws before are a prefix of those
after, and the ShaderDraw at each position keeps its position and has at least
as many slots as before. It does return when the buffered drawings are valid
and every instance group has its material instance set. -/
theorem C11_groups_stay_in_place (h : Heap) (d : Drawings) :
    (∀ d2, d.PreparePending h = some d2 →
      d.renderPassGroups.map (fun g => g.renderPass) <+:
          d2.renderPassGroups.map (fun g => g.renderPass) ∧
        ∀ (i : Nat) (rpg : RenderPassGroup), d.renderPassGroups[i]? = some rpg →
          ∃ rpg2 : RenderPassGroup, d2.renderPassGroups[i]? = some rpg2 ∧
            rpg.draws.map (fun s => s.material) <+: rpg2.draws.map (fun s => s.material) ∧
            ∀ (j : Nat) (sd : ShaderDraw), rpg.draws[j]? = some sd →
              ∃ sd2 : ShaderDraw, rpg2.draws[j]? = some sd2 ∧
                sd.instanceGroups.length ≤ sd2.instanceGroups.length) ∧
    ((∀ v ∈ d.backDraws, v.IsValid = true) → LiveInstances d.renderPassGroups →
      ∃ d2, d.PreparePending h = some d2) := by
  refine ⟨?_, fun hv hl => PreparePending_total hv hl⟩
  intro d2 hd2
  have hk := prepareAll_keepsInPlace (PreparePending_groups hd2)
  refine ⟨keepsInPlace_map_leading (fun g => g.renderPass)
    (keepsInPlace_mono (fun a b hab => hab.1) hk), ?_⟩
  intro i rpg hi
  obtain ⟨rpg2, hi2, _, hdraws⟩ := hk i rpg hi
  refine ⟨rpg2, hi2, keepsInPlace_map_leading (fun s => s.material)
    (keepsInPlace_mono (fun a b hab => hab.1) hdraws), ?_⟩
  intro j sd hj
  obtain ⟨sd2, hj2, _, hlen⟩ := hdraws j sd hj
  exact ⟨sd2, hj2, hlen⟩

/-- C11, at the tree of the end-to-end example with a drawing of a new mesh and
one more of mesh `1` buffered. -/
theorem C11_groups_stay_in_place_witness :
    (∀ v ∈ (tree0.AddDrawings [drawingOf 3 14, drawingOf 1 15]).backDraws, v.IsValid = true) ∧
      LiveInstances (tree0.AddDrawings [drawingOf 3 14, drawingOf 1 15]).renderPassGroups ∧
      (∃ d2, (tree0.AddDrawings [drawingOf 3 14, drawingOf 1 15]).PreparePending heap0 =
        some d2) ∧
      ∃ d2, (tree0.AddDrawings [drawingOf 3 14, drawingOf 1 15]).PreparePending heap0 = some d2 ∧
        tree0.renderPassGroups.map (fun g => g.renderPass) <+:
          d2.renderPassGroups.map (fun g => g.renderPass) ∧
        ∀ (i : Nat) (rpg : RenderPassGroup), tree0.renderPassGroups[i]? = some rpg →
          ∃ rpg2 : RenderPassGroup, d2.renderPassGroups[i]? = some rpg2 ∧
            rpg.draws.map (fun s => s.material) <+: rpg2.draws.map (fun s => s.material) ∧
            ∀ (j : Nat) (sd : ShaderDraw), rpg.draws[j]? = some sd →
              ∃ sd2 : ShaderDraw, rpg2.draws[j]? = some sd2 ∧
                sd.instanceGroups.length ≤ sd2.instanceGroups.length :=
  ⟨by decide, by decide,
    (C11_groups_stay_in_place heap0 (tree0.AddDrawings [drawingOf 3 14, drawingOf 1 15])).2
      (by decide) (by decide),
    ⟨{ renderPassGroups := (prepareAll heap0 tree0.renderPassGroups
          [drawingOf 3 14, drawingOf 1 15]).getD [],
       backDraws := [] }, by decide,
      (C11_groups_stay_in_place heap0 (tree0.AddDrawings [drawingOf 3 14, drawingOf 1 15])).1
        _ (by decide)⟩⟩

/-- C12: Destroy calls `Destroy(renderer)` once on every ShaderDraw of every
RenderPassGroup, in order, and leaves the group list empty (the back buffer as
it was), so that afterwards HasDrawings is false and Render issues no call; a
second Destroy issues no release call and leaves the state unchanged. -/
theorem C12_destroy_releases_every_draw (d : Drawings) (renderer renderer2 : Ptr) :
    (d.Destroy renderer).2 =
        (d.renderPassGroups.flatMap (fun g => g.draws)).map
          (RendererCall.DestroyDraw renderer) ∧
      (d.Destroy renderer).1.renderPassGroups = [] ∧
      (d.Destroy renderer).1.backDraws = d.backDraws ∧
      (d.Destroy renderer).1.HasDrawings = false ∧
      (d.Destroy renderer).1.Render = [] ∧
      (d.Destroy renderer).1.Destroy renderer2 = ((d.Destroy renderer).1, []) := by
  refine ⟨?_, rfl, rfl, rfl, rfl, rfl⟩
  unfold Drawings.Destroy
  rw [destroyGroups_eq]
  rfl

/-- C13 fails as stated: `texturesMatch` accepts `[1, 1]` against `[1, 2]`, which
do not hold the same elements, and rejects `[1]` against `[1, 1]`, which do. -/
theorem C13_duplicates_break_set_equality :
    texturesMatch [some 1, some 1] [some 1, some 2] = true ∧
      ¬ (∀ t, t ∈ [some 1, some 1] ↔ t ∈ [some 1, some 2]) ∧
      texturesMatch [some 1] [some 1, some 1] = false ∧
      (∀ t, t ∈ [some 1] ↔ t ∈ [some 1, some 1]) := by
  refine ⟨by decide, ?_, by decide, by simp⟩
  intro hall
  have := (hall (some 2)).mpr (by simp)
  simp at this

/-- C13, amended: `texturesMatch(a, b)` is true exactly when `a` and `b` have the
same length and every element of `a` occurs in `b`; for lists without repeated
elements this is equality of `a` and `b` as sets. -/
theorem C13_texturesMatch_length_and_subset (a b : List Ptr) :
    (texturesMatch a b = true ↔ a.length = b.length ∧ ∀ t ∈ a, t ∈ b) ∧
      (a.Nodup → b.Nodup → (texturesMatch a b = true ↔ ∀ t, t ∈ a ↔ t ∈ b)) :=
  ⟨texturesMatch_iff a b, fun ha hb => texturesMatch_nodup_iff ha hb⟩

/-- C13, amended, at two orderings of the textures `1` and `2`. -/
theorem C13_texturesMatch_length_and_subset_witness :
    [some 1, some 2].Nodup ∧ [some 2, some 1].Nodup ∧
      texturesMatch [some 1, some 2] [some 2, some 1] = true ∧
      (texturesMatch [some 1, some 2] [some 2, some 1] = true ↔
        ∀ t, t ∈ [some 1, some 2] ↔ t ∈ [some 2, some 1]) :=
  ⟨by decide, by decide, by decide,
    (C13_texturesMatch_length_and_subset [some 1, some 2] [some 2, some 1]).2
      (by decide) (by decide)⟩

/-- C14 fails as stated: `matchGroup` selects the live group of the variant
material `8` for a drawing of its root material `7`, although their texture
lists share no element (`texturesMatch` is false on them), and PreparePending
appends the drawing's instance to that group. -/
theorem C14_variant_group_selected_despite_textures :
    matchGroup heapVariant variantDraw (drawingOf 1 11) = some 0 ∧
      (variantDraw.instanceGroups.map (fun g => (g.destroyed, groupTextures heapVariant g))) =
        [(false, [some 100])] ∧
      (drawingOf 1 11).textures heapVariant = [some 200] ∧
      texturesMatch [some 100] [some 200] = false ∧
      ¬ (∀ t, t ∈ [some 100] ↔ t ∈ [some 200]) ∧
      Drawings.PreparePending heapVariant
          { renderPassGroups := [{ renderPass := some 1, draws := [variantDraw] }],
            backDraws := [drawingOf 1 11] } =
        some { renderPassGroups :=
                [{ renderPass := some 1,
                   draws :=
                    [{ material := some 7,
                       instanceGroups :=
                        [{ Mesh := some 1, MaterialInstance := some 8, Instances := [10, 11],
                           instanceSize := 64, useBlending := false, destroyed := false }] }] }],
               backDraws := [] } := by
  refine ⟨by decide, by decide, by decide, by decide, ?_, by decide⟩
  intro hall
  have := (hall (some 100)).mp (by simp)
  simp at this

/-- C14, amended: whenever `matchGroup` selects a group for a drawing, the group
has the drawing's mesh and blending flag and its material instance is the
drawing's material or a variant whose root is that material; textures are not
compared. When the instance is the drawing's material itself, as for every group
of a well-grouped ShaderDraw keyed by that material, the group's textures are
those of the drawing's material. -/
theorem C14_selected_group_matches_by_material (h : Heap) (sd : ShaderDraw) (dg : Drawing)
    (idx : Int) (g : DrawInstanceGroup) (hm : matchGroup h sd dg = some idx) (hnn : 0 ≤ idx)
    (hg : sd.instanceGroups[idx.toNat]? = some g) :
    g.Mesh = dg.Mesh ∧ g.useBlending = dg.UseBlending ∧
      (g.MaterialInstance = dg.Material ∨
        ∃ m, g.MaterialInstance = some m ∧ (h.material m).Root = dg.Material) ∧
      (g.MaterialInstance = dg.Material → groupTextures h g = dg.textures h) ∧
      (DrawOK sd → sd.material = dg.Material → groupTextures h g = dg.textures h) := by
  obtain ⟨hmem, hgm⟩ := matchGroup_selected hm hnn hg
  obtain ⟨hmesh, hblend⟩ := groupMatches_true hgm
  have htex : g.MaterialInstance = dg.Material → groupTextures h g = dg.textures h := by
    intro hmi
    unfold groupTextures Drawing.textures
    rw [hmi]
  exact ⟨hmesh, hblend, groupMatches_material hgm, htex,
    fun hok hsd => htex ((hok.1 g hmem).trans hsd)⟩

/-- C14, amended, at the ShaderDraw of the end-to-end example and one more
drawing of mesh `2`. -/
theorem C14_selected_group_matches_by_material_witness :
    matchGroup heap0 deadDraw (drawingOf 2 13) = some 1 ∧
      groupTextures heap0
          { Mesh := some 2, MaterialInstance := some 7, Instances := [12],
            instanceSize := 64, useBlending := false, destroyed := false } =
        (drawingOf 2 13).textures heap0 :=
  ⟨by decide,
    (C14_selected_group_matches_by_material heap0 deadDraw (drawingOf 2 13) 1
      { Mesh := some 2, MaterialInstance := some 7, Instances := [12],
        instanceSize := 64, useBlending := false, destroyed := false }
      (by decide) (by decide) (by decide)).2.2.2.1 (by decide)⟩

/-- C15 fails as stated: when the key is already cached, AddMaterial of two
materials with that key returns the cached instance both times and the pending
list does not grow at all. -/
theorem C15_cached_key_adds_nothing :
    (heap0.material 2).key = (heap0.material 3).key ∧
      cacheOfOne.AddMaterial heap0 (some 2) = some (cacheOfOne, some 1) ∧
      cacheOfOne.AddMaterial heap0 (some 3) = some (cacheOfOne, some 1) ∧
      cacheOfOne.pendingMaterials.length = 1 := by
  decide

/-- C15, amended: for every cache state and materials m, m2 with the same key,
AddMaterial(m) returns the instance already cached under that key if there is
one and otherwise m itself, and appends m to the pending list only when the key
was absent; AddMaterial(m2) then returns the same instance and leaves the cache
unchanged; across both calls the pending list grows by exactly one when the key
was absent before the first call and not at all when it was cached. -/
theorem C15_addMaterial_idempotent (h : Heap) (c : MaterialCache) (a a2 : Nat)
    (hk : (h.material a2).key = (h.material a).key) :
    ∃ c1 r1, c.AddMaterial h (some a) = some (c1, r1) ∧
      r1 = (mapGet (h.material a).key c.materials).getD (some a) ∧
      (mapGet (h.material a).key c.materials = none →
        c1.pendingMaterials = c.pendingMaterials ++ [some a]) ∧
      (mapGet (h.material a).key c.materials ≠ none → c1 = c) ∧
      c1.AddMaterial h (some a2) = some (c1, r1) ∧
      c1.pendingMaterials.length =
        c.pendingMaterials.length +
          (if mapGet (h.material a).key c.materials = none then 1 else 0) := by
  cases hget : mapGet (h.material a).key c.materials with
  | none =>
    refine ⟨{ renderer := c.renderer, assetDatabase := c.assetDatabase,
              materials := mapSet (h.material a).key (some a) c.materials,
              pendingMaterials := c.pendingMaterials ++ [some a] }, some a,
      by simp only [MaterialCache.AddMaterial, hget], rfl, fun _ => rfl,
      fun hne => absurd rfl hne, ?_, by simp⟩
    simp only [MaterialCache.AddMaterial, hk, mapGet_mapSet_self]
  | some found =>
    refine ⟨c, found, by simp only [MaterialCache.AddMaterial, hget], rfl,
      fun hx => by simp at hx, fun _ => rfl, ?_, by simp⟩
    simp only [MaterialCache.AddMaterial, hk, hget]

/-- C15, amended, at an empty cache and two materials with the key `"basic"`. -/
theorem C15_addMaterial_idempotent_witness :
    (heap0.material 2).key = (heap0.material 1).key ∧
      ∃ c1 r1, (NewMaterialCache (some 0) (some 0)).AddMaterial heap0 (some 1) = some (c1, r1) ∧
        r1 = (mapGet (heap0.material 1).key
          (NewMaterialCache (some 0) (some 0)).materials).getD (some 1) ∧
        (mapGet (heap0.material 1).key (NewMaterialCache (some 0) (some 0)).materials = none →
          c1.pendingMaterials =
            (NewMaterialCache (some 0) (some 0)).pendingMaterials ++ [some 1]) ∧
        (mapGet (heap0.material 1).key (NewMaterialCache (some 0) (some 0)).materials ≠ none →
          c1 = NewMaterialCache (some 0) (some 0)) ∧
        c1.AddMaterial heap0 (some 2) = some (c1, r1) ∧
        c1.pendingMaterials.length =
          (NewMaterialCache (some 0) (some 0)).pendingMaterials.length +
            (if mapGet (heap0.material 1).key
                (NewMaterialCache (some 0) (some 0)).materials = none then 1 else 0) :=
  ⟨by decide,
    C15_addMaterial_idempotent heap0 (NewMaterialCache (some 0) (some 0)) 1 2 (by decide)⟩

/-- C16: when the name is not cached and compilation succeeds, two calls of
Material with the same data return the same material, the one the compiler
produced, both without error; the compiler is called exactly once over the two
calls, and the pending list grows by exactly that one material. -/
theorem C16_material_compiles_once (c : MaterialCache) (compile compile2 : Compiler)
    (md : MaterialData) (hmiss : mapGet md.Name c.materials = none)
    (hok : (compile { data := md, assetDatabase := c.assetDatabase,
                      renderer := c.renderer }).2 = none) :
    (c.Material compile md).material =
        (compile { data := md, assetDatabase := c.assetDatabase, renderer := c.renderer }).1 ∧
      (c.Material compile md).err = none ∧
      ((c.Material compile md).cache.Material compile2 md).material =
        (c.Material compile md).material ∧
      ((c.Material compile md).cache.Material compile2 md).err = none ∧
      (c.Material compile md).compiled ++
          ((c.Material compile md).cache.Material compile2 md).compiled =
        [{ data := md, assetDatabase := c.assetDatabase, renderer := c.renderer }] ∧
      ((c.Material compile md).cache.Material compile2 md).cache.pendingMaterials =
        c.pendingMaterials ++ [(c.Material compile md).material] ∧
      ((c.Material compile md).cache.Material compile2 md).cache.pendingMaterials.length =
        c.pendingMaterials.length + 1 := by
  rw [material_of_compile_success c compile md hmiss hok]
  simp only
  rw [material_of_cached _ compile2 md _ (mapGet_mapSet_self _ _ _)]
  simp

/-- C16, at an empty cache and a compiler that yields material `5`. -/
theorem C16_material_compiles_once_witness :
    mapGet litData.Name (NewMaterialCache (some 0) (some 0)).materials = none ∧
      ((NewMaterialCache (some 0) (some 0)).Material workingCompiler litData).material = some 5 ∧
      (((NewMaterialCache (some 0) (some 0)).Material workingCompiler litData).cache.Material
          failingCompiler litData).material = some 5 ∧
      (((NewMaterialCache (some 0) (some 0)).Material workingCompiler litData).cache.Material
          failingCompiler litData).cache.pendingMaterials.length = 1 :=
  ⟨by decide,
    (C16_material_compiles_once (NewMaterialCache (some 0) (some 0)) workingCompiler
      failingCompiler litData (by decide) (by decide)).1,
    by decide,
    (C16_material_compiles_once (NewMaterialCache (some 0) (some 0)) workingCompiler
      failingCompiler litData (by decide) (by decide)).2.2.2.2.2.2⟩

/-- C17, the code at a failing compilation: the name is not cached, the compiler
reports an error, and Material hands back a nil material together with a nil
error (`return nil, nil` at material_cache.go:52). -/
theorem C17_compile_failure_returns_nil_error :
    mapGet litData.Name (NewMaterialCache (some 0) (some 0)).materials = none ∧
      (failingCompiler { data := litData, assetDatabase := some 0, renderer := some 0 }).2 =
        some "compile failed" ∧
      ((NewMaterialCache (some 0) (some 0)).Material failingCompiler litData).material = none ∧
      ((NewMaterialCache (some 0) (some 0)).Material failingCompiler litData).err = none := by
  decide

/-- C18: when the name is not cached and compilation fails, Material leaves the
cache, its map and its pending list exactly as they were; a later Material call
with the same data calls the compiler again, and FindMaterial on that name
still reports not found. -/
theorem C18_compile_failure_leaves_cache (c : MaterialCache) (compile compile2 : Compiler)
    (md : MaterialData) (hmiss : mapGet md.Name c.materials = none)
    (hfail : (compile { data := md, assetDatabase := c.assetDatabase,
                        renderer := c.renderer }).2 ≠ none) :
    (c.Material compile md).cache = c ∧
      (c.Material compile md).cache.materials = c.materials ∧
      (c.Material compile md).cache.pendingMaterials = c.pendingMaterials ∧
      ((c.Material compile md).cache.Material compile2 md).compiled =
        [{ data := md, assetDatabase := c.assetDatabase, renderer := c.renderer }] ∧
      (c.Material compile md).cache.FindMaterial md.Name = (none, false) := by
  rw [material_of_compile_failure c compile md hmiss hfail]
  refine ⟨rfl, rfl, rfl, ?_, ?_⟩
  · simp only [MaterialCache.Material, hmiss]
    split <;> rfl
  · simp only [MaterialCache.FindMaterial, hmiss]

/-- C18, at the cache holding material `1` and the blueprint `"lit"`. -/
theorem C18_compile_failure_leaves_cache_witness :
    mapGet litData.Name cacheOfOne.materials = none ∧
      (failingCompiler { data := litData, assetDatabase := cacheOfOne.assetDatabase,
                         renderer := cacheOfOne.renderer }).2 ≠ none ∧
      (cacheOfOne.Material failingCompiler litData).cache = cacheOfOne ∧
      (cacheOfOne.Material failingCompiler litData).cache.materials = cacheOfOne.materials ∧
      (cacheOfOne.Material failingCompiler litData).cache.pendingMaterials =
        cacheOfOne.pendingMaterials ∧
      ((cacheOfOne.Material failingCompiler litData).cache.Material workingCompiler
          litData).compiled =
        [{ data := litData, assetDatabase := cacheOfOne.assetDatabase,
           renderer := cacheOfOne.renderer }] ∧
      (cacheOfOne.Material failingCompiler litData).cache.FindMaterial litData.Name =
        (none, false) :=
  ⟨by decide, by decide,
    C18_compile_failure_leaves_cache cacheOfOne failingCompiler workingCompiler litData
      (by decide) (by decide)⟩

/-- C19, the code at a failing image creation: with three attachments, image
creation succeeding for attachments 0 and 1 and failing for attachment 2,
`ConstructRenderPass` returns ok = false straight after the failed `CreateImage`;
the images, views and samplers of attachments 0 and 1 were created and no
`textureIdFree` call is issued. -/
theorem C19_image_failure_frees_nothing :
    (gpuImageFailsAt2.createImageOk 0, gpuImageFailsAt2.createImageOk 1,
        gpuImageFailsAt2.createImageOk 2) = (true, true, false) ∧
      (threeAttachments.ConstructRenderPass (some gpuImageFailsAt2)).map
          (fun res => (res.ok, res.calls)) =
        some (false,
          [GpuCall.CreateImage 0 800 600 1 1 4 7 1 1 1,
           GpuCall.CreateImageView 0 1,
           GpuCall.CreateTextureSampler 0 1 6,
           GpuCall.TransitionImageLayout 0 9 1 1,
           GpuCall.CreateImage 1 800 600 1 1 4 7 1 1 1,
           GpuCall.CreateImageView 1 1,
           GpuCall.CreateTextureSampler 1 1 6,
           GpuCall.TransitionImageLayout 1 9 1 1,
           GpuCall.CreateImage 2 800 600 1 1 4 7 1 1 1]) := by
  decide

/-- C20: if for attachment i the image is created and the image view, the
sampler or the layout transition fails, every step of the attachments before i
having succeeded, `ConstructRenderPass` returns ok = false with the zero render
pass and the blueprint untouched; the calls it issued are set-up operations on
attachments 0..i followed by exactly one `textureIdFree` on each of the
attachments 0..i, in order, and nothing after them. -/
theorem C20_late_failure_frees_attachments (r : RenderPassData) (vr : Vulkan) (i : Nat)
    (hi : i < r.AttachmentDescriptions.length)
    (hbefore : ∀ j < i, vr.createImageOk j = true ∧ vr.createImageViewOk j = true ∧
      vr.createTextureSamplerOk j = true ∧ vr.transitionImageLayoutOk j = true)
    (himg : vr.createImageOk i = true)
    (hfail : vr.createImageViewOk i = false ∨ vr.createTextureSamplerOk i = false ∨
      vr.transitionImageLayoutOk i = false) :
    ∃ res pre, r.ConstructRenderPass (some vr) = some res ∧ res.ok = false ∧
      res.pass = { Handle := none, Buffer := none } ∧ res.blueprint = r ∧
      res.calls = pre ++ (List.range (i + 1)).map GpuCall.TextureIdFree ∧
      ∀ c ∈ pre, ∃ m, c.setupIndex = some m ∧ m ≤ i := by
  obtain ⟨pre, hok, hcalls, hpre⟩ := attachmentsLoop_late_failure vr i
    r.AttachmentDescriptions 0
    (List.replicate r.AttachmentDescriptions.length TextureId.zero) [] hi
    (fun j hj => by simpa using hbefore j hj) (by simpa using himg) (by simpa using hfail)
  refine ⟨{ pass := { Handle := none, Buffer := none }, ok := false,
            calls := (attachmentsLoop vr r.AttachmentDescriptions 0
              (List.replicate r.AttachmentDescriptions.length TextureId.zero) []).2.2,
            blueprint := r }, pre, ?_, rfl, rfl, rfl, ?_,
    fun c hc => by simpa using hpre c hc⟩
  · unfold RenderPassData.ConstructRenderPass
    simp only [hok, Bool.not_false, if_true]
  · simpa using hcalls

/-- C20, at three attachments with the sampler of attachment 1 failing: the
attachments 0 and 1 are freed, once each, and nothing follows. -/
theorem C20_late_failure_frees_attachments_witness :
    1 < threeAttachments.AttachmentDescriptions.length ∧
      (threeAttachments.ConstructRenderPass (some gpuSamplerFailsAt1)).map
          (fun res => (res.ok, res.calls.drop 7)) =
        some (false, [GpuCall.TextureIdFree 0, GpuCall.TextureIdFree 1]) ∧
      ∃ res pre, threeAttachments.ConstructRenderPass (some gpuSamplerFailsAt1) = some res ∧
        res.ok = false ∧ res.pass = { Handle := none, Buffer := none } ∧
        res.blueprint = threeAttachments ∧
        res.calls = pre ++ (List.range (1 + 1)).map GpuCall.TextureIdFree ∧
        ∀ c ∈ pre, ∃ m, c.setupIndex = some m ∧ m ≤ 1 :=
  ⟨by decide, by decide,
    C20_late_failure_frees_attachments threeAttachments gpuSamplerFailsAt1 1 (by decide)
      (by decide) (by decide) (by decide)⟩

/-- C27: for every batcher state and all lists a and b of drawings, submitting
a, draining, submitting b and draining again gives the same result, tree and
empty back buffer, as submitting a then b and draining once (both panic or
both return the same state); a drain on an empty back buffer returns the state
unchanged; and the single drain does return when the drawings are valid and
every instance group has its material instance set. -/
theorem C27_two_drains_equal_one (h : Heap) (d : Drawings) (a b : List Drawing) :
    (((d.AddDrawings a).PreparePending h).bind
        (fun d1 => (d1.AddDrawings b).PreparePending h) =
      ((d.AddDrawings a).AddDrawings b).PreparePending h) ∧
    (d.backDraws = [] → d.PreparePending h = some d) ∧
    ((∀ v ∈ d.backDraws ++ a ++ b, v.IsValid = true) → LiveInstances d.renderPassGroups →
      ∃ d2, ((d.AddDrawings a).AddDrawings b).PreparePending h = some d2) := by
  refine ⟨?_, ?_, ?_⟩
  · have key := prepareAll_append h (d.backDraws ++ a) b d.renderPassGroups
    unfold Drawings.PreparePending Drawings.AddDrawings
    simp only
    rw [key]
    cases prepareAll h d.renderPassGroups (d.backDraws ++ a) with
    | none => rfl
    | some groups1 => simp
  · intro hnil
    cases d with
    | mk groups buffer =>
      simp only at hnil
      subst hnil
      rfl
  · intro hv hl
    exact PreparePending_total (by simpa [Drawings.AddDrawings] using hv) hl

/-- C27, at the end-to-end example split after its first drawing. -/
theorem C27_two_drains_equal_one_witness :
    tree0.backDraws = [] ∧ tree0.PreparePending heap0 = some tree0 ∧
      (∀ v ∈ NewDrawings.backDraws ++ [drawingOf 1 10] ++ [drawingOf 1 11, drawingOf 2 12],
        v.IsValid = true) ∧
      LiveInstances NewDrawings.renderPassGroups ∧
      ((NewDrawings.AddDrawings [drawingOf 1 10]).PreparePending heap0).bind
          (fun d1 => (d1.AddDrawings [drawingOf 1 11, drawingOf 2 12]).PreparePending heap0) =
        some tree0 ∧
      ∃ d2, ((NewDrawings.AddDrawings [drawingOf 1 10]).AddDrawings
          [drawingOf 1 11, drawingOf 2 12]).PreparePending heap0 = some d2 :=
  ⟨by decide,
    (C27_two_drains_equal_one heap0 tree0 [] []).2.1 (by decide),
    by decide, by decide, by decide,
    (C27_two_drains_equal_one heap0 NewDrawings [drawingOf 1 10]
      [drawingOf 1 11, drawingOf 2 12]).2.2 (by decide) (by decide)⟩

/-- C28: in every cache state reached from NewMaterialCache through AddMaterial,
Material and FindMaterial calls, no key is bound twice in the materials map, the
pending list is as long as the map has keys, and every material of the pending
list is the value of some key of the map. -/
theorem C28_pending_mirrors_map (c : MaterialCache) (hr : CacheReachable c) :
    (c.materials.map Prod.fst).Nodup ∧
      c.pendingMaterials.length = (c.materials.map Prod.fst).length ∧
      ∀ p ∈ c.pendingMaterials, ∃ key, mapGet key c.materials = some p := by
  obtain ⟨hnd, hpend⟩ := cacheReachable_ok hr
  refine ⟨hnd, by simp [hpend], ?_⟩
  intro p hp
  rw [hpend] at hp
  obtain ⟨kv, hkv, hsnd⟩ := List.mem_map.mp hp
  obtain ⟨k, v⟩ := kv
  simp only at hsnd
  subst hsnd
  exact ⟨k, mapGet_of_mem hnd hkv⟩

/-- C28, at the cache reached by a successful `Material` call followed by a
failed one. -/
theorem C28_pending_mirrors_map_witness :
    CacheReachable cacheAfterCalls ∧ cacheAfterCalls.pendingMaterials = [some 5] ∧
      (cacheAfterCalls.materials.map Prod.fst).Nodup ∧
      cacheAfterCalls.pendingMaterials.length =
        (cacheAfterCalls.materials.map Prod.fst).length ∧
      ∀ p ∈ cacheAfterCalls.pendingMaterials,
        ∃ key, mapGet key cacheAfterCalls.materials = some p :=
  ⟨CacheReachable.material failingCompiler { Name := "unlit", blueprint := 1 }
      (CacheReachable.material workingCompiler litData (CacheReachable.init (some 0) (some 0))),
    by decide,
    C28_pending_mirrors_map cacheAfterCalls
      (CacheReachable.material failingCompiler { Name := "unlit", blueprint := 1 }
        (CacheReachable.material workingCompiler litData
          (CacheReachable.init (some 0) (some 0))))⟩

/-- C29: for texture lists a and b without repeated elements, texturesMatch(a, b)
is true exactly when b is a permutation of a, and texturesMatch(a, b) equals
texturesMatch(b, a); and texturesMatch(a, a) is true for every list a. -/
theorem C29_texturesMatch_on_duplicate_free_lists (a b : List Ptr) :
    (a.Nodup → b.Nodup →
      (texturesMatch a b = true ↔ b.Perm a) ∧ texturesMatch a b = texturesMatch b a) ∧
    texturesMatch a a = true := by
  refine ⟨?_, (texturesMatch_iff a a).mpr ⟨rfl, fun _ ht => ht⟩⟩
  intro ha hb
  have hperm : texturesMatch a b = true ↔ b.Perm a := by
    rw [texturesMatch_nodup_iff ha hb, ← List.perm_ext_iff_of_nodup ha hb]
    exact ⟨fun hp => hp.symm, fun hp => hp.symm⟩
  have hperm2 : texturesMatch b a = true ↔ b.Perm a := by
    rw [texturesMatch_nodup_iff hb ha, ← List.perm_ext_iff_of_nodup hb ha]
  refine ⟨hperm, ?_⟩
  cases hx : texturesMatch a b with
  | true => exact (hperm2.mpr (hperm.mp hx)).symm
  | false =>
    cases hy : texturesMatch b a with
    | false => rfl
    | true =>
      rw [hperm.mpr (hperm2.mp hy)] at hx
      exact absurd hx (by decide)

/-- C29, at two orderings of three textures. -/
theorem C29_texturesMatch_on_duplicate_free_lists_witness :
    [some 1, some 2, some 3].Nodup ∧ [some 3, some 1, some 2].Nodup ∧
      texturesMatch [some 1, some 2, some 3] [some 3, some 1, some 2] = true ∧
      ((texturesMatch [some 1, some 2, some 3] [some 3, some 1, some 2] = true ↔
          [some 3, some 1, some 2].Perm [some 1, some 2, some 3]) ∧
        texturesMatch [some 1, some 2, some 3] [some 3, some 1, some 2] =
          texturesMatch [some 3, some 1, some 2] [some 1, some 2, some 3]) :=
  ⟨by decide, by decide, by decide,
    (C29_texturesMatch_on_duplicate_free_lists [some 1, some 2, some 3]
      [some 3, some 1, some 2]).1 (by decide) (by decide)⟩

/-- C26, the code: for every cache, `Material` makes all its accesses to the map
and the pending list with the mutex held, while `AddMaterial` and
`FindMaterial` make theirs without ever locking it. -/
theorem C26_only_material_takes_the_mutex (c : MaterialCache) (h : Heap) (a : Nat)
    (compile : Compiler) (md : MaterialData) (key : String) :
    lockGuarded false (c.MaterialAccesses compile md) = true ∧
      lockGuarded false (c.AddMaterialAccesses h (some a)) = false ∧
      CacheAccess.Lock ∉ c.AddMaterialAccesses h (some a) ∧
      lockGuarded false (c.FindMaterialAccesses key) = false ∧
      CacheAccess.Lock ∉ c.FindMaterialAccesses key := by
  refine ⟨?_, ?_, ?_, rfl, by simp [MaterialCache.FindMaterialAccesses]⟩
  · unfold MaterialCache.MaterialAccesses
    cases mapGet md.Name c.materials with
    | some v => rfl
    | none =>
      simp only
      split <;> rfl
  · unfold MaterialCache.AddMaterialAccesses
    cases hget : mapGet (h.material a).key c.materials <;> simp [hget, lockGuarded]
  · unfold MaterialCache.AddMaterialAccesses
    cases hget : mapGet (h.material a).key c.materials <;> simp [hget]

/-- C30: for every log window, All() returns the reverse of the stored list and
leaves the window as it was; Infos(), Warnings() and Errors() return the
reverse of the sub-list, in stored order, of the messages of category info,
warn and error; and for every index id with 0 ≤ id < n, n the length of the
list of the current view group, selectEntry reads without panic the message
`target[n - id - 1]`, which is the id-th element of the displayed list. -/
theorem C30_displayed_lists_are_reversed (l : LogWindow) (id : Int) :
    l.All.2 = l.all.reverse ∧ l.All.1 = l ∧
      l.Infos = (l.all.filter (fun m => decide (m.Category = "info"))).reverse ∧
      l.Warnings = (l.all.filter (fun m => decide (m.Category = "warn"))).reverse ∧
      l.Errors = (l.all.filter (fun m => decide (m.Category = "error"))).reverse ∧
      (0 ≤ id → id < (l.selectTarget.length : Int) →
        ∃ m, l.selectEntry (some id) = some ({ l with Group := viewGroupSelected }, some m) ∧
          l.selectTarget[((l.selectTarget.length : Int) - id - 1).toNat]? = some m ∧
          l.displayed[id.toNat]? = some m) := by
  refine ⟨rfl, rfl, by simp [LogWindow.Infos, filter_eq], by simp [LogWindow.Warnings, filter_eq],
    by simp [LogWindow.Errors, filter_eq], ?_⟩
  intro h0 hlt
  obtain ⟨hnn, m, hm, hrev⟩ := reverse_getElem?_inverted l.selectTarget id h0 hlt
  refine ⟨m, ?_, hm, by rw [selectTarget_reverse]; exact hrev⟩
  unfold LogWindow.selectEntry
  simp only [h0, hlt, and_self, if_true, hnn, hm]

/-- C30, at a window showing the warnings of four messages: entry 0 is the last
warning stored. -/
theorem C30_displayed_lists_are_reversed_witness :
    (0 : Int) ≤ 0 ∧ (0 : Int) < (warnWindow.selectTarget.length : Int) ∧
      warnWindow.displayed = [logMessage "d" "warn", logMessage "b" "warn"] ∧
      ∃ m, warnWindow.selectEntry (some 0) =
          some ({ warnWindow with Group := viewGroupSelected }, some m) ∧
        warnWindow.selectTarget[((warnWindow.selectTarget.length : Int) - 0 - 1).toNat]? =
          some m ∧
        warnWindow.displayed[(0 : Int).toNat]? = some m :=
  ⟨by decide, by decide, by decide,
    (C30_displayed_lists_are_reversed warnWindow 0).2.2.2.2.2 (by decide) (by decide)⟩

/-- C21, the code when the native render pass or the framebuffer cannot be
created: with three attachments set up successfully, `ConstructRenderPass` returns
ok = false straight after the failed `NewRenderPass`, and likewise straight after
the failed `CreateFrameBuffer`; in both runs the twelve set-up calls are followed
by no `textureIdFree` call, and nothing releases the render pass. -/
theorem C21_pass_or_framebuffer_failure_frees_nothing :
    (threeAttachments.ConstructRenderPass (some gpuPassFails)).map
        (fun res => (res.ok, res.pass, res.calls)) =
      some (false, { Handle := none, Buffer := none },
        setupOfThree ++
          [GpuCall.NewRenderPass [colorAttachmentVk, colorAttachmentVk, colorAttachmentVk]
            [] []]) ∧
      (threeAttachments.ConstructRenderPass (some gpuBufferFails)).map
          (fun res => (res.ok, res.pass, res.calls)) =
        some (false, { Handle := none, Buffer := none },
          setupOfThree ++
            [GpuCall.NewRenderPass [colorAttachmentVk, colorAttachmentVk, colorAttachmentVk]
              [] [],
             GpuCall.CreateFrameBuffer [some 200, some 201, some 202] 800 600]) ∧
      (∀ c ∈ setupOfThree, c.setupIndex ≠ none) := by
  decide

/-- C23, the code at a blueprint with one subpass that has two colour
references, one input reference and the preserve attachment `5`: the native
subpass descriptor reports the colour count 1 (the number of subpasses) where the
subpass has 2 colour references, and its preserve array holds `0` where the
blueprint holds `5`; the reference arrays themselves are translated entry by
entry. -/
theorem C23_counts_and_preserve_of_one_subpass :
    fullSubpass.ColorAttachmentReferences.length = 2 ∧
      fullSubpass.PreserveAttachments = [5] ∧
      (onePass.ConstructRenderPass (some gpuAllOk)).map
          (fun res => res.calls.filterMap (fun c =>
            match c with
            | GpuCall.NewRenderPass _ subpasses _ => some subpasses
            | _ => none)) =
        some [[{ Flags := 0, PipelineBindPoint := 8, ColorAttachmentCount := 1,
                 InputAttachmentCount := 1, PreserveAttachmentCount := 1,
                 PColorAttachments :=
                   some [{ Attachment := 0, Layout := 5 }, { Attachment := 1, Layout := 5 }],
                 PInputAttachments := some [{ Attachment := 0, Layout := 4 }],
                 PPreserveAttachments := some [0],
                 PDepthStencilAttachment := some [{ Attachment := 1, Layout := 5 }],
                 PResolveAttachments := some [{ Attachment := 1, Layout := 5 }] }]] := by
  decide

/-- C24, the code at a blueprint whose subpass preserves attachment `5`: after a
successful `ConstructRenderPass` the blueprint's `PreserveAttachments` holds `0`,
so the blueprint is not the one the call was given. -/
theorem C24_blueprint_preserve_attachments_zeroed :
    onePass.SubpassDescriptions.map (fun sp => sp.PreserveAttachments) = [[5]] ∧
      (onePass.ConstructRenderPass (some gpuAllOk)).map
          (fun res => (res.ok, res.blueprint.SubpassDescriptions.map
            (fun sp => sp.PreserveAttachments))) = some (true, [[0]]) ∧
      (onePass.ConstructRenderPass (some gpuAllOk)).map (fun res => res.blueprint) ≠
        some onePass := by
  decide

/-- C25, the code at two blueprints on a renderer whose operations all succeed:
with one attachment and one subpass that has a colour reference and no
depth-stencil reference, and with no attachment at all, `ConstructRenderPass`
indexes out of range and returns nothing. -/
theorem C25_out_of_range_on_small_blueprints :
    plainPass.ConstructRenderPass (some gpuAllOk) = none ∧
      translateRefs vkTables plainPass.SubpassDescriptions.length colorOnlySubpass = none ∧
      emptyPass.ConstructRenderPass (some gpuAllOk) = none ∧
      (attachmentsLoop gpuAllOk emptyPass.AttachmentDescriptions 0 [] []).2.1[0]? = none := by
  decide

/-- C22: whenever `ConstructRenderPass` returns, the native attachment array it
hands to `NewRenderPass` has the length of `AttachmentDescriptions` and its entry
i holds the translated format, sample count, load/store ops, stencil load/store
ops and initial/final layouts of blueprint attachment i; the native dependency
array has the length of `SubpassDependencies` and its entry i holds blueprint
dependency i's source and destination subpass and translated stage, access and
dependency masks; the image views handed to `CreateFrameBuffer` are as many as
the attachments and position i holds the view created for attachment i. A call
that returns ok = true has issued both `NewRenderPass` and `CreateFrameBuffer`. -/
theorem C22_native_arrays_keep_the_index (r : RenderPassData) (vr : Vulkan)
    (res : ConstructResult) (h : r.ConstructRenderPass (some vr) = some res) :
    (∀ atts subs deps, GpuCall.NewRenderPass atts subs deps ∈ res.calls →
      atts.length = r.AttachmentDescriptions.length ∧
      (∀ (i : Nat) (a : RenderPassAttachmentDescription),
        r.AttachmentDescriptions[i]? = some a →
        ∃ x, atts[i]? = some x ∧
          x.Format = vr.translate.format a.Format ∧
          x.Samples = vr.translate.sampleCount a.Samples ∧
          x.LoadOp = vr.translate.attachmentLoadOp a.LoadOp ∧
          x.StoreOp = vr.translate.attachmentStoreOp a.StoreOp ∧
          x.StencilLoadOp = vr.translate.attachmentLoadOp a.StencilLoadOp ∧
          x.StencilStoreOp = vr.translate.attachmentStoreOp a.StencilStoreOp ∧
          x.InitialLayout = vr.translate.imageLayout a.InitialLayout ∧
          x.FinalLayout = vr.translate.imageLayout a.FinalLayout) ∧
      deps.length = r.SubpassDependencies.length ∧
      (∀ (i : Nat) (d : RenderPassSubpassDependency),
        r.SubpassDependencies[i]? = some d →
        ∃ y, deps[i]? = some y ∧
          y.SrcSubpass = d.SrcSubpass ∧ y.DstSubpass = d.DstSubpass ∧
          y.SrcStageMask = vr.translate.pipelineStageFlags d.SrcStageMask ∧
          y.DstStageMask = vr.translate.pipelineStageFlags d.DstStageMask ∧
          y.SrcAccessMask = vr.translate.accessFlags d.SrcAccessMask ∧
          y.DstAccessMask = vr.translate.accessFlags d.DstAccessMask ∧
          y.DependencyFlags = vr.translate.dependencyFlags d.DependencyFlags)) ∧
      (∀ views w ht, GpuCall.CreateFrameBuffer views w ht ∈ res.calls →
        views.length = r.AttachmentDescriptions.length ∧
        ∀ i, i < r.AttachmentDescriptions.length → views[i]? = some (some (vr.viewOf i))) ∧
      (res.ok = true → ∃ atts subs deps views w ht,
        GpuCall.NewRenderPass atts subs deps ∈ res.calls ∧
          GpuCall.CreateFrameBuffer views w ht ∈ res.calls) := by
  have hloop : ∀ c ∈ (attachmentsLoop vr r.AttachmentDescriptions 0
      (List.replicate r.AttachmentDescriptions.length TextureId.zero) []).2.2,
      c.isLoopCall = true := by
    intro c hc
    rcases attachmentsLoop_calls vr _ _ _ _ c hc with h0 | h0
    · simp at h0
    · exact h0
  have hatts : ∀ atts subs deps, GpuCall.NewRenderPass atts subs deps ∈ res.calls →
      atts = translateAttachments vr.translate r.AttachmentDescriptions ∧
        deps = translateDependencies vr.translate r.SubpassDependencies := by
    intro atts subs deps hc
    rcases constructRenderPass_calls h with ⟨_, hcalls⟩ | ⟨_, subs0, ⟨_, hcalls⟩ | ⟨w, ht, hcalls⟩⟩
    · rw [hcalls] at hc
      exact absurd (hloop _ hc) (by simp [GpuCall.isLoopCall])
    · rw [hcalls] at hc
      simp only [List.mem_append, List.mem_singleton] at hc
      rcases hc with hc | hc
      · exact absurd (hloop _ hc) (by simp [GpuCall.isLoopCall])
      · injection hc with e1 e2 e3
        exact ⟨e1, e3⟩
    · rw [hcalls] at hc
      simp only [List.mem_append, List.mem_singleton] at hc
      rcases hc with (hc | hc) | hc
      · exact absurd (hloop _ hc) (by simp [GpuCall.isLoopCall])
      · injection hc with e1 e2 e3
        exact ⟨e1, e3⟩
      · exact absurd hc (by simp)
  refine ⟨?_, ?_, ?_⟩
  · intro atts subs deps hc
    obtain ⟨rfl, rfl⟩ := hatts atts subs deps hc
    rw [translateAttachments_eq_map, translateDependencies_eq_map]
    refine ⟨by simp, ?_, by simp, ?_⟩
    · intro i a ha
      refine ⟨_, by rw [List.getElem?_map, ha]; rfl, rfl, rfl, rfl, rfl, rfl, rfl, rfl, rfl⟩
    · intro i d hd
      refine ⟨_, by rw [List.getElem?_map, hd]; rfl, rfl, rfl, rfl, rfl, rfl, rfl, rfl⟩
  · intro views w ht hc
    rcases constructRenderPass_calls h with ⟨_, hcalls⟩ | ⟨hok, subs0, ⟨_, hcalls⟩ | ⟨w0, ht0, hcalls⟩⟩
    · rw [hcalls] at hc
      exact absurd (hloop _ hc) (by simp [GpuCall.isLoopCall])
    · rw [hcalls] at hc
      simp only [List.mem_append, List.mem_singleton] at hc
      rcases hc with hc | hc
      · exact absurd (hloop _ hc) (by simp [GpuCall.isLoopCall])
      · exact absurd hc (by simp)
    · rw [hcalls] at hc
      simp only [List.mem_append, List.mem_singleton] at hc
      rcases hc with (hc | hc) | hc
      · exact absurd (hloop _ hc) (by simp [GpuCall.isLoopCall])
      · exact absurd hc (by simp)
      · injection hc with e1 e2 e3
        subst e1
        obtain ⟨hlen, _, hin⟩ := attachmentsLoop_views vr _ _ _ _ hok
        rw [collectViews_eq_map]
        refine ⟨by simp [hlen], ?_⟩
        intro i hi
        rw [List.getElem?_map]
        exact hin i (Nat.zero_le i) (by simpa using hi) (by simpa using hi)
  · intro hok
    rcases constructRenderPass_calls h with ⟨hf, _⟩ | ⟨_, subs0, ⟨hf, _⟩ | ⟨w0, ht0, hcalls⟩⟩
    · rw [hf] at hok
      exact absurd hok (by simp)
    · rw [hf] at hok
      exact absurd hok (by simp)
    · exact ⟨translateAttachments vr.translate r.AttachmentDescriptions, subs0,
        translateDependencies vr.translate r.SubpassDependencies,
        collectViews (attachmentsLoop vr r.AttachmentDescriptions 0
          (List.replicate r.AttachmentDescriptions.length TextureId.zero) []).2.1,
        w0, ht0, by rw [hcalls]; simp, by rw [hcalls]; simp⟩

/-- C22, at the blueprint `onePass` (two attachments, one dependency) on a
renderer whose operations all succeed. -/
theorem C22_native_arrays_keep_the_index_witness :
    onePass.ConstructRenderPass (some gpuAllOk) = some onePassResult ∧
      (∀ atts subs deps, GpuCall.NewRenderPass atts subs deps ∈ onePassResult.calls →
        atts.length = onePass.AttachmentDescriptions.length ∧
        (∀ (i : Nat) (a : RenderPassAttachmentDescription),
          onePass.AttachmentDescriptions[i]? = some a →
          ∃ x, atts[i]? = some x ∧
            x.Format = gpuAllOk.translate.format a.Format ∧
            x.Samples = gpuAllOk.translate.sampleCount a.Samples ∧
            x.LoadOp = gpuAllOk.translate.attachmentLoadOp a.LoadOp ∧
            x.StoreOp = gpuAllOk.translate.attachmentStoreOp a.StoreOp ∧
            x.StencilLoadOp = gpuAllOk.translate.attachmentLoadOp a.StencilLoadOp ∧
            x.StencilStoreOp = gpuAllOk.translate.attachmentStoreOp a.StencilStoreOp ∧
            x.InitialLayout = gpuAllOk.translate.imageLayout a.InitialLayout ∧
            x.FinalLayout = gpuAllOk.translate.imageLayout a.FinalLayout) ∧
        deps.length = onePass.SubpassDependencies.length ∧
        (∀ (i : Nat) (d : RenderPassSubpassDependency),
          onePass.SubpassDependencies[i]? = some d →
          ∃ y, deps[i]? = some y ∧
            y.SrcSubpass = d.SrcSubpass ∧ y.DstSubpass = d.DstSubpass ∧
            y.SrcStageMask = gpuAllOk.translate.pipelineStageFlags d.SrcStageMask ∧
            y.DstStageMask = gpuAllOk.translate.pipelineStageFlags d.DstStageMask ∧
            y.SrcAccessMask = gpuAllOk.translate.accessFlags d.SrcAccessMask ∧
            y.DstAccessMask = gpuAllOk.translate.accessFlags d.DstAccessMask ∧
            y.DependencyFlags = gpuAllOk.translate.dependencyFlags d.DependencyFlags)) ∧
      (∀ views w ht, GpuCall.CreateFrameBuffer views w ht ∈ onePassResult.calls →
        views.length = onePass.AttachmentDescriptions.length ∧
        ∀ i, i < onePass.AttachmentDescriptions.length →
          views[i]? = some (some (gpuAllOk.viewOf i))) ∧
      (onePassResult.ok = true → ∃ atts subs deps views w ht,
        GpuCall.NewRenderPass atts subs deps ∈ onePassResult.calls ∧
          GpuCall.CreateFrameBuffer views w ht ∈ onePassResult.calls) :=
  ⟨by decide, C22_native_arrays_keep_the_index onePass gpuAllOk onePassResult (by decide)⟩

end Kaiju
